import Mathlib

/-!
# Operation-sequence decoder (`helper.go`)

A shallow embedding of `ParseOpsFromU256` and the functions it calls.

* A `*big.Int` holding a non-negative value is a natural number; a nil pointer
  is `none`.  The words of the body are 256-bit unsigned values behind non-nil
  pointers.
* The working copy `u256s` is a list of cells.  A pointer into it (`bits`) is
  an index, and a sub-slice `u256s[k:]` is its start index, so the in-place
  shifts done by the `Pop` functions are written back to the cell they act on.
* `out *bytes.Buffer` is the string accumulated so far.
* A run-time panic (nil dereference, index out of range) is the result `none`
  of a decoder and `Outcome.panic` of the entry point.
* The loop of the dispatcher runs on fuel, one unit for each test of its
  condition; `opsLoop_total` and `opsLoop_fuel` show that the fuel it is given
  is never used up.
-/

namespace ParseTx

/-! ## Formatting -/

/-- Decimal rendering, as `%v`, `%s` and `Fprintln` print unsigned integers and
non-negative `big.Int` values. -/
def fmtDec (n : Nat) : String := Nat.repr n

/-- Rendering of the verb `%#x`: lower-case hexadecimal after `0x`. -/
def fmtHex (n : Nat) : String := "0x" ++ String.mk (Nat.toDigits 16 n)

/-- Text written by `fmt.Fprintln`: the operands separated by one blank, then a
newline. -/
def lineOf (operands : List String) : String := " ".intercalate operands ++ "\n"

/-- Buffer after `fmt.Fprintln(out, operands...)`. -/
def Fprintln (out : String) (operands : List String) : String := out ++ lineOf operands

/-! ## Errors -/

/-- One constructor per `fmt.Errorf` site of the decoder, with the values the
message is formatted from. -/
inductive Err where
  | emptyBody
  | invalidHeader
  | wrongMagicNumber
  | invalidOpcode (opcode : Nat)
  | notEnoughInputs
  | invalidV1 (v1 : Nat)
  | invalidV2 (v2 : Nat)
  | extraBitsInOrderKey (bits : Nat)
  | extraDataInOrderBits (bits : Nat)
  | signatureRZero
  | signatureSZero
  deriving DecidableEq, Repr

/-- The message of the error value. -/
def Err.message : Err → String
  | .emptyBody => "empty body"
  | .invalidHeader => "invalid header"
  | .wrongMagicNumber => "wrong magic number"
  | .invalidOpcode opcode => "invalid opcode " ++ fmtHex opcode
  | .notEnoughInputs => "not enough inputs for matching order"
  | .invalidV1 v1 => "invalid v1: " ++ fmtDec v1
  | .invalidV2 v2 => "invalid v2: " ++ fmtDec v2
  | .extraBitsInOrderKey bits => "extra bits in orderKey: " ++ fmtDec bits
  | .extraDataInOrderBits bits => "extra data in order bits: " ++ fmtHex bits
  | .signatureRZero => "signature uint256 r is zero"
  | .signatureSZero => "signature uint256 s is zero"

/-- The names the specification gives to the failure conditions. -/
inductive ErrorKind where
  | EmptyBody
  | InvalidHeader
  | WrongMagicNumber
  | InvalidOpcode
  | InsufficientInputs
  | InvalidDiscriminator
  | ExtraBitsInField
  | ZeroSignatureComponent
  deriving DecidableEq, Repr

/-- The failure condition an error value stands for. -/
def Err.kind : Err → ErrorKind
  | .emptyBody => .EmptyBody
  | .invalidHeader => .InvalidHeader
  | .wrongMagicNumber => .WrongMagicNumber
  | .invalidOpcode _ => .InvalidOpcode
  | .notEnoughInputs => .InsufficientInputs
  | .invalidV1 _ => .InvalidDiscriminator
  | .invalidV2 _ => .InvalidDiscriminator
  | .extraBitsInOrderKey _ => .ExtraBitsInField
  | .extraDataInOrderBits _ => .ExtraBitsInField
  | .signatureRZero => .ZeroSignatureComponent
  | .signatureSZero => .ZeroSignatureComponent

/-! ## `big.Int` helpers -/

/-- `U64(v)`: the `big.Int` of a `uint64`. -/
def U64 (v : Nat) : Nat := v % 2 ^ 64

/-- `Sub(x, y)`, used only with `y ≤ x`. -/
def Sub (x y : Nat) : Nat := x - y

/-- `Exp(x, y)`: x to the power y. -/
def Exp (x y : Nat) : Nat := x ^ y

/-- `And(x, y)`: bitwise and. -/
def And (x y : Nat) : Nat := x &&& y

/-- `(*big.Int).Uint64()`: the low 64 bits. -/
def Uint64 (x : Nat) : Nat := x % 2 ^ 64

/-- `x.BitLen()`: the length of x in bits, 0 for 0. -/
def BitLen (x : Nat) : Nat := if x = 0 then 0 else Nat.log2 x + 1

/-- `PopUint64`: the returned value and the cursor after `u.Rsh(u, 64)`. -/
def PopUint64 (u : Nat) : Nat × Nat :=
  (Uint64 (And u (U64 0xFFFFFFFFFFFFFFFF)), u >>> 64)

/-- `PopUint32`: the returned value, narrowed to `uint32`, and the shifted cursor. -/
def PopUint32 (u : Nat) : Nat × Nat :=
  (Uint64 (And u (U64 0xFFFFFFFF)) % 2 ^ 32, u >>> 32)

/-- `PopUint16`: the returned value, narrowed to `uint16`, and the shifted cursor. -/
def PopUint16 (u : Nat) : Nat × Nat :=
  (Uint64 (And u (U64 0xFFFF)) % 2 ^ 16, u >>> 16)

/-- `PopUint8`: the returned value, narrowed to `uint8`, and the shifted cursor. -/
def PopUint8 (u : Nat) : Nat × Nat :=
  (Uint64 (And u (U64 0xFF)) % 2 ^ 8, u >>> 8)

/-- `PopUint160`: the masked low 160 bits and the shifted cursor. -/
def PopUint160 (u : Nat) : Nat × Nat :=
  (And u (Sub (Exp (U64 2) (U64 160)) (U64 1)), u >>> 160)

/-! ## The working copy -/

/-- The cells of `u256s`. -/
abbrev Mem := List Nat

/-- The value behind the pointer p. -/
def load (m : Mem) (p : Nat) : Nat := m.getD p 0

/-- A `Pop` function applied to the pointer p: the returned value, and the
working copy with the shifted cursor stored in the cell. -/
def popAt (pop : Nat → Nat × Nat) (m : Mem) (p : Nat) : Nat × Mem :=
  ((pop (load m p)).1, m.set p (pop (load m p)).2)

/-- A slice of `u256s`: nil, or `u256s[start:]`. -/
inductive Slice where
  | nil
  | sub (start : Nat)
  deriving DecidableEq, Repr

/-- Value of `len(rest)`. -/
def Slice.len (m : Mem) : Slice → Nat
  | .nil => 0
  | .sub start => m.length - start

/-- Pointer `rest[k]`; `none` when the index is out of range. -/
def Slice.index (m : Mem) (rest : Slice) (k : Nat) : Option Nat :=
  match rest with
  | .nil => none
  | .sub start => if k < m.length - start then some (start + k) else none

/-- Slice `rest[k:]`; `none` when k is out of range. -/
def Slice.drop (m : Mem) (rest : Slice) (k : Nat) : Option Slice :=
  match rest with
  | .nil => if k = 0 then some .nil else none
  | .sub start => if k ≤ m.length - start then some (.sub (start + k)) else none

/-- What a decoder leaves behind: the working copy, the buffer, and the
`error` it returns (`none` for nil).  The whole is `none` when it panics. -/
abbrev Decoded := Option (Mem × String × Option Err)

/-! ## Per-opcode decoders -/

/-- `parseConfirmDepositOp`. -/
def parseConfirmDepositOp (m : Mem) (out : String) (bits : Nat) : Mem × String × Option Err :=
  let out := Fprintln out ["operation ConfirmDeposit:"]
  let out := Fprintln out ["  depositIndex: ", fmtDec (load m bits)]
  (m, out, none)

/-- `parseInitiateWithdrawOp`. -/
def parseInitiateWithdrawOp (m : Mem) (out : String) (bits : Nat) : Mem × String × Option Err :=
  let out := Fprintln out ["operation InitiateWithdraw:"]
  let traderAddr := popAt PopUint160 m bits
  let out := out ++ ("  traderAddr: " ++ fmtHex traderAddr.1 ++ "\n")
  let tokenCode := popAt PopUint16 traderAddr.2 bits
  let out := Fprintln out ["  tokenCode:", fmtDec tokenCode.1]
  let amountE8 := popAt PopUint64 tokenCode.2 bits
  let out := Fprintln out ["  amountE8:", fmtDec amountE8.1]
  (amountE8.2, out, none)

/-- Lines 241-261 of `parseOrderOpOperand`: the order fields word `rest[0]` and
the two signature words `rest[1]`, `rest[2]`. -/
def parseNewOrderWords (m : Mem) (out : String) (rest : Slice) : Decoded :=
  match rest.index m 0 with
  | none => none
  | some bits =>
    let pairId := popAt PopUint32 m bits
    let out := Fprintln out ["    pairId  :", fmtDec pairId.1]
    let action := popAt PopUint8 pairId.2 bits
    let out := Fprintln out ["    action  :", fmtDec action.1]
    let ioc := popAt PopUint8 action.2 bits
    let out := Fprintln out ["    ioc     :", fmtDec ioc.1]
    let priceE8 := popAt PopUint64 ioc.2 bits
    let out := Fprintln out ["    priceE8 :", fmtDec priceE8.1]
    let amountE8 := popAt PopUint64 priceE8.2 bits
    let out := Fprintln out ["    amountE8:", fmtDec amountE8.1]
    let expire := popAt PopUint64 amountE8.2 bits
    let out := Fprintln out ["    expire  :", fmtDec expire.1]
    let m := expire.2
    if BitLen (load m bits) ≠ 0 then
      some (m, out, some (Err.extraDataInOrderBits (load m bits)))
    else
      match rest.index m 1 with
      | none => none
      | some r1 =>
        if BitLen (load m r1) = 0 then
          some (m, out, some Err.signatureRZero)
        else
          let out := out ++ ("    s       : " ++ fmtHex (load m r1) ++ "\n")
          match rest.index m 2 with
          | none => none
          | some r2 =>
            if BitLen (load m r2) = 0 then
              some (m, out, some Err.signatureSZero)
            else
              let out := out ++ ("    t       : " ++ fmtHex (load m r2) ++ "\n")
              some (m, out, none)

/-- `parseOrderOpOperand`. -/
def parseOrderOpOperand (m : Mem) (out : String) (bits : Nat) (rest : Slice) : Decoded :=
  let trader := popAt PopUint160 m bits
  let out := out ++ ("    trader: " ++ fmtHex trader.1 ++ "\n")
  let nonce := popAt PopUint64 trader.2 bits
  let out := Fprintln out ["    nonce:", fmtDec nonce.1]
  let m := nonce.2
  if BitLen (load m bits) ≠ 0 then
    some (m, out, some (Err.extraBitsInOrderKey (load m bits)))
  else if rest = Slice.nil then
    some (m, out, none)
  else
    parseNewOrderWords m out rest

/-- The documented precondition of `parseOrderOpOperand`: `rest` is nil or has
at least 3 elements. -/
def OperandPre (m : Mem) (rest : Slice) : Prop := rest = Slice.nil ∨ 3 ≤ rest.len m

instance (m : Mem) (rest : Slice) : Decidable (OperandPre m rest) := by
  unfold OperandPre
  exact inferInstance

/-- `parseOrderOpOperand` with its precondition asserted on entry: a call that
breaks it is reported like a panic. -/
def parseOrderOpOperandChecked (m : Mem) (out : String) (bits : Nat) (rest : Slice) : Decoded :=
  if OperandPre m rest then parseOrderOpOperand m out bits rest else none

/-- What `parseMatchOrdersOp` leaves behind: as `Decoded`, with the returned
`consumed`. -/
abbrev Matched := Option (Mem × String × Nat × Option Err)

/-- Lines 205-227 of `parseMatchOrdersOp`: the taker operand.  The decoder of an
operand is a parameter, `parseOrderOpOperand` in the program. -/
def parseTakerWith (operand : Mem → String → Nat → Slice → Decoded)
    (m : Mem) (out : String) (rest : Slice) (consumed : Nat) : Matched :=
  match rest.index m 0, rest.drop m 1 with
  | some bits, some rest =>
    let v2 := popAt PopUint8 m bits
    let m := v2.2
    if v2.1 = 0 then
      let out := Fprintln out ["  takerOrder (existing):"]
      let consumed := consumed + 1
      match operand m out bits Slice.nil with
      | none => none
      | some (m, out, some err) => some (m, out, consumed, some err)
      | some (m, out, none) => some (m, out, consumed, none)
    else
      let out := out ++ ("  takerOrder (new, v2=" ++ fmtDec v2.1 ++ "):\n")
      if v2.1 ≠ 27 ∧ v2.1 ≠ 28 then
        some (m, out, 0, some (Err.invalidV2 v2.1))
      else if rest.len m < 3 then
        some (m, out, 0, some Err.notEnoughInputs)
      else
        let consumed := consumed + 4
        match operand m out bits rest with
        | none => none
        | some (m, out, some err) => some (m, out, consumed, some err)
        | some (m, out, none) => some (m, out, consumed, none)
  | _, _ => none

/-- `parseMatchOrdersOp`, the decoder of an operand being a parameter. -/
def parseMatchOrdersOpWith (operand : Mem → String → Nat → Slice → Decoded)
    (m : Mem) (out : String) (bits : Nat) (rest : Slice) : Matched :=
  let out := Fprintln out ["operation MatchOrder:"]
  let consumed := 0
  let v1 := popAt PopUint8 m bits
  let m := v1.2
  if v1.1 = 0 then
    let out := Fprintln out ["  makerOrder (existing):"]
    if rest.len m < 1 then
      some (m, out, 0, some Err.notEnoughInputs)
    else
      let consumed := consumed + 1
      match operand m out bits Slice.nil with
      | none => none
      | some (m, out, some err) => some (m, out, consumed, some err)
      | some (m, out, none) => parseTakerWith operand m out rest consumed
  else
    let out := out ++ ("  makerOrder (new, v1=" ++ fmtDec v1.1 ++ "):\n")
    if v1.1 ≠ 27 ∧ v1.1 ≠ 28 then
      some (m, out, 0, some (Err.invalidV1 v1.1))
    else if rest.len m < 4 then
      some (m, out, 0, some Err.notEnoughInputs)
    else
      let consumed := consumed + 4
      match operand m out bits rest with
      | none => none
      | some (m, out, some err) => some (m, out, consumed, some err)
      | some (m, out, none) =>
        match rest.drop m 3 with
        | none => none
        | some rest => parseTakerWith operand m out rest consumed

/-- `parseMatchOrdersOp`. -/
def parseMatchOrdersOp (m : Mem) (out : String) (bits : Nat) (rest : Slice) : Matched :=
  parseMatchOrdersOpWith parseOrderOpOperand m out bits rest

/-- `parseHardCancelOrderOp`. -/
def parseHardCancelOrderOp (m : Mem) (out : String) (_bits : Nat) : Mem × String × Option Err :=
  let out := Fprintln out ["operation HardCancel:"]
  let out := Fprintln out ["  <to be implemented>"]
  (m, out, none)

/-- `parseSetFeeRatesOp`. -/
def parseSetFeeRatesOp (m : Mem) (out : String) (_bits : Nat) : Mem × String × Option Err :=
  let out := Fprintln out ["operation SetFeeRates:"]
  let out := Fprintln out ["  <to be implemented>"]
  (m, out, none)

/-- `parseSetFeeRebatePercentOp`. -/
def parseSetFeeRebatePercentOp (m : Mem) (out : String) (_bits : Nat) :
    Mem × String × Option Err :=
  let out := Fprintln out ["operation SetFeeRebatePercent:"]
  let out := Fprintln out ["  <to be implemented>"]
  (m, out, none)

/-! ## The dispatcher -/

/-- A decoder that consumes one word, as the `switch` of the dispatcher sees it. -/
def oneWord (r : Mem × String × Option Err) : Matched := some (r.1, r.2.1, 1, r.2.2)

/-- The `switch` of `ParseOpsFromU256` on the opcode popped from `u256s[i]`,
giving `consumed` and `err`.  The `default` case, which returns at once, is the
result with the error `invalidOpcode`: the test `err != nil` that follows the
switch returns the same pair. -/
def dispatch (m : Mem) (out : String) (i : Nat) (opcode : Nat) : Matched :=
  let bits := i
  if opcode = 0xDE01 then oneWord (parseConfirmDepositOp m out bits)
  else if opcode = 0xDE02 then oneWord (parseInitiateWithdrawOp m out bits)
  else if opcode = 0xDE03 then
    match Slice.drop m (Slice.sub 0) (i + 1) with
    | none => none
    | some rest => parseMatchOrdersOp m out bits rest
  else if opcode = 0xDE04 then oneWord (parseHardCancelOrderOp m out bits)
  else if opcode = 0xDE05 then oneWord (parseSetFeeRatesOp m out bits)
  else if opcode = 0xDE06 then oneWord (parseSetFeeRebatePercentOp m out bits)
  else some (m, out, 1, some (Err.invalidOpcode opcode))

/-- Result of `ParseOpsFromU256`. -/
inductive Outcome where
  | panic
  | outOfFuel
  | ret (trace : String) (err : Option Err)
  deriving DecidableEq, Repr

/-- The loop `for i := 0; i < len(u256s); { ... }` of `ParseOpsFromU256`, from
the index i on; one unit of fuel per test of the loop condition. -/
def opsLoop : Nat → Mem → Nat → String → Outcome
  | 0, _, _, _ => Outcome.outOfFuel
  | fuel + 1, m, i, out =>
    if i < m.length then
      let opcode := popAt PopUint16 m i
      if opcode.1 >>> 8 ≠ 0xDE then
        Outcome.ret out (some Err.wrongMagicNumber)
      else
        match dispatch opcode.2 out i opcode.1 with
        | none => Outcome.panic
        | some (_, out, _, some err) => Outcome.ret out (some err)
        | some (m, out, consumed, none) =>
          let i := i + consumed
          let out := if i < m.length then Fprintln out [""] else out
          opsLoop fuel m i out
    else
      Outcome.ret out none

/-- `new(big.Int).Set(x)`: a fresh copy of x; `none` is the nil-pointer panic
of reading through a nil x. -/
def newIntSet (x : Option Nat) : Option Nat := x

/-- `ParseOpsFromU256`.  The loop gets `len(u256s) + 1` units of fuel. -/
def ParseOpsFromU256 (header : Option Nat) (originalBody : List Nat) : Outcome :=
  match newIntSet header with
  | none => Outcome.panic
  | some headerCopy =>
    let header : Option Nat := some headerCopy
    let u256s : Mem := originalBody.map fun u => u
    let out := ""
    if u256s.length = 0 then
      Outcome.ret "" (some Err.emptyBody)
    else
      match header with
      | some header =>
        let beginIndex := PopUint64 header
        let newLogicTimeSec := PopUint64 beginIndex.2
        if BitLen newLogicTimeSec.2 ≠ 0 then
          Outcome.ret out (some Err.invalidHeader)
        else
          let out := Fprintln out ["newLogicTimeSec:", fmtDec newLogicTimeSec.1]
          let out := Fprintln out ["beginIndex:", fmtDec beginIndex.1]
          let out := Fprintln out ["len(body):", fmtDec u256s.length]
          opsLoop (u256s.length + 1) u256s 0 out
      | none =>
        let out := Fprintln out ["len(body):", fmtDec u256s.length]
        opsLoop (u256s.length + 1) u256s 0 out

/-! ## Text of the operand lines

The lines `parseOrderOpOperand` writes, as functions of the word they are
extracted from; the theorems below show that the decoder writes exactly these. -/

/-- The `trader` and `nonce` lines for the order-key cursor k (lines 232-233). -/
def keyText (k : Nat) : String :=
  ("    trader: " ++ fmtHex (k % 2 ^ 160) ++ "\n") ++
    lineOf ["    nonce:", fmtDec (k / 2 ^ 160 % 2 ^ 64)]

/-- The six field lines for the order-fields word w (lines 243-248). -/
def fieldsText (w : Nat) : String :=
  lineOf ["    pairId  :", fmtDec (w % 2 ^ 32)] ++
    (lineOf ["    action  :", fmtDec (w / 2 ^ 32 % 2 ^ 8)] ++
      (lineOf ["    ioc     :", fmtDec (w / 2 ^ 40 % 2 ^ 8)] ++
        (lineOf ["    priceE8 :", fmtDec (w / 2 ^ 48 % 2 ^ 64)] ++
          (lineOf ["    amountE8:", fmtDec (w / 2 ^ 112 % 2 ^ 64)] ++
            lineOf ["    expire  :", fmtDec (w / 2 ^ 176 % 2 ^ 64)]))))

/-- The line of the first signature word (line 256). -/
def sText (s : Nat) : String := "    s       : " ++ fmtHex s ++ "\n"

/-- The line of the second signature word (line 260). -/
def tText (t : Nat) : String := "    t       : " ++ fmtHex t ++ "\n"

/-- The three lines written before the loop for a valid header h and a body of
n words (lines 121-124). -/
def headerText (h n : Nat) : String :=
  lineOf ["newLogicTimeSec:", fmtDec (h / 2 ^ 64 % 2 ^ 64)] ++
    (lineOf ["beginIndex:", fmtDec (h % 2 ^ 64)] ++ lineOf ["len(body):", fmtDec n])

/-! ## Results up to the text already in the buffer -/

/-- The result of a decoder run on an empty buffer, seen with `out` before the
text it wrote. -/
def afterD (out : String) (d : Decoded) : Decoded :=
  d.map fun r => (r.1, out ++ r.2.1, r.2.2)

/-- As `afterD`, for `parseMatchOrdersOp` and the dispatcher. -/
def afterM (out : String) (d : Matched) : Matched :=
  d.map fun r => (r.1, out ++ r.2.1, r.2.2.1, r.2.2.2)

/-- As `afterD`, for the outcome of the loop. -/
def Outcome.after (out : String) : Outcome → Outcome
  | Outcome.ret trace err => Outcome.ret (out ++ trace) err
  | Outcome.panic => Outcome.panic
  | Outcome.outOfFuel => Outcome.outOfFuel

/-! ## Decoders seen from a longer working copy -/

/-- A slice of the working copy, seen from a working copy with `off` more
cells in front. -/
def Slice.shift (off : Nat) : Slice → Slice
  | Slice.nil => Slice.nil
  | Slice.sub start => Slice.sub (off + start)

/-- The result of a decoder on the working copy m, seen from the working copy
`pre ++ m`. -/
def underD (pre : Mem) (d : Decoded) : Decoded :=
  d.map fun r => (pre ++ r.1, r.2)

/-- As `underD`, for `parseMatchOrdersOp` and the dispatcher. -/
def underM (pre : Mem) (d : Matched) : Matched :=
  d.map fun r => (pre ++ r.1, r.2)

/-- The result of a decoder on the working copy m, seen from the working copy
`m ++ post`. -/
def overD (post : Mem) (d : Decoded) : Decoded :=
  d.map fun r => (r.1 ++ post, r.2)

/-! ## The caller's heap

`ParseOpsFromU256` with the caller's objects in view.  The heap is a list of
`big.Int` cells; the caller's header is the address of one of them (or nil),
and `originalBody` is a list of such addresses, which may repeat.
`new(big.Int).Set(x)` appends a fresh cell, so the working copy `u256s` is the
run of cells appended by the copy loop, and `u256s[i]` is the cell `base + i`
where `base` is the length of the heap when the copy loop starts. -/

/-- `new(big.Int).Set(x)` on the heap: a fresh cell with the value of the cell
x points to, and its address; `none` is the nil-pointer panic. -/
def newIntSetAt (heap : Mem) (x : Option Nat) : Option (Mem × Nat) :=
  match x with
  | none => none
  | some p => some (heap ++ [load heap p], heap.length)

/-- The loop `for i, u := range originalBody { u256s[i] = new(big.Int).Set(u) }`
(lines 105-107): the heap it leaves, and whether it ran to its end (`false` is
the nil-pointer panic on a nil body word). -/
def copyBody (heap : Mem) : List (Option Nat) → Mem × Bool
  | [] => (heap, true)
  | u :: us =>
    match newIntSetAt heap u with
    | none => (heap, false)
    | some (heap, _) => copyBody heap us

/-- The loop of `ParseOpsFromU256`, as `opsLoop`, with the cells it leaves. -/
def opsLoopMem : Nat → Mem → Nat → String → Outcome × Mem
  | 0, m, _, _ => (Outcome.outOfFuel, m)
  | fuel + 1, m, i, out =>
    if i < m.length then
      let opcode := popAt PopUint16 m i
      if opcode.1 >>> 8 ≠ 0xDE then
        (Outcome.ret out (some Err.wrongMagicNumber), opcode.2)
      else
        match dispatch opcode.2 out i opcode.1 with
        | none => (Outcome.panic, opcode.2)
        | some (m, out, _, some err) => (Outcome.ret out (some err), m)
        | some (m, out, consumed, none) =>
          let i := i + consumed
          let out := if i < m.length then Fprintln out [""] else out
          opsLoopMem fuel m i out
    else
      (Outcome.ret out none, m)

/-- `ParseOpsFromU256` on the caller's heap: the result and the heap after the
call.  The header and the body words are addresses (`none` is nil). -/
def ParseOpsFromU256Heap (heap : Mem) (header : Option Nat) (originalBody : List (Option Nat)) :
    Outcome × Mem :=
  match newIntSetAt heap header with
  | none => (Outcome.panic, heap)
  | some (heap, headerCopy) =>
    let header : Option Nat := some headerCopy
    let base := heap.length
    match copyBody heap originalBody with
    | (heap, false) => (Outcome.panic, heap)
    | (heap, true) =>
      let out := ""
      if originalBody.length = 0 then
        (Outcome.ret "" (some Err.emptyBody), heap)
      else
        match header with
        | some header =>
          let beginIndex := popAt PopUint64 heap header
          let newLogicTimeSec := popAt PopUint64 beginIndex.2 header
          let heap := newLogicTimeSec.2
          if BitLen (load heap header) ≠ 0 then
            (Outcome.ret out (some Err.invalidHeader), heap)
          else
            let out := Fprintln out ["newLogicTimeSec:", fmtDec newLogicTimeSec.1]
            let out := Fprintln out ["beginIndex:", fmtDec beginIndex.1]
            let out := Fprintln out ["len(body):", fmtDec originalBody.length]
            opsLoopMem (originalBody.length + 1) heap base out
        | none =>
          let out := Fprintln out ["len(body):", fmtDec originalBody.length]
          opsLoopMem (originalBody.length + 1) heap base out

/-! ## Arithmetic of the `Pop` functions -/

theorem BitLen_eq_zero (x : Nat) : BitLen x = 0 ↔ x = 0 := by
  unfold BitLen
  split <;> simp_all

theorem and_mask (u k : Nat) : u &&& (2 ^ k - 1) = u % 2 ^ k :=
  Nat.and_pow_two_sub_one_eq_mod u k

theorem low_bits (u k : Nat) (hk : k ≤ 64) :
    (u &&& (2 ^ k - 1)) % 2 ^ 64 % 2 ^ k = u % 2 ^ k := by
  rw [and_mask]
  have h1 : u % 2 ^ k < 2 ^ k := Nat.mod_lt _ (by positivity)
  have h2 : 2 ^ k ≤ 2 ^ 64 := Nat.pow_le_pow_right (by norm_num) hk
  rw [Nat.mod_eq_of_lt (lt_of_lt_of_le h1 h2), Nat.mod_mod]

theorem PopUint64_eq (u : Nat) : PopUint64 u = (u % 2 ^ 64, u / 2 ^ 64) := by
  have h := low_bits u 64 (by norm_num)
  rw [Nat.mod_mod] at h
  simp only [PopUint64, Uint64, And, U64, Nat.shiftRight_eq_div_pow]
  norm_num at h ⊢
  exact h

theorem PopUint32_eq (u : Nat) : PopUint32 u = (u % 2 ^ 32, u / 2 ^ 32) := by
  have h := low_bits u 32 (by norm_num)
  simp only [PopUint32, Uint64, And, U64, Nat.shiftRight_eq_div_pow]
  norm_num at h ⊢
  exact h

theorem PopUint16_eq (u : Nat) : PopUint16 u = (u % 2 ^ 16, u / 2 ^ 16) := by
  have h := low_bits u 16 (by norm_num)
  simp only [PopUint16, Uint64, And, U64, Nat.shiftRight_eq_div_pow]
  norm_num at h ⊢
  exact h

theorem PopUint8_eq (u : Nat) : PopUint8 u = (u % 2 ^ 8, u / 2 ^ 8) := by
  have h := low_bits u 8 (by norm_num)
  simp only [PopUint8, Uint64, And, U64, Nat.shiftRight_eq_div_pow]
  norm_num at h ⊢
  exact h

theorem PopUint160_eq (u : Nat) : PopUint160 u = (u % 2 ^ 160, u / 2 ^ 160) := by
  have h := and_mask u 160
  simp only [PopUint160, Sub, Exp, And, U64, Nat.shiftRight_eq_div_pow]
  norm_num at h ⊢
  exact h

/-! ## Cells of the working copy -/

theorem load_set (m : Mem) (p q v : Nat) :
    load (m.set p v) q = if p = q ∧ p < m.length then v else load m q := by
  unfold load
  simp only [List.getD_eq_getElem?_getD, List.getElem?_set]
  by_cases h : p = q
  · subst h
    by_cases h2 : p < m.length
    · simp [h2]
    · simp [h2, List.getElem?_eq_none (Nat.le_of_not_lt h2)]
  · simp [h]

theorem load_of_length_le (m : Mem) (p : Nat) (h : m.length ≤ p) : load m p = 0 := by
  unfold load
  simp [List.getElem?_eq_none h]

/-- Writing back a quotient of the cell: the cell then holds the quotient,
also when the pointer is outside the working copy (everything reads 0 there). -/
theorem load_set_div (m : Mem) (p d : Nat) :
    load (m.set p (load m p / d)) p = load m p / d := by
  rw [load_set]
  by_cases h : p < m.length
  · simp [h]
  · simp [h, load_of_length_le m p (Nat.le_of_not_lt h)]

theorem popAt_length (pop : Nat → Nat × Nat) (m : Mem) (p : Nat) :
    (popAt pop m p).2.length = m.length := by
  simp [popAt]

theorem load_popAt_of_ne (pop : Nat → Nat × Nat) (m : Mem) (p q : Nat) (h : p ≠ q) :
    load (popAt pop m p).2 q = load m q := by
  simp [popAt, load_set, h]

theorem popAt8 (m : Mem) (p : Nat) :
    popAt PopUint8 m p = (load m p % 2 ^ 8, m.set p (load m p / 2 ^ 8)) := by
  simp [popAt, PopUint8_eq]

theorem popAt16 (m : Mem) (p : Nat) :
    popAt PopUint16 m p = (load m p % 2 ^ 16, m.set p (load m p / 2 ^ 16)) := by
  simp [popAt, PopUint16_eq]

theorem popAt32 (m : Mem) (p : Nat) :
    popAt PopUint32 m p = (load m p % 2 ^ 32, m.set p (load m p / 2 ^ 32)) := by
  simp [popAt, PopUint32_eq]

theorem popAt64 (m : Mem) (p : Nat) :
    popAt PopUint64 m p = (load m p % 2 ^ 64, m.set p (load m p / 2 ^ 64)) := by
  simp [popAt, PopUint64_eq]

theorem popAt160 (m : Mem) (p : Nat) :
    popAt PopUint160 m p = (load m p % 2 ^ 160, m.set p (load m p / 2 ^ 160)) := by
  simp [popAt, PopUint160_eq]

/-! ## Lines -/

theorem lineOf_one (a : String) : lineOf [a] = a ++ "\n" := by
  simp [lineOf, String.intercalate, String.intercalate.go]

theorem lineOf_two (a b : String) : lineOf [a, b] = a ++ (" " ++ (b ++ "\n")) := by
  simp [lineOf, String.intercalate, String.intercalate.go, String.append_assoc]

/-! ## The operand decoder, word by word -/

/-- A further `Pop` on a cell that already holds a quotient of its first value. -/
theorem popAt_chain (pop : Nat → Nat × Nat) (k : Nat)
    (hpop : ∀ u, pop u = (u % 2 ^ k, u / 2 ^ k)) (a c : Nat) (hc : a + k = c) (m : Mem)
    (p : Nat) :
    popAt pop (m.set p (load m p / 2 ^ a)) p =
      (load m p / 2 ^ a % 2 ^ k, m.set p (load m p / 2 ^ c)) := by
  unfold popAt
  rw [hpop, load_set_div, List.set_set, Nat.div_div_eq_div_mul, ← pow_add, hc]

theorem index_sub (m : Mem) (r k : Nat) (h : r + k < m.length) :
    Slice.index m (Slice.sub r) k = some (r + k) := by
  have : k < m.length - r := by omega
  simp [Slice.index, this]

theorem index_sub_none (m : Mem) (r k : Nat) (h : m.length ≤ r + k) :
    Slice.index m (Slice.sub r) k = none := by
  have : ¬ k < m.length - r := by omega
  simp [Slice.index, this]

theorem len_set (m : Mem) (p v : Nat) (rest : Slice) :
    Slice.len (m.set p v) rest = Slice.len m rest := by
  cases rest <;> simp [Slice.len]

theorem index_set (m : Mem) (p v : Nat) (rest : Slice) (k : Nat) :
    Slice.index (m.set p v) rest k = Slice.index m rest k := by
  cases rest <;> simp [Slice.index]

theorem drop_set (m : Mem) (p v : Nat) (rest : Slice) (k : Nat) :
    Slice.drop (m.set p v) rest k = Slice.drop m rest k := by
  cases rest <;> simp [Slice.drop]

/-- The order key, decoded from the cell `bits`: the two lines, the cell left
with the bits above the 224 consumed, and the error when these are not zero. -/
theorem parseOrderOpOperand_key (m : Mem) (out : String) (bits : Nat) (rest : Slice) :
    parseOrderOpOperand m out bits rest =
      if load m bits / 2 ^ 224 ≠ 0 then
        some (m.set bits (load m bits / 2 ^ 224), out ++ keyText (load m bits),
          some (Err.extraBitsInOrderKey (load m bits / 2 ^ 224)))
      else if rest = Slice.nil then
        some (m.set bits (load m bits / 2 ^ 224), out ++ keyText (load m bits), none)
      else
        parseNewOrderWords (m.set bits (load m bits / 2 ^ 224))
          (out ++ keyText (load m bits)) rest := by
  have e := popAt_chain PopUint64 64 PopUint64_eq 160 224 rfl m bits
  have l := load_set_div m bits (2 ^ 224)
  simp only [parseOrderOpOperand, popAt160, e, Fprintln, keyText, String.append_assoc,
    BitLen_eq_zero, l, ne_eq]

/-- The three trailing words of a new order, all present: the six field lines,
then the checks of the order-fields word and of the two signature words. -/
theorem parseNewOrderWords_eq (m : Mem) (out : String) (r : Nat) (h : r + 3 ≤ m.length) :
    parseNewOrderWords m out (Slice.sub r) =
      if load m r / 2 ^ 240 ≠ 0 then
        some (m.set r (load m r / 2 ^ 240), out ++ fieldsText (load m r),
          some (Err.extraDataInOrderBits (load m r / 2 ^ 240)))
      else if load m (r + 1) = 0 then
        some (m.set r (load m r / 2 ^ 240), out ++ fieldsText (load m r),
          some Err.signatureRZero)
      else if load m (r + 2) = 0 then
        some (m.set r (load m r / 2 ^ 240),
          out ++ fieldsText (load m r) ++ sText (load m (r + 1)), some Err.signatureSZero)
      else
        some (m.set r (load m r / 2 ^ 240),
          out ++ fieldsText (load m r) ++ sText (load m (r + 1)) ++ tText (load m (r + 2)),
          none) := by
  have i0 : Slice.index m (Slice.sub r) 0 = some r := by
    simpa using index_sub m r 0 (by omega)
  have e1 := popAt_chain PopUint8 8 PopUint8_eq 32 40 rfl m r
  have e2 := popAt_chain PopUint8 8 PopUint8_eq 40 48 rfl m r
  have e3 := popAt_chain PopUint64 64 PopUint64_eq 48 112 rfl m r
  have e4 := popAt_chain PopUint64 64 PopUint64_eq 112 176 rfl m r
  have e5 := popAt_chain PopUint64 64 PopUint64_eq 176 240 rfl m r
  have l := load_set_div m r (2 ^ 240)
  have i1 : Slice.index (m.set r (load m r / 2 ^ 240)) (Slice.sub r) 1 = some (r + 1) :=
    index_sub _ r 1 (by simpa using by omega)
  have i2 : Slice.index (m.set r (load m r / 2 ^ 240)) (Slice.sub r) 2 = some (r + 2) :=
    index_sub _ r 2 (by simpa using by omega)
  have l1 : load (m.set r (load m r / 2 ^ 240)) (r + 1) = load m (r + 1) := by
    rw [load_set]; simp
  have l2 : load (m.set r (load m r / 2 ^ 240)) (r + 2) = load m (r + 2) := by
    rw [load_set]; simp
  simp only [parseNewOrderWords, i0, popAt32, e1, e2, e3, e4, e5, Fprintln, fieldsText, sText,
    tText, String.append_assoc, BitLen_eq_zero, l, i1, i2, l1, l2, ne_eq]

theorem load_set_of_ne (m : Mem) (p q v : Nat) (h : p ≠ q) : load (m.set p v) q = load m q := by
  rw [load_set]
  simp [h]

/-- A new-order operand whose three trailing words are present, the order key
being in another cell than they are: every outcome of `parseOrderOpOperand`. -/
theorem parseOrderOpOperand_new (m : Mem) (out : String) (bits r : Nat) (hb : bits < r)
    (hr : r + 3 ≤ m.length) :
    parseOrderOpOperand m out bits (Slice.sub r) =
      if load m bits / 2 ^ 224 ≠ 0 then
        some (m.set bits (load m bits / 2 ^ 224), out ++ keyText (load m bits),
          some (Err.extraBitsInOrderKey (load m bits / 2 ^ 224)))
      else if load m r / 2 ^ 240 ≠ 0 then
        some ((m.set bits (load m bits / 2 ^ 224)).set r (load m r / 2 ^ 240),
          out ++ keyText (load m bits) ++ fieldsText (load m r),
          some (Err.extraDataInOrderBits (load m r / 2 ^ 240)))
      else if load m (r + 1) = 0 then
        some ((m.set bits (load m bits / 2 ^ 224)).set r (load m r / 2 ^ 240),
          out ++ keyText (load m bits) ++ fieldsText (load m r), some Err.signatureRZero)
      else if load m (r + 2) = 0 then
        some ((m.set bits (load m bits / 2 ^ 224)).set r (load m r / 2 ^ 240),
          out ++ keyText (load m bits) ++ fieldsText (load m r) ++ sText (load m (r + 1)),
          some Err.signatureSZero)
      else
        some ((m.set bits (load m bits / 2 ^ 224)).set r (load m r / 2 ^ 240),
          out ++ keyText (load m bits) ++ fieldsText (load m r) ++ sText (load m (r + 1)) ++
            tText (load m (r + 2)), none) := by
  rw [parseOrderOpOperand_key, parseNewOrderWords_eq _ _ r (by simpa using hr)]
  rw [load_set_of_ne m bits r _ (by omega), load_set_of_ne m bits (r + 1) _ (by omega),
    load_set_of_ne m bits (r + 2) _ (by omega)]
  simp only [reduceCtorEq, if_false]

/-! ## `parseMatchOrdersOp`, branch by branch -/

theorem drop_sub (m : Mem) (s k : Nat) (h : s + k ≤ m.length) :
    Slice.drop m (Slice.sub s) k = some (Slice.sub (s + k)) := by
  have : k ≤ m.length - s := by omega
  simp [Slice.drop, this]

/-- An existing-order operand: the two key lines, and the error when bits are
left in the key cell. -/
theorem parseOrderOpOperand_nil (m : Mem) (out : String) (bits : Nat) :
    parseOrderOpOperand m out bits Slice.nil =
      some (m.set bits (load m bits / 2 ^ 224), out ++ keyText (load m bits),
        if load m bits / 2 ^ 224 ≠ 0 then some (Err.extraBitsInOrderKey (load m bits / 2 ^ 224))
        else none) := by
  rw [parseOrderOpOperand_key]
  split_ifs <;> simp_all

/-- The taker word is there, its discriminator is 27 or 28, and fewer than 3
words follow it. -/
theorem parseTakerWith_short (operand : Mem → String → Nat → Slice → Decoded) (m : Mem)
    (out : String) (t c : Nat) (ht : t < m.length)
    (hv : load m t % 2 ^ 8 = 27 ∨ load m t % 2 ^ 8 = 28) (hlen : m.length < t + 4) :
    parseTakerWith operand m out (Slice.sub t) c =
      some (m.set t (load m t / 2 ^ 8),
        out ++ ("  takerOrder (new, v2=" ++ fmtDec (load m t % 2 ^ 8) ++ "):\n"), 0,
        some Err.notEnoughInputs) := by
  have i0 : Slice.index m (Slice.sub t) 0 = some t := by
    simpa using index_sub m t 0 (by omega)
  have d1 : Slice.drop m (Slice.sub t) 1 = some (Slice.sub (t + 1)) := drop_sub m t 1 (by omega)
  have hl : Slice.len (m.set t (load m t / 2 ^ 8)) (Slice.sub (t + 1)) < 3 := by
    simp only [Slice.len, List.length_set]
    omega
  have hne : load m t % 2 ^ 8 ≠ 0 := by omega
  have hnn : ¬ (load m t % 2 ^ 8 ≠ 27 ∧ load m t % 2 ^ 8 ≠ 28) := by omega
  simp only [parseTakerWith, i0, d1, popAt8, hne, hnn, hl, if_true, if_false]

/-- Maker `v1 = 0` and no word after the opcode word. -/
theorem parseMatchOrdersOp_existing_short (m : Mem) (out : String) (bits s : Nat)
    (hv : load m bits % 2 ^ 8 = 0) (hlen : m.length ≤ s) :
    parseMatchOrdersOp m out bits (Slice.sub s) =
      some (m.set bits (load m bits / 2 ^ 8),
        out ++ lineOf ["operation MatchOrder:"] ++ lineOf ["  makerOrder (existing):"], 0,
        some Err.notEnoughInputs) := by
  have hl : Slice.len (m.set bits (load m bits / 2 ^ 8)) (Slice.sub s) < 1 := by
    simp only [Slice.len, List.length_set]
    omega
  simp only [parseMatchOrdersOp, parseMatchOrdersOpWith, popAt8, hv, hl, Fprintln, if_true]

/-- Maker `v1` 27 or 28 and fewer than 4 words after the opcode word. -/
theorem parseMatchOrdersOp_new_short (m : Mem) (out : String) (bits s : Nat)
    (hv : load m bits % 2 ^ 8 = 27 ∨ load m bits % 2 ^ 8 = 28) (hlen : m.length - s < 4) :
    parseMatchOrdersOp m out bits (Slice.sub s) =
      some (m.set bits (load m bits / 2 ^ 8),
        out ++ lineOf ["operation MatchOrder:"] ++
          ("  makerOrder (new, v1=" ++ fmtDec (load m bits % 2 ^ 8) ++ "):\n"), 0,
        some Err.notEnoughInputs) := by
  have hl : Slice.len (m.set bits (load m bits / 2 ^ 8)) (Slice.sub s) < 4 := by
    simp only [Slice.len, List.length_set]
    omega
  have hne : load m bits % 2 ^ 8 ≠ 0 := by omega
  have hnn : ¬ (load m bits % 2 ^ 8 ≠ 27 ∧ load m bits % 2 ^ 8 ≠ 28) := by omega
  simp only [parseMatchOrdersOp, parseMatchOrdersOpWith, popAt8, hne, hnn, hl, Fprintln,
    if_true, if_false]

/-- Maker `v1 = 0` with the taker word present: the maker is decoded from the
rest of the opcode word; an error stops the operation, otherwise the taker is
decoded from the next word. -/
theorem parseMatchOrdersOp_existing (m : Mem) (out : String) (bits s : Nat)
    (hv : load m bits % 2 ^ 8 = 0) (hs : s < m.length) :
    parseMatchOrdersOp m out bits (Slice.sub s) =
      if load m bits / 2 ^ 232 ≠ 0 then
        some (m.set bits (load m bits / 2 ^ 232),
          out ++ lineOf ["operation MatchOrder:"] ++ lineOf ["  makerOrder (existing):"] ++
            keyText (load m bits / 2 ^ 8), 1,
          some (Err.extraBitsInOrderKey (load m bits / 2 ^ 232)))
      else
        parseTakerWith parseOrderOpOperand (m.set bits (load m bits / 2 ^ 232))
          (out ++ lineOf ["operation MatchOrder:"] ++ lineOf ["  makerOrder (existing):"] ++
            keyText (load m bits / 2 ^ 8)) (Slice.sub s) 1 := by
  have hl : ¬ Slice.len (m.set bits (load m bits / 2 ^ 8)) (Slice.sub s) < 1 := by
    simp only [Slice.len, List.length_set]
    omega
  have e : load m bits / 2 ^ 8 / 2 ^ 224 = load m bits / 2 ^ 232 := by
    rw [Nat.div_div_eq_div_mul, ← pow_add]
  simp only [parseMatchOrdersOp, parseMatchOrdersOpWith, popAt8, hv, hl, Fprintln, if_true,
    if_false, parseOrderOpOperand_nil, load_set_div, List.set_set, e, Nat.zero_add]
  split_ifs <;> rfl

/-- Maker `v1` 27 or 28 with at least 4 words after the opcode word: the maker
is decoded from the opcode word and the next three; an error stops the
operation, otherwise the taker is decoded from the word after these. -/
theorem parseMatchOrdersOp_new (m : Mem) (out : String) (bits s : Nat) (hb : bits < s)
    (hv : load m bits % 2 ^ 8 = 27 ∨ load m bits % 2 ^ 8 = 28) (hs : s + 4 ≤ m.length) :
    parseMatchOrdersOp m out bits (Slice.sub s) =
      match parseOrderOpOperand (m.set bits (load m bits / 2 ^ 8))
          (out ++ lineOf ["operation MatchOrder:"] ++
            ("  makerOrder (new, v1=" ++ fmtDec (load m bits % 2 ^ 8) ++ "):\n")) bits
          (Slice.sub s) with
      | none => none
      | some (m1, out1, some err) => some (m1, out1, 4, some err)
      | some (m1, out1, none) =>
        parseTakerWith parseOrderOpOperand m1 out1 (Slice.sub (s + 3)) 4 := by
  have hl : ¬ Slice.len (m.set bits (load m bits / 2 ^ 8)) (Slice.sub s) < 4 := by
    simp only [Slice.len, List.length_set]
    omega
  have hne : load m bits % 2 ^ 8 ≠ 0 := by omega
  have hnn : ¬ (load m bits % 2 ^ 8 ≠ 27 ∧ load m bits % 2 ^ 8 ≠ 28) := by omega
  simp only [parseMatchOrdersOp, parseMatchOrdersOpWith, popAt8, hne, hnn, hl, Fprintln,
    if_true, if_false, Nat.zero_add]
  rw [parseOrderOpOperand_new _ _ _ _ hb (by simpa using by omega)]
  split_ifs <;> simp only [drop_set, drop_sub m s 3 (by omega)]

/-- Maker `v1` other than 0, 27 and 28. -/
theorem parseMatchOrdersOp_invalid (m : Mem) (out : String) (bits : Nat) (rest : Slice)
    (h0 : load m bits % 2 ^ 8 ≠ 0) (h27 : load m bits % 2 ^ 8 ≠ 27)
    (h28 : load m bits % 2 ^ 8 ≠ 28) :
    parseMatchOrdersOp m out bits rest =
      some (m.set bits (load m bits / 2 ^ 8),
        out ++ lineOf ["operation MatchOrder:"] ++
          ("  makerOrder (new, v1=" ++ fmtDec (load m bits % 2 ^ 8) ++ "):\n"), 0,
        some (Err.invalidV1 (load m bits % 2 ^ 8))) := by
  simp only [parseMatchOrdersOp, parseMatchOrdersOpWith, popAt8, h0, h27, h28, Fprintln,
    if_true, if_false, ne_eq, not_false_eq_true, and_self]

/-- Taker `v2 = 0`. -/
theorem parseTaker_existing (m : Mem) (out : String) (t c : Nat) (ht : t < m.length)
    (hv : load m t % 2 ^ 8 = 0) :
    parseTakerWith parseOrderOpOperand m out (Slice.sub t) c =
      some (m.set t (load m t / 2 ^ 232),
        out ++ lineOf ["  takerOrder (existing):"] ++ keyText (load m t / 2 ^ 8), c + 1,
        if load m t / 2 ^ 232 ≠ 0 then some (Err.extraBitsInOrderKey (load m t / 2 ^ 232))
        else none) := by
  have i0 : Slice.index m (Slice.sub t) 0 = some t := by
    simpa using index_sub m t 0 (by omega)
  have d1 : Slice.drop m (Slice.sub t) 1 = some (Slice.sub (t + 1)) := drop_sub m t 1 (by omega)
  have e : load m t / 2 ^ 8 / 2 ^ 224 = load m t / 2 ^ 232 := by
    rw [Nat.div_div_eq_div_mul, ← pow_add]
  simp only [parseTakerWith, i0, d1, popAt8, hv, Fprintln, if_true, parseOrderOpOperand_nil,
    load_set_div, List.set_set, e]
  split_ifs <;> rfl

/-- Taker `v2` other than 0, 27 and 28. -/
theorem parseTaker_invalid (operand : Mem → String → Nat → Slice → Decoded) (m : Mem)
    (out : String) (t c : Nat) (ht : t < m.length) (h0 : load m t % 2 ^ 8 ≠ 0)
    (h27 : load m t % 2 ^ 8 ≠ 27) (h28 : load m t % 2 ^ 8 ≠ 28) :
    parseTakerWith operand m out (Slice.sub t) c =
      some (m.set t (load m t / 2 ^ 8),
        out ++ ("  takerOrder (new, v2=" ++ fmtDec (load m t % 2 ^ 8) ++ "):\n"), 0,
        some (Err.invalidV2 (load m t % 2 ^ 8))) := by
  have i0 : Slice.index m (Slice.sub t) 0 = some t := by
    simpa using index_sub m t 0 (by omega)
  have d1 : Slice.drop m (Slice.sub t) 1 = some (Slice.sub (t + 1)) := drop_sub m t 1 (by omega)
  simp only [parseTakerWith, i0, d1, popAt8, h0, h27, h28, if_true, if_false, ne_eq,
    not_false_eq_true, and_self]

/-- Taker `v2` 27 or 28 with its three trailing words present. -/
theorem parseTaker_new (m : Mem) (out : String) (t c : Nat)
    (hv : load m t % 2 ^ 8 = 27 ∨ load m t % 2 ^ 8 = 28) (ht : t + 4 ≤ m.length) :
    parseTakerWith parseOrderOpOperand m out (Slice.sub t) c =
      match parseOrderOpOperand (m.set t (load m t / 2 ^ 8))
          (out ++ ("  takerOrder (new, v2=" ++ fmtDec (load m t % 2 ^ 8) ++ "):\n")) t
          (Slice.sub (t + 1)) with
      | none => none
      | some (m1, out1, err) => some (m1, out1, c + 4, err) := by
  have i0 : Slice.index m (Slice.sub t) 0 = some t := by
    simpa using index_sub m t 0 (by omega)
  have d1 : Slice.drop m (Slice.sub t) 1 = some (Slice.sub (t + 1)) := drop_sub m t 1 (by omega)
  have hl : ¬ Slice.len (m.set t (load m t / 2 ^ 8)) (Slice.sub (t + 1)) < 3 := by
    simp only [Slice.len, List.length_set]
    omega
  have hne : load m t % 2 ^ 8 ≠ 0 := by omega
  have hnn : ¬ (load m t % 2 ^ 8 ≠ 27 ∧ load m t % 2 ^ 8 ≠ 28) := by omega
  simp only [parseTakerWith, i0, d1, popAt8, hne, hnn, hl, if_true, if_false]
  rw [parseOrderOpOperand_new _ _ _ _ (Nat.lt_succ_self t) (by simpa using by omega)]
  split_ifs <;> rfl

/-- What the taker part returns without error: the count, the length of the
working copy, and that the words it needs are there. -/
theorem parseTaker_ok (m : Mem) (out : String) (t c : Nat) (m1 : Mem) (out1 : String)
    (c1 : Nat) (ht : t < m.length)
    (h : parseTakerWith parseOrderOpOperand m out (Slice.sub t) c = some (m1, out1, c1, none)) :
    c1 = c + 1 + (if load m t % 2 ^ 8 = 27 ∨ load m t % 2 ^ 8 = 28 then 3 else 0) ∧
    t + 1 + (if load m t % 2 ^ 8 = 27 ∨ load m t % 2 ^ 8 = 28 then 3 else 0) ≤ m.length ∧
    m1.length = m.length := by
  by_cases h0 : load m t % 2 ^ 8 = 0
  · rw [parseTaker_existing m out t c ht h0] at h
    have hn : ¬ (load m t % 2 ^ 8 = 27 ∨ load m t % 2 ^ 8 = 28) := by omega
    simp only [Option.some.injEq, Prod.mk.injEq] at h
    obtain ⟨hm, -, hc, -⟩ := h
    subst hm
    simp only [hn, if_false, List.length_set, and_true]
    omega
  · by_cases hv : load m t % 2 ^ 8 = 27 ∨ load m t % 2 ^ 8 = 28
    · by_cases hlen : m.length < t + 4
      · rw [parseTakerWith_short _ m out t c ht hv hlen] at h
        simp at h
      · rw [parseTaker_new m out t c hv (by omega),
          parseOrderOpOperand_new _ _ _ _ (Nat.lt_succ_self t) (by simpa using by omega)] at h
        simp only [hv, if_true]
        split_ifs at h <;>
          simp only [Option.some.injEq, Prod.mk.injEq, reduceCtorEq, and_false] at h
        obtain ⟨hm, -, hc, -⟩ := h
        subst hm
        simp only [List.length_set, and_true]
        omega
    · rw [parseTaker_invalid _ m out t c ht h0 (by omega) (by omega)] at h
      simp at h

/-- What `parseMatchOrdersOp` returns without error: the count in terms of the
two discriminators, the words it covers, and the length of the working copy. -/
theorem parseMatchOrdersOp_ok (m : Mem) (out : String) (bits s : Nat) (m1 : Mem)
    (out1 : String) (c : Nat) (hb : bits < s)
    (h : parseMatchOrdersOp m out bits (Slice.sub s) = some (m1, out1, c, none)) :
    c = 1 + (if load m bits % 2 ^ 8 = 27 ∨ load m bits % 2 ^ 8 = 28 then 3 else 0) + 1 +
        (if load m (if load m bits % 2 ^ 8 = 27 ∨ load m bits % 2 ^ 8 = 28 then s + 3 else s)
            % 2 ^ 8 = 27 ∨
          load m (if load m bits % 2 ^ 8 = 27 ∨ load m bits % 2 ^ 8 = 28 then s + 3 else s)
            % 2 ^ 8 = 28 then 3 else 0) ∧
    s + c ≤ m.length + 1 ∧ m1.length = m.length := by
  by_cases h0 : load m bits % 2 ^ 8 = 0
  · have hn : ¬ (load m bits % 2 ^ 8 = 27 ∨ load m bits % 2 ^ 8 = 28) := by omega
    by_cases hs : s < m.length
    · rw [parseMatchOrdersOp_existing m out bits s h0 hs] at h
      split_ifs at h with hk
      · simp at h
      · have ht := parseTaker_ok _ _ s 1 m1 out1 c (by simpa using hs) h
        rw [load_set_of_ne m bits s _ (by omega)] at ht
        simp only [List.length_set] at ht
        simp only [hn, if_false]
        omega
    · rw [parseMatchOrdersOp_existing_short m out bits s h0 (by omega)] at h
      simp at h
  · by_cases hv : load m bits % 2 ^ 8 = 27 ∨ load m bits % 2 ^ 8 = 28
    · by_cases hs : s + 4 ≤ m.length
      · rw [parseMatchOrdersOp_new m out bits s hb hv hs,
          parseOrderOpOperand_new _ _ _ _ hb (by simpa using by omega)] at h
        simp only [hv, if_true]
        split_ifs at h <;>
          try (simp only [Option.some.injEq, Prod.mk.injEq, reduceCtorEq, and_false] at h)
        have ht := parseTaker_ok _ _ (s + 3) 4 m1 out1 c (by simpa using by omega) h
        have e1 : ∀ (M : Mem) (v : Nat), load (M.set bits v) (s + 3) = load M (s + 3) :=
          fun M v => load_set_of_ne M bits (s + 3) v (by omega)
        have e2 : ∀ (M : Mem) (v : Nat), load (M.set s v) (s + 3) = load M (s + 3) :=
          fun M v => load_set_of_ne M s (s + 3) v (by omega)
        simp only [e1, e2, List.length_set] at ht
        omega
      · rw [parseMatchOrdersOp_new_short m out bits s hv (by omega)] at h
        simp at h
    · rw [parseMatchOrdersOp_invalid m out bits _ h0 (by omega) (by omega)] at h
      simp at h

/-- A well-formed new-order operand: key below `2 ^ 224`, order-fields word
below `2 ^ 240`, both signature words non-zero. -/
theorem parseOrderOpOperand_new_ok (m : Mem) (out : String) (bits r : Nat) (hb : bits < r)
    (hr : r + 3 ≤ m.length) (hk : load m bits < 2 ^ 224) (hw : load m r < 2 ^ 240)
    (h1 : load m (r + 1) ≠ 0) (h2 : load m (r + 2) ≠ 0) :
    parseOrderOpOperand m out bits (Slice.sub r) =
      some ((m.set bits 0).set r 0,
        out ++ keyText (load m bits) ++ fieldsText (load m r) ++ sText (load m (r + 1)) ++
          tText (load m (r + 2)), none) := by
  rw [parseOrderOpOperand_new _ _ _ _ hb hr, Nat.div_eq_of_lt hk, Nat.div_eq_of_lt hw]
  simp [h1, h2]

/-- Maker existing and well-formed, taker new, fewer than 3 words after the
taker word. -/
theorem parseMatchOrdersOp_existing_taker_short (m : Mem) (out : String) (bits s : Nat)
    (hb : bits < s) (hv : load m bits % 2 ^ 8 = 0) (hk : load m bits < 2 ^ 232)
    (hs : s < m.length) (hv2 : load m s % 2 ^ 8 = 27 ∨ load m s % 2 ^ 8 = 28)
    (hlen : m.length < s + 4) :
    parseMatchOrdersOp m out bits (Slice.sub s) =
      some ((m.set bits 0).set s (load m s / 2 ^ 8),
        out ++ lineOf ["operation MatchOrder:"] ++ lineOf ["  makerOrder (existing):"] ++
          keyText (load m bits / 2 ^ 8) ++
          ("  takerOrder (new, v2=" ++ fmtDec (load m s % 2 ^ 8) ++ "):\n"), 0,
        some Err.notEnoughInputs) := by
  have e : load (m.set bits 0) s = load m s := load_set_of_ne m bits s 0 (by omega)
  rw [parseMatchOrdersOp_existing m out bits s hv hs, Nat.div_eq_of_lt hk]
  simp only [ne_eq, not_true_eq_false, if_false]
  rw [parseTakerWith_short _ _ _ s 1 (by simpa using hs) (by rw [e]; exact hv2)
    (by simpa using hlen), e]

/-- Maker new and well-formed, taker new, fewer than 3 words after the taker
word. -/
theorem parseMatchOrdersOp_new_taker_short (m : Mem) (out : String) (bits s : Nat)
    (hb : bits < s) (hv : load m bits % 2 ^ 8 = 27 ∨ load m bits % 2 ^ 8 = 28)
    (hk : load m bits < 2 ^ 232) (hs : s + 4 ≤ m.length) (hw : load m s < 2 ^ 240)
    (h1 : load m (s + 1) ≠ 0) (h2 : load m (s + 2) ≠ 0)
    (hv2 : load m (s + 3) % 2 ^ 8 = 27 ∨ load m (s + 3) % 2 ^ 8 = 28)
    (hlen : m.length < s + 7) :
    parseMatchOrdersOp m out bits (Slice.sub s) =
      some (((m.set bits 0).set s 0).set (s + 3) (load m (s + 3) / 2 ^ 8),
        out ++ lineOf ["operation MatchOrder:"] ++
          ("  makerOrder (new, v1=" ++ fmtDec (load m bits % 2 ^ 8) ++ "):\n") ++
          keyText (load m bits / 2 ^ 8) ++ fieldsText (load m s) ++ sText (load m (s + 1)) ++
          tText (load m (s + 2)) ++
          ("  takerOrder (new, v2=" ++ fmtDec (load m (s + 3) % 2 ^ 8) ++ "):\n"), 0,
        some Err.notEnoughInputs) := by
  have hk2 : load m bits / 2 ^ 8 < 2 ^ 224 := by
    apply Nat.div_lt_of_lt_mul
    calc load m bits < 2 ^ 232 := hk
      _ = 2 ^ 8 * 2 ^ 224 := by norm_num
  have f : ∀ q, bits ≠ q → load (m.set bits (load m bits / 2 ^ 8)) q = load m q :=
    fun q hq => load_set_of_ne m bits q _ hq
  have e3 : load ((m.set bits 0).set s 0) (s + 3) = load m (s + 3) := by
    rw [load_set_of_ne _ s (s + 3) 0 (by omega), load_set_of_ne m bits (s + 3) 0 (by omega)]
  rw [parseMatchOrdersOp_new m out bits s hb hv hs,
    parseOrderOpOperand_new_ok _ _ bits s hb (by simpa using by omega)
      (by rw [load_set_div]; exact hk2) (by rw [f s (by omega)]; exact hw)
      (by rw [f (s + 1) (by omega)]; exact h1) (by rw [f (s + 2) (by omega)]; exact h2)]
  simp only [load_set_div, f s (by omega), f (s + 1) (by omega), f (s + 2) (by omega),
    List.set_set]
  rw [parseTakerWith_short _ _ _ (s + 3) 4 (by simpa using by omega) (by rw [e3]; exact hv2)
    (by simpa using hlen), e3]

/-! ## The errors of `parseMatchOrdersOp` -/

/-- The failure conditions of a new-order operand. -/
theorem operand_new_err (m : Mem) (out : String) (bits r : Nat) (hb : bits < r)
    (hr : r + 3 ≤ m.length) (m1 : Mem) (out1 : String) (e : Err)
    (h : parseOrderOpOperand m out bits (Slice.sub r) = some (m1, out1, some e)) :
    e.kind = ErrorKind.ExtraBitsInField ∨ e.kind = ErrorKind.ZeroSignatureComponent := by
  rw [parseOrderOpOperand_new _ _ _ _ hb hr] at h
  split_ifs at h <;>
    simp only [Option.some.injEq, Prod.mk.injEq, reduceCtorEq, and_false] at h
  all_goals
    obtain ⟨-, -, rfl⟩ := h
    simp [Err.kind]

/-- The failure conditions of the taker part. -/
theorem parseTaker_err (m : Mem) (out : String) (t c : Nat) (m1 : Mem) (out1 : String)
    (c1 : Nat) (e : Err) (ht : t < m.length)
    (h : parseTakerWith parseOrderOpOperand m out (Slice.sub t) c = some (m1, out1, c1, some e)) :
    e.kind = ErrorKind.InsufficientInputs ∨ e.kind = ErrorKind.InvalidDiscriminator ∨
      e.kind = ErrorKind.ExtraBitsInField ∨ e.kind = ErrorKind.ZeroSignatureComponent := by
  by_cases h0 : load m t % 2 ^ 8 = 0
  · rw [parseTaker_existing m out t c ht h0] at h
    split_ifs at h <;>
      simp only [Option.some.injEq, Prod.mk.injEq, reduceCtorEq, and_false] at h
    obtain ⟨-, -, -, rfl⟩ := h
    simp [Err.kind]
  · by_cases hv : load m t % 2 ^ 8 = 27 ∨ load m t % 2 ^ 8 = 28
    · by_cases hlen : m.length < t + 4
      · rw [parseTakerWith_short _ m out t c ht hv hlen] at h
        simp only [Option.some.injEq, Prod.mk.injEq] at h
        obtain ⟨-, -, -, rfl⟩ := h
        simp [Err.kind]
      · rw [parseTaker_new m out t c hv (by omega)] at h
        split at h
        · simp at h
        · rename_i m2 out2 err heq
          simp only [Option.some.injEq, Prod.mk.injEq] at h
          obtain ⟨-, -, -, rfl⟩ := h
          have := operand_new_err _ _ _ _ (Nat.lt_succ_self t) (by simpa using by omega) _ _ _ heq
          tauto
    · rw [parseTaker_invalid _ m out t c ht h0 (by omega) (by omega)] at h
      simp only [Option.some.injEq, Prod.mk.injEq] at h
      obtain ⟨-, -, -, rfl⟩ := h
      simp [Err.kind]

/-- The failure conditions of a MatchOrders operation. -/
theorem parseMatchOrdersOp_err (m : Mem) (out : String) (bits s : Nat) (m1 : Mem)
    (out1 : String) (c : Nat) (e : Err) (hb : bits < s)
    (h : parseMatchOrdersOp m out bits (Slice.sub s) = some (m1, out1, c, some e)) :
    e.kind = ErrorKind.InsufficientInputs ∨ e.kind = ErrorKind.InvalidDiscriminator ∨
      e.kind = ErrorKind.ExtraBitsInField ∨ e.kind = ErrorKind.ZeroSignatureComponent := by
  by_cases h0 : load m bits % 2 ^ 8 = 0
  · by_cases hs : s < m.length
    · rw [parseMatchOrdersOp_existing m out bits s h0 hs] at h
      split_ifs at h
      · simp only [Option.some.injEq, Prod.mk.injEq] at h
        obtain ⟨-, -, -, rfl⟩ := h
        simp [Err.kind]
      · exact parseTaker_err _ _ s 1 m1 out1 c e (by simpa using hs) h
    · rw [parseMatchOrdersOp_existing_short m out bits s h0 (by omega)] at h
      simp only [Option.some.injEq, Prod.mk.injEq] at h
      obtain ⟨-, -, -, rfl⟩ := h
      simp [Err.kind]
  · by_cases hv : load m bits % 2 ^ 8 = 27 ∨ load m bits % 2 ^ 8 = 28
    · by_cases hs : s + 4 ≤ m.length
      · rw [parseMatchOrdersOp_new m out bits s hb hv hs] at h
        split at h
        · simp at h
        · rename_i m2 out2 err heq
          simp only [Option.some.injEq, Prod.mk.injEq] at h
          obtain ⟨-, -, -, rfl⟩ := h
          have := operand_new_err _ _ _ _ hb (by simpa using by omega) _ _ _ heq
          tauto
        · rename_i m2 out2 heq
          rw [parseOrderOpOperand_new _ _ _ _ hb (by simpa using by omega)] at heq
          have hm2 : m2.length = m.length := by
            split_ifs at heq <;>
              simp only [Option.some.injEq, Prod.mk.injEq, reduceCtorEq, and_false] at heq
            obtain ⟨rfl, -⟩ := heq
            simp
          exact parseTaker_err _ _ (s + 3) 4 m1 out1 c e (by omega) h
      · rw [parseMatchOrdersOp_new_short m out bits s hv (by omega)] at h
        simp only [Option.some.injEq, Prod.mk.injEq] at h
        obtain ⟨-, -, -, rfl⟩ := h
        simp [Err.kind]
    · rw [parseMatchOrdersOp_invalid m out bits _ h0 (by omega) (by omega)] at h
      simp only [Option.some.injEq, Prod.mk.injEq] at h
      obtain ⟨-, -, -, rfl⟩ := h
      simp [Err.kind]

/-! ## The dispatcher: one operation -/

/-- The call the dispatcher makes for opcode `0xDE03` never panics. -/
theorem parseMatchOrdersOp_some (m : Mem) (out : String) (bits s : Nat) (hb : bits < s) :
    ∃ m1 out1 c e, parseMatchOrdersOp m out bits (Slice.sub s) = some (m1, out1, c, e) := by
  have taker : ∀ (M : Mem) (o : String) (t c : Nat), t < M.length →
      ∃ m1 out1 c1 e, parseTakerWith parseOrderOpOperand M o (Slice.sub t) c =
        some (m1, out1, c1, e) := by
    intro M o t c ht
    by_cases h0 : load M t % 2 ^ 8 = 0
    · exact ⟨_, _, _, _, parseTaker_existing M o t c ht h0⟩
    · by_cases hv : load M t % 2 ^ 8 = 27 ∨ load M t % 2 ^ 8 = 28
      · by_cases hlen : M.length < t + 4
        · exact ⟨_, _, _, _, parseTakerWith_short _ M o t c ht hv hlen⟩
        · rw [parseTaker_new M o t c hv (by omega),
            parseOrderOpOperand_new _ _ _ _ (Nat.lt_succ_self t) (by simpa using by omega)]
          split_ifs <;> exact ⟨_, _, _, _, rfl⟩
      · exact ⟨_, _, _, _, parseTaker_invalid _ M o t c ht h0 (by omega) (by omega)⟩
  by_cases h0 : load m bits % 2 ^ 8 = 0
  · by_cases hs : s < m.length
    · rw [parseMatchOrdersOp_existing m out bits s h0 hs]
      split_ifs
      · exact ⟨_, _, _, _, rfl⟩
      · exact taker _ _ s 1 (by simpa using hs)
    · exact ⟨_, _, _, _, parseMatchOrdersOp_existing_short m out bits s h0 (by omega)⟩
  · by_cases hv : load m bits % 2 ^ 8 = 27 ∨ load m bits % 2 ^ 8 = 28
    · by_cases hs : s + 4 ≤ m.length
      · rw [parseMatchOrdersOp_new m out bits s hb hv hs,
          parseOrderOpOperand_new _ _ _ _ hb (by simpa using by omega)]
        split_ifs
        · exact ⟨_, _, _, _, rfl⟩
        · exact ⟨_, _, _, _, rfl⟩
        · exact ⟨_, _, _, _, rfl⟩
        · exact ⟨_, _, _, _, rfl⟩
        · exact taker _ _ (s + 3) 4 (by simpa using by omega)
      · exact ⟨_, _, _, _, parseMatchOrdersOp_new_short m out bits s hv (by omega)⟩
    · exact ⟨_, _, _, _, parseMatchOrdersOp_invalid m out bits _ h0 (by omega) (by omega)⟩

theorem dispatch_DE03 (m : Mem) (out : String) (i : Nat) (hi : i < m.length) :
    dispatch m out i 0xDE03 = parseMatchOrdersOp m out i (Slice.sub (i + 1)) := by
  have d : Slice.drop m (Slice.sub 0) (i + 1) = some (Slice.sub (i + 1)) := by
    simpa using drop_sub m 0 (i + 1) (by omega)
  simp only [dispatch, d]
  norm_num

/-- No operation panics. -/
theorem dispatch_some (m : Mem) (out : String) (i opcode : Nat) (hi : i < m.length) :
    ∃ m1 out1 c e, dispatch m out i opcode = some (m1, out1, c, e) := by
  by_cases h3 : opcode = 0xDE03
  · subst h3
    rw [dispatch_DE03 m out i hi]
    exact parseMatchOrdersOp_some m out i (i + 1) (Nat.lt_succ_self i)
  · simp only [dispatch, h3, if_false]
    split_ifs <;> exact ⟨_, _, _, _, rfl⟩

/-- An operation decoded without error covers at least one word, ends inside
the working copy, and leaves the length of the working copy as it was. -/
theorem dispatch_ok (m : Mem) (out : String) (i opcode : Nat) (hi : i < m.length) (m1 : Mem)
    (out1 : String) (c : Nat) (h : dispatch m out i opcode = some (m1, out1, c, none)) :
    1 ≤ c ∧ i + c ≤ m.length ∧ m1.length = m.length := by
  by_cases h3 : opcode = 0xDE03
  · subst h3
    rw [dispatch_DE03 m out i hi] at h
    have := parseMatchOrdersOp_ok m out i (i + 1) m1 out1 c (Nat.lt_succ_self i) h
    omega
  · simp only [dispatch, h3, if_false, oneWord, parseConfirmDepositOp, parseInitiateWithdrawOp,
      parseHardCancelOrderOp, parseSetFeeRatesOp, parseSetFeeRebatePercentOp] at h
    split_ifs at h <;> simp only [Option.some.injEq, Prod.mk.injEq, reduceCtorEq, and_false] at h
    all_goals
      obtain ⟨hm, -, hc, -⟩ := h
      subst hm
      subst hc
      simp [popAt_length]
      omega

/-! ## The dispatcher: the loop -/

/-- With more fuel than words left, the loop returns: it neither panics nor
runs out of fuel. -/
theorem opsLoop_total (fuel : Nat) : ∀ (m : Mem) (i : Nat) (out : String),
    m.length - i < fuel → ∃ t e, opsLoop fuel m i out = Outcome.ret t e := by
  induction fuel with
  | zero => intro m i out h; omega
  | succ fuel ih =>
    intro m i out h
    rw [opsLoop]
    by_cases hi : i < m.length
    · simp only [hi, if_true]
      split_ifs
      · exact ⟨_, _, rfl⟩
      · obtain ⟨m1, out1, c, e, hd⟩ :=
          dispatch_some (popAt PopUint16 m i).2 out i (popAt PopUint16 m i).1
            (by simpa [popAt_length] using hi)
        rw [hd]
        cases e with
        | some err => exact ⟨_, _, rfl⟩
        | none =>
          have hb := dispatch_ok _ _ _ _ (by simpa [popAt_length] using hi) _ _ _ hd
          rw [popAt_length] at hb
          exact ih _ _ _ (by omega)
    · simp only [hi, if_false]
      exact ⟨_, _, rfl⟩

/-- The result of the loop does not depend on the fuel, once there is more of
it than words left. -/
theorem opsLoop_fuel (fuel : Nat) : ∀ (fuel2 : Nat) (m : Mem) (i : Nat) (out : String),
    m.length - i < fuel → m.length - i < fuel2 →
    opsLoop fuel m i out = opsLoop fuel2 m i out := by
  induction fuel with
  | zero => intro fuel2 m i out h; omega
  | succ fuel ih =>
    intro fuel2 m i out h h2
    cases fuel2 with
    | zero => omega
    | succ fuel2 =>
      rw [opsLoop, opsLoop]
      by_cases hi : i < m.length
      · simp only [hi, if_true]
        split_ifs
        · rfl
        · obtain ⟨m1, out1, c, e, hd⟩ :=
            dispatch_some (popAt PopUint16 m i).2 out i (popAt PopUint16 m i).1
              (by simpa [popAt_length] using hi)
          rw [hd]
          cases e with
          | some err => rfl
          | none =>
            have hb := dispatch_ok _ _ _ _ (by simpa [popAt_length] using hi) _ _ _ hd
            rw [popAt_length] at hb
            exact ih _ _ _ _ (by omega) (by omega)
      · simp only [hi, if_false]

/-! ## The precondition of `parseOrderOpOperand` at its call sites -/

theorem checked_nil (m : Mem) (out : String) (bits : Nat) :
    parseOrderOpOperandChecked m out bits Slice.nil = parseOrderOpOperand m out bits Slice.nil := by
  simp [parseOrderOpOperandChecked, OperandPre]

theorem checked_of_len (m : Mem) (out : String) (bits : Nat) (rest : Slice)
    (h : ¬ rest.len m < 3) :
    parseOrderOpOperandChecked m out bits rest = parseOrderOpOperand m out bits rest := by
  have : OperandPre m rest := Or.inr (by omega)
  simp [parseOrderOpOperandChecked, this]

theorem parseTakerWith_checked (m : Mem) (out : String) (rest : Slice) (c : Nat) :
    parseTakerWith parseOrderOpOperandChecked m out rest c =
      parseTakerWith parseOrderOpOperand m out rest c := by
  unfold parseTakerWith
  split
  · simp only [checked_nil]
    split_ifs with h1 h2 h3
    · rfl
    · rfl
    · rfl
    · rw [checked_of_len _ _ _ _ h3]
  · rfl

theorem parseMatchOrdersOpWith_checked (m : Mem) (out : String) (bits : Nat) (rest : Slice) :
    parseMatchOrdersOpWith parseOrderOpOperandChecked m out bits rest =
      parseMatchOrdersOp m out bits rest := by
  unfold parseMatchOrdersOp parseMatchOrdersOpWith
  simp only [checked_nil, parseTakerWith_checked]
  split_ifs with h1 h2 h3 h4
  · rfl
  · rfl
  · rfl
  · rfl
  · rw [checked_of_len _ _ _ _ (by omega)]

/-- With a supplied header `ParseOpsFromU256` returns a trace and an error or
none. -/
theorem ParseOpsFromU256_returns (h : Nat) (body : List Nat) :
    ∃ trace err, ParseOpsFromU256 (some h) body = Outcome.ret trace err := by
  simp only [ParseOpsFromU256, newIntSet, List.map_id_fun', id_eq]
  split_ifs
  · exact ⟨_, _, rfl⟩
  · exact ⟨_, _, rfl⟩
  · exact opsLoop_total _ _ _ _ (by omega)

/-! ## The errors of the loop -/

/-- The failure conditions of one operation. -/
theorem dispatch_err (m : Mem) (out : String) (i opcode : Nat) (hi : i < m.length) (m1 : Mem)
    (out1 : String) (c : Nat) (e : Err)
    (h : dispatch m out i opcode = some (m1, out1, c, some e)) :
    e.kind = ErrorKind.InvalidOpcode ∨ e.kind = ErrorKind.InsufficientInputs ∨
      e.kind = ErrorKind.InvalidDiscriminator ∨ e.kind = ErrorKind.ExtraBitsInField ∨
      e.kind = ErrorKind.ZeroSignatureComponent := by
  by_cases h3 : opcode = 0xDE03
  · subst h3
    rw [dispatch_DE03 m out i hi] at h
    exact Or.inr (parseMatchOrdersOp_err m out i (i + 1) m1 out1 c e (Nat.lt_succ_self i) h)
  · simp only [dispatch, h3, if_false, oneWord, parseConfirmDepositOp, parseInitiateWithdrawOp,
      parseHardCancelOrderOp, parseSetFeeRatesOp, parseSetFeeRebatePercentOp] at h
    split_ifs at h <;> simp only [Option.some.injEq, Prod.mk.injEq, reduceCtorEq, and_false] at h
    obtain ⟨-, -, -, rfl⟩ := h
    simp [Err.kind]

/-- The failure conditions of the loop: never EmptyBody, never InvalidHeader. -/
theorem opsLoop_err (fuel : Nat) : ∀ (m : Mem) (i : Nat) (out t : String) (e : Err),
    opsLoop fuel m i out = Outcome.ret t (some e) →
    e.kind ≠ ErrorKind.EmptyBody ∧ e.kind ≠ ErrorKind.InvalidHeader := by
  induction fuel with
  | zero => intro m i out t e h; simp [opsLoop] at h
  | succ fuel ih =>
    intro m i out t e h
    rw [opsLoop] at h
    by_cases hi : i < m.length
    · simp only [hi, if_true] at h
      split_ifs at h
      · simp only [Outcome.ret.injEq, Option.some.injEq] at h
        obtain ⟨-, rfl⟩ := h
        simp [Err.kind]
      · split at h
        · simp at h
        · rename_i m1 out1 c err heq
          simp only [Outcome.ret.injEq, Option.some.injEq] at h
          obtain ⟨-, rfl⟩ := h
          have := dispatch_err _ _ _ _ (by simpa [popAt_length] using hi) _ _ _ _ heq
          rcases this with h1 | h1 | h1 | h1 | h1 <;> simp [h1]
        · exact ih _ _ _ _ _ h
    · simp [hi] at h

/-! ## The decoders only append to the buffer -/

theorem parseNewOrderWords_out (m : Mem) (out : String) (rest : Slice) :
    parseNewOrderWords m out rest = afterD out (parseNewOrderWords m "" rest) := by
  unfold parseNewOrderWords
  cases rest.index m 0 with
  | none => rfl
  | some bits =>
    simp only [afterD, Fprintln, String.empty_append]
    split_ifs
    · simp [String.append_assoc]
    · cases Slice.index _ rest 1 with
      | none => rfl
      | some r1 =>
        simp only []
        split_ifs
        · simp [String.append_assoc]
        · cases Slice.index _ rest 2 with
          | none => rfl
          | some r2 =>
            simp only []
            split_ifs <;> simp [String.append_assoc]

theorem parseOrderOpOperand_out (m : Mem) (out : String) (bits : Nat) (rest : Slice) :
    parseOrderOpOperand m out bits rest = afterD out (parseOrderOpOperand m "" bits rest) := by
  rw [parseOrderOpOperand_key, parseOrderOpOperand_key m ""]
  split_ifs
  · simp [afterD]
  · simp [afterD]
  · rw [parseNewOrderWords_out, parseNewOrderWords_out _ ("" ++ _)]
    cases parseNewOrderWords _ "" rest with
    | none => rfl
    | some r => simp [afterD, String.append_assoc]

theorem parseTaker_out (m : Mem) (out : String) (rest : Slice) (c : Nat) :
    parseTakerWith parseOrderOpOperand m out rest c =
      afterM out (parseTakerWith parseOrderOpOperand m "" rest c) := by
  unfold parseTakerWith
  split
  · simp only [Fprintln, String.empty_append]
    split_ifs
    · rw [parseOrderOpOperand_out, parseOrderOpOperand_out _ (lineOf _)]
      cases parseOrderOpOperand _ "" _ Slice.nil with
      | none => rfl
      | some r =>
        obtain ⟨m1, out1, e⟩ := r
        cases e <;> simp [afterD, afterM, String.append_assoc]
    · simp [afterM]
    · simp [afterM]
    · rw [parseOrderOpOperand_out, parseOrderOpOperand_out _ (_ ++ _)]
      rename_i bits rest1 _ _ _ _ _
      cases parseOrderOpOperand _ "" bits rest1 with
      | none => rfl
      | some r =>
        obtain ⟨m1, out1, e⟩ := r
        cases e <;> simp [afterD, afterM, String.append_assoc]
  · rfl

theorem parseMatchOrdersOp_out (m : Mem) (out : String) (bits : Nat) (rest : Slice) :
    parseMatchOrdersOp m out bits rest = afterM out (parseMatchOrdersOp m "" bits rest) := by
  unfold parseMatchOrdersOp parseMatchOrdersOpWith
  simp only [Fprintln, String.empty_append]
  split_ifs
  · simp [afterM, String.append_assoc]
  · rw [parseOrderOpOperand_out, parseOrderOpOperand_out _ (_ ++ _)]
    cases parseOrderOpOperand _ "" bits Slice.nil with
    | none => rfl
    | some r =>
      obtain ⟨m1, out1, e⟩ := r
      cases e with
      | some err => simp [afterD, afterM, String.append_assoc]
      | none =>
        simp only [afterD, Option.map_some']
        rw [parseTaker_out, parseTaker_out _ (_ ++ _)]
        cases parseTakerWith parseOrderOpOperand m1 "" rest (0 + 1) with
        | none => rfl
        | some r => simp [afterM, String.append_assoc]
  · simp [afterM, String.append_assoc]
  · simp [afterM, String.append_assoc]
  · rw [parseOrderOpOperand_out, parseOrderOpOperand_out _ (_ ++ _)]
    cases parseOrderOpOperand _ "" bits rest with
    | none => rfl
    | some r =>
      obtain ⟨m1, out1, e⟩ := r
      cases e with
      | some err => simp [afterD, afterM, String.append_assoc]
      | none =>
        simp only [afterD, Option.map_some']
        cases Slice.drop m1 rest 3 with
        | none => rfl
        | some rest3 =>
          simp only []
          rw [parseTaker_out, parseTaker_out _ (_ ++ _)]
          cases parseTakerWith parseOrderOpOperand m1 "" rest3 (0 + 4) with
          | none => rfl
          | some r => simp [afterM, String.append_assoc]

theorem dispatch_out (m : Mem) (out : String) (i opcode : Nat) :
    dispatch m out i opcode = afterM out (dispatch m "" i opcode) := by
  unfold dispatch
  simp only []
  split_ifs
  · simp [afterM, oneWord, parseConfirmDepositOp, Fprintln, String.append_assoc]
  · simp [afterM, oneWord, parseInitiateWithdrawOp, Fprintln, String.append_assoc]
  · cases Slice.drop m (Slice.sub 0) (i + 1) with
    | none => rfl
    | some rest => exact parseMatchOrdersOp_out m out i rest
  · simp [afterM, oneWord, parseHardCancelOrderOp, Fprintln, String.append_assoc]
  · simp [afterM, oneWord, parseSetFeeRatesOp, Fprintln, String.append_assoc]
  · simp [afterM, oneWord, parseSetFeeRebatePercentOp, Fprintln, String.append_assoc]
  · simp [afterM]

theorem opsLoop_out (fuel : Nat) : ∀ (m : Mem) (i : Nat) (out : String),
    opsLoop fuel m i out = Outcome.after out (opsLoop fuel m i "") := by
  induction fuel with
  | zero => intro m i out; rfl
  | succ fuel ih =>
    intro m i out
    rw [opsLoop, opsLoop]
    by_cases hi : i < m.length
    · simp only [hi, if_true]
      by_cases hm : (popAt PopUint16 m i).1 >>> 8 ≠ 0xDE
      · simp [hm, Outcome.after]
      · simp only [hm, if_false]
        rw [dispatch_out]
        cases dispatch (popAt PopUint16 m i).2 "" i (popAt PopUint16 m i).1 with
        | none => rfl
        | some r =>
          obtain ⟨m1, out1, c, e⟩ := r
          cases e with
          | some err => simp [afterM, Outcome.after]
          | none =>
            simp only [afterM, Option.map_some', Fprintln]
            rw [ih, ih m1 _ (if i + c < m1.length then out1 ++ lineOf [""] else out1)]
            cases opsLoop fuel m1 (i + c) "" with
            | panic => rfl
            | outOfFuel => rfl
            | ret t e => split_ifs <;> simp [Outcome.after, String.append_assoc]
    · simp [hi, Outcome.after]

/-! ## The header -/

/-- The three lines written before the loop when the header is valid. -/
theorem ParseOpsFromU256_header (h : Nat) (body : List Nat) (hb : body ≠ []) :
    ParseOpsFromU256 (some h) body =
      if h / 2 ^ 128 ≠ 0 then Outcome.ret "" (some Err.invalidHeader)
      else
        opsLoop (body.length + 1) body 0
          (lineOf ["newLogicTimeSec:", fmtDec (h / 2 ^ 64 % 2 ^ 64)] ++
            (lineOf ["beginIndex:", fmtDec (h % 2 ^ 64)] ++
              lineOf ["len(body):", fmtDec body.length])) := by
  have hl : body.length ≠ 0 := by
    intro h0
    exact hb (List.length_eq_zero.mp h0)
  have e : h / 2 ^ 64 / 2 ^ 64 = h / 2 ^ 128 := by
    rw [Nat.div_div_eq_div_mul, ← pow_add]
  simp only [ParseOpsFromU256, newIntSet, List.map_id_fun', id_eq, hl, if_false, PopUint64_eq,
    BitLen_eq_zero, Fprintln, String.empty_append, String.append_assoc, e, ne_eq]

theorem header_small (h : Nat) : h / 2 ^ 128 ≠ 0 ↔ 2 ^ 128 ≤ h := by
  constructor
  · intro hne
    by_contra hlt
    exact hne (Nat.div_eq_of_lt (by omega))
  · intro hle hz
    have := Nat.div_pos hle (by positivity : 0 < 2 ^ 128)
    omega

/-! ## MatchOrders with two existing orders -/

/-- Maker `v1 = 0` and taker `v2 = 0`, both keys below `2 ^ 224`, the opcode
already popped from the first cell. -/
theorem parseMatchOrdersOp_two_existing (out : String) (k1 k2 : Nat) (h1 : k1 < 2 ^ 224)
    (h2 : k2 < 2 ^ 224) :
    parseMatchOrdersOp [k1 * 2 ^ 8, k2 * 2 ^ 8] out 0 (Slice.sub 1) =
      some ([0, 0],
        out ++ lineOf ["operation MatchOrder:"] ++ lineOf ["  makerOrder (existing):"] ++
          keyText k1 ++ lineOf ["  takerOrder (existing):"] ++ keyText k2, 2, none) := by
  have l0 : load [k1 * 2 ^ 8, k2 * 2 ^ 8] 0 = k1 * 2 ^ 8 := rfl
  have l1 : load (List.set [k1 * 2 ^ 8, k2 * 2 ^ 8] 0 0) 1 = k2 * 2 ^ 8 := rfl
  have z1 : k1 * 2 ^ 8 / 2 ^ 232 = 0 := Nat.div_eq_of_lt (by omega)
  have z2 : k2 * 2 ^ 8 / 2 ^ 232 = 0 := Nat.div_eq_of_lt (by omega)
  have q1 : k1 * 2 ^ 8 / 2 ^ 8 = k1 := by omega
  have q2 : k2 * 2 ^ 8 / 2 ^ 8 = k2 := by omega
  rw [parseMatchOrdersOp_existing _ out 0 1 (by rw [l0]; omega) (by simp), l0, z1]
  simp only [ne_eq, not_true_eq_false, if_false]
  rw [parseTaker_existing _ _ 1 1 (by simp) (by rw [l1]; omega), l1, z2, q1, q2]
  simp

/-- The loop on a body of exactly two words holding MatchOrders with two
existing orders. -/
theorem opsLoop_two_existing (out : String) (k1 k2 : Nat) (h1 : k1 < 2 ^ 224)
    (h2 : k2 < 2 ^ 224) :
    opsLoop 3 [k1 * 2 ^ 24 + 0xDE03, k2 * 2 ^ 8] 0 out =
      Outcome.ret (out ++ lineOf ["operation MatchOrder:"] ++
        lineOf ["  makerOrder (existing):"] ++ keyText k1 ++ lineOf ["  takerOrder (existing):"] ++
        keyText k2) none := by
  have l0 : load [k1 * 2 ^ 24 + 0xDE03, k2 * 2 ^ 8] 0 = k1 * 2 ^ 24 + 0xDE03 := rfl
  have a1 : (k1 * 2 ^ 24 + 0xDE03) % 2 ^ 16 = 0xDE03 := by omega
  have a2 : (k1 * 2 ^ 24 + 0xDE03) / 2 ^ 16 = k1 * 2 ^ 8 := by omega
  have s0 : List.set [k1 * 2 ^ 24 + 0xDE03, k2 * 2 ^ 8] 0 (k1 * 2 ^ 8) =
      [k1 * 2 ^ 8, k2 * 2 ^ 8] := rfl
  have d := dispatch_DE03 [k1 * 2 ^ 8, k2 * 2 ^ 8] out 0 (by simp)
  rw [parseMatchOrdersOp_two_existing out k1 k2 h1 h2] at d
  have g : ¬ ((0xDE03 : Nat) >>> 8 ≠ 0xDE) := by decide
  rw [opsLoop]
  simp only [popAt16, l0, a1, a2, s0, g, if_false, d]
  rw [opsLoop]
  simp

/-! ## InitiateWithdraw -/

/-- The three fields of InitiateWithdraw, popped from the cell `bits`. -/
theorem parseInitiateWithdrawOp_eq (m : Mem) (out : String) (bits : Nat) :
    parseInitiateWithdrawOp m out bits =
      (m.set bits (load m bits / 2 ^ 240),
        out ++ "operation InitiateWithdraw:\n" ++
          "  traderAddr: " ++ fmtHex (load m bits % 2 ^ 160) ++ "\n" ++
          "  tokenCode: " ++ fmtDec (load m bits / 2 ^ 160 % 2 ^ 16) ++ "\n" ++
          "  amountE8: " ++ fmtDec (load m bits / 2 ^ 176 % 2 ^ 64) ++ "\n", none) := by
  have e1 := popAt_chain PopUint16 16 PopUint16_eq 160 176 rfl m bits
  have e2 := popAt_chain PopUint64 64 PopUint64_eq 176 240 rfl m bits
  simp only [parseInitiateWithdrawOp, popAt160, e1, e2, Fprintln, lineOf_one, lineOf_two,
    String.append_assoc]
  rfl

/-- Packing the three fields, amountE8 above tokenCode above traderAddr, gives
back the 240 bits they were popped from. -/
theorem withdraw_repack (u : Nat) (hu : u < 2 ^ 240) :
    ((u / 2 ^ 176 % 2 ^ 64) <<< 176 ||| (u / 2 ^ 160 % 2 ^ 16) <<< 160 ||| (u % 2 ^ 160)) = u := by
  have h1 : u / 2 ^ 160 % 2 ^ 16 * 2 ^ 160 < 2 ^ 176 := by
    have : u / 2 ^ 160 % 2 ^ 16 < 2 ^ 16 := Nat.mod_lt _ (by positivity)
    calc u / 2 ^ 160 % 2 ^ 16 * 2 ^ 160 < 2 ^ 16 * 2 ^ 160 :=
          Nat.mul_lt_mul_of_pos_right this (by positivity)
      _ = 2 ^ 176 := by norm_num
  have h2 : u % 2 ^ 160 < 2 ^ 160 := Nat.mod_lt _ (by positivity)
  have e1 : 2 ^ 176 * (u / 2 ^ 176 % 2 ^ 64) + u / 2 ^ 160 % 2 ^ 16 * 2 ^ 160 =
      2 ^ 160 * (u / 2 ^ 160) := by
    omega
  rw [Nat.shiftLeft_eq, Nat.shiftLeft_eq, Nat.mul_comm _ (2 ^ 176), ← Nat.mul_add_lt_is_or h1,
    e1, ← Nat.mul_add_lt_is_or h2]
  exact Nat.div_add_mod u (2 ^ 160)

/-! ## Cells in front of the operation do not matter -/

theorem load_append_right (pre m : Mem) (p : Nat) :
    load (pre ++ m) (pre.length + p) = load m p := by
  unfold load
  rw [List.getD_append_right _ _ _ _ (by omega)]
  simp

theorem set_append_right (pre m : Mem) (p v : Nat) :
    (pre ++ m).set (pre.length + p) v = pre ++ m.set p v := by
  rw [List.set_append]
  simp

theorem popAt_append_right (pop : Nat → Nat × Nat) (pre m : Mem) (p : Nat) :
    popAt pop (pre ++ m) (pre.length + p) = ((popAt pop m p).1, pre ++ (popAt pop m p).2) := by
  simp only [popAt, load_append_right, set_append_right]

theorem len_shift (pre m : Mem) (rest : Slice) :
    Slice.len (pre ++ m) (rest.shift pre.length) = Slice.len m rest := by
  cases rest with
  | nil => rfl
  | sub s =>
    simp only [Slice.shift, Slice.len, List.length_append]
    omega

theorem index_shift (pre m : Mem) (rest : Slice) (k : Nat) :
    Slice.index (pre ++ m) (rest.shift pre.length) k =
      (Slice.index m rest k).map fun p => pre.length + p := by
  cases rest with
  | nil => rfl
  | sub s =>
    simp only [Slice.shift, Slice.index, List.length_append]
    by_cases h : k < m.length - s
    · have h2 : k < pre.length + m.length - (pre.length + s) := by omega
      simp [h, h2, Nat.add_assoc]
    · have h2 : ¬ k < pre.length + m.length - (pre.length + s) := by omega
      simp [h, h2]

theorem drop_shift (pre m : Mem) (rest : Slice) (k : Nat) :
    Slice.drop (pre ++ m) (rest.shift pre.length) k =
      (Slice.drop m rest k).map (Slice.shift pre.length) := by
  cases rest with
  | nil =>
    simp only [Slice.shift, Slice.drop]
    split_ifs <;> rfl
  | sub s =>
    simp only [Slice.shift, Slice.drop, List.length_append]
    by_cases h : k ≤ m.length - s
    · have h2 : k ≤ pre.length + m.length - (pre.length + s) := by omega
      simp [h, h2, Slice.shift, Nat.add_assoc]
    · have h2 : ¬ k ≤ pre.length + m.length - (pre.length + s) := by omega
      simp [h, h2]

theorem parseNewOrderWords_shift (pre m : Mem) (out : String) (rest : Slice) :
    parseNewOrderWords (pre ++ m) out (rest.shift pre.length) =
      underD pre (parseNewOrderWords m out rest) := by
  unfold parseNewOrderWords
  rw [index_shift]
  cases Slice.index m rest 0 with
  | none => rfl
  | some bits =>
    simp only [Option.map_some', popAt_append_right, load_append_right, index_shift]
    split_ifs
    · rfl
    · cases Slice.index _ rest 1 with
      | none => rfl
      | some r1 =>
        simp only [Option.map_some', load_append_right]
        split_ifs
        · rfl
        · cases Slice.index _ rest 2 with
          | none => rfl
          | some r2 =>
            simp only [Option.map_some', load_append_right]
            split_ifs <;> rfl

theorem shift_eq_nil (off : Nat) (rest : Slice) :
    (rest.shift off = Slice.nil) = (rest = Slice.nil) := by
  cases rest <;> simp [Slice.shift]

theorem parseOrderOpOperand_shift (pre m : Mem) (out : String) (bits : Nat) (rest : Slice) :
    parseOrderOpOperand (pre ++ m) out (pre.length + bits) (rest.shift pre.length) =
      underD pre (parseOrderOpOperand m out bits rest) := by
  unfold parseOrderOpOperand
  simp only [popAt_append_right, load_append_right, shift_eq_nil, parseNewOrderWords_shift]
  split_ifs <;> rfl

theorem parseTaker_shift (pre m : Mem) (out : String) (rest : Slice) (c : Nat) :
    parseTakerWith parseOrderOpOperand (pre ++ m) out (rest.shift pre.length) c =
      underM pre (parseTakerWith parseOrderOpOperand m out rest c) := by
  unfold parseTakerWith
  rw [index_shift, drop_shift]
  cases h0 : Slice.index m rest 0 with
  | none => rfl
  | some bits =>
    cases h1 : Slice.drop m rest 1 with
    | none => rfl
    | some rest1 =>
      simp only [Option.map_some', popAt_append_right, len_shift]
      have hn := parseOrderOpOperand_shift pre (popAt PopUint8 m bits).2
        (Fprintln out ["  takerOrder (existing):"]) bits Slice.nil
      simp only [Slice.shift] at hn
      split_ifs
      · rw [hn]
        cases parseOrderOpOperand (popAt PopUint8 m bits).2 _ bits Slice.nil with
        | none => rfl
        | some r =>
          obtain ⟨m1, out1, e⟩ := r
          cases e <;> rfl
      · rfl
      · rfl
      · rw [parseOrderOpOperand_shift]
        cases parseOrderOpOperand (popAt PopUint8 m bits).2 _ bits rest1 with
        | none => rfl
        | some r =>
          obtain ⟨m1, out1, e⟩ := r
          cases e <;> rfl

theorem parseMatchOrdersOp_shift (pre m : Mem) (out : String) (bits : Nat) (rest : Slice) :
    parseMatchOrdersOp (pre ++ m) out (pre.length + bits) (rest.shift pre.length) =
      underM pre (parseMatchOrdersOp m out bits rest) := by
  unfold parseMatchOrdersOp parseMatchOrdersOpWith
  simp only [popAt_append_right, len_shift]
  have hn := parseOrderOpOperand_shift pre (popAt PopUint8 m bits).2
    (Fprintln (Fprintln out ["operation MatchOrder:"]) ["  makerOrder (existing):"]) bits
    Slice.nil
  simp only [Slice.shift] at hn
  split_ifs
  · rfl
  · rw [hn]
    cases parseOrderOpOperand (popAt PopUint8 m bits).2 _ bits Slice.nil with
    | none => rfl
    | some r =>
      obtain ⟨m1, out1, e⟩ := r
      cases e with
      | some err => rfl
      | none =>
        simp only [underD, Option.map_some']
        exact parseTaker_shift pre m1 out1 rest (0 + 1)
  · rfl
  · rfl
  · rw [parseOrderOpOperand_shift]
    cases parseOrderOpOperand (popAt PopUint8 m bits).2 _ bits rest with
    | none => rfl
    | some r =>
      obtain ⟨m1, out1, e⟩ := r
      cases e with
      | some err => rfl
      | none =>
        simp only [underD, Option.map_some']
        rw [drop_shift]
        cases Slice.drop m1 rest 3 with
        | none => rfl
        | some rest3 =>
          simp only [Option.map_some']
          exact parseTaker_shift pre m1 out1 rest3 (0 + 4)

theorem dispatch_shift (pre m : Mem) (out : String) (i opcode : Nat) :
    dispatch (pre ++ m) out (pre.length + i) opcode = underM pre (dispatch m out i opcode) := by
  have hd : Slice.drop (pre ++ m) (Slice.sub 0) (pre.length + i + 1) =
      (Slice.drop m (Slice.sub 0) (i + 1)).map (Slice.shift pre.length) := by
    have := drop_shift pre m (Slice.sub 0) (i + 1)
    simp only [Slice.shift, Slice.drop, List.length_append, Nat.add_zero, Nat.sub_zero,
      Nat.zero_add] at this ⊢
    by_cases h : i + 1 ≤ m.length
    · have h2 : pre.length + i + 1 ≤ pre.length + m.length := by omega
      simp [h, h2, Slice.shift, Nat.add_assoc]
    · have h2 : ¬ pre.length + i + 1 ≤ pre.length + m.length := by omega
      simp [h, h2]
  unfold dispatch
  simp only [hd]
  split_ifs
  · simp [oneWord, parseConfirmDepositOp, load_append_right, underM]
  · simp [oneWord, parseInitiateWithdrawOp, popAt_append_right, underM]
  · cases Slice.drop m (Slice.sub 0) (i + 1) with
    | none => rfl
    | some rest =>
      simp only [Option.map_some']
      exact parseMatchOrdersOp_shift pre m out i rest
  · simp [oneWord, parseHardCancelOrderOp, underM]
  · simp [oneWord, parseSetFeeRatesOp, underM]
  · simp [oneWord, parseSetFeeRebatePercentOp, underM]
  · simp [underM]

/-- The loop from the index `pre.length + i` of `pre ++ m` is the loop from the
index i of m. -/
theorem opsLoop_shift (fuel : Nat) : ∀ (pre m : Mem) (i : Nat) (out : String),
    opsLoop fuel (pre ++ m) (pre.length + i) out = opsLoop fuel m i out := by
  induction fuel with
  | zero => intro pre m i out; rfl
  | succ fuel ih =>
    intro pre m i out
    rw [opsLoop, opsLoop]
    by_cases hi : i < m.length
    · have hi2 : pre.length + i < (pre ++ m).length := by
        simp only [List.length_append]
        omega
      simp only [hi, hi2, if_true, popAt_append_right, dispatch_shift]
      split_ifs
      · rfl
      · cases dispatch (popAt PopUint16 m i).2 out i (popAt PopUint16 m i).1 with
        | none => rfl
        | some r =>
          obtain ⟨m1, out1, c, e⟩ := r
          cases e with
          | some err => rfl
          | none =>
            simp only [underM, Option.map_some', List.length_append]
            rw [Nat.add_assoc]
            by_cases hc : i + c < m1.length
            · have hc2 : pre.length + (i + c) < pre.length + m1.length := by omega
              simp only [hc, hc2, if_true]
              exact ih pre m1 (i + c) _
            · have hc2 : ¬ pre.length + (i + c) < pre.length + m1.length := by omega
              simp only [hc, hc2, if_false]
              exact ih pre m1 (i + c) _
    · have hi2 : ¬ pre.length + i < (pre ++ m).length := by
        simp only [List.length_append]
        omega
      simp only [hi, hi2, if_false]

/-! ## Cells after the operation do not matter once it is decoded -/

theorem load_append_left (m post : Mem) (p : Nat) (h : p < m.length) :
    load (m ++ post) p = load m p := by
  unfold load
  rw [List.getD_append _ _ _ _ h]

theorem set_append_left (m post : Mem) (p v : Nat) (h : p < m.length) :
    (m ++ post).set p v = m.set p v ++ post := by
  rw [List.set_append]
  simp [h]

theorem parseOrderOpOperand_nil_extend (m post : Mem) (out : String) (bits : Nat)
    (hb : bits < m.length) :
    parseOrderOpOperand (m ++ post) out bits Slice.nil =
      overD post (parseOrderOpOperand m out bits Slice.nil) := by
  rw [parseOrderOpOperand_nil, parseOrderOpOperand_nil, load_append_left m post bits hb,
    set_append_left m post bits _ hb]
  rfl

theorem parseOrderOpOperand_new_extend (m post : Mem) (out : String) (bits r : Nat)
    (hb : bits < r) (hr : r + 3 ≤ m.length) :
    parseOrderOpOperand (m ++ post) out bits (Slice.sub r) =
      overD post (parseOrderOpOperand m out bits (Slice.sub r)) := by
  rw [parseOrderOpOperand_new m out bits r hb hr,
    parseOrderOpOperand_new (m ++ post) out bits r hb (by simp only [List.length_append]; omega),
    load_append_left m post bits (by omega), load_append_left m post r (by omega),
    load_append_left m post (r + 1) (by omega), load_append_left m post (r + 2) (by omega),
    set_append_left m post bits _ (by omega),
    set_append_left _ post r _ (by simp only [List.length_set]; omega)]
  split_ifs <;> rfl

theorem parseTaker_extend (m post : Mem) (out : String) (t c : Nat) (m1 : Mem) (out1 : String)
    (c1 : Nat) (ht : t < m.length)
    (h : parseTakerWith parseOrderOpOperand m out (Slice.sub t) c = some (m1, out1, c1, none)) :
    parseTakerWith parseOrderOpOperand (m ++ post) out (Slice.sub t) c =
      some (m1 ++ post, out1, c1, none) := by
  have ht2 : t < (m ++ post).length := by
    simp only [List.length_append]
    omega
  have hl : load (m ++ post) t = load m t := load_append_left m post t ht
  by_cases h0 : load m t % 2 ^ 8 = 0
  · rw [parseTaker_existing m out t c ht h0] at h
    rw [parseTaker_existing (m ++ post) out t c ht2 (by rw [hl]; exact h0), hl,
      set_append_left m post t _ ht]
    simp only [Option.some.injEq, Prod.mk.injEq] at h ⊢
    obtain ⟨rfl, rfl, rfl, hD⟩ := h
    exact ⟨rfl, rfl, rfl, hD⟩
  · by_cases hv : load m t % 2 ^ 8 = 27 ∨ load m t % 2 ^ 8 = 28
    · by_cases hlen : m.length < t + 4
      · rw [parseTakerWith_short _ m out t c ht hv hlen] at h
        simp at h
      · rw [parseTaker_new m out t c hv (by omega)] at h
        rw [parseTaker_new (m ++ post) out t c (by rw [hl]; exact hv)
          (by simp only [List.length_append]; omega), hl, set_append_left m post t _ ht,
          parseOrderOpOperand_new_extend _ post _ t (t + 1) (Nat.lt_succ_self t)
            (by simp only [List.length_set]; omega)]
        cases hq : parseOrderOpOperand (m.set t (load m t / 2 ^ 8))
            (out ++ ("  takerOrder (new, v2=" ++ fmtDec (load m t % 2 ^ 8) ++ "):\n")) t
            (Slice.sub (t + 1)) with
        | none =>
          rw [hq] at h
          simp at h
        | some r =>
          obtain ⟨m2, out2, e⟩ := r
          rw [hq] at h
          simp only [Option.some.injEq, Prod.mk.injEq] at h
          obtain ⟨rfl, rfl, rfl, rfl⟩ := h
          rfl
    · rw [parseTaker_invalid _ m out t c ht h0 (by omega) (by omega)] at h
      simp at h

theorem parseMatchOrdersOp_extend (m post : Mem) (out : String) (bits s : Nat) (m1 : Mem)
    (out1 : String) (c : Nat) (hb : bits < s)
    (h : parseMatchOrdersOp m out bits (Slice.sub s) = some (m1, out1, c, none)) :
    parseMatchOrdersOp (m ++ post) out bits (Slice.sub s) = some (m1 ++ post, out1, c, none) := by
  have hs := (parseMatchOrdersOp_ok m out bits s m1 out1 c hb h)
  have hs1 : s < m.length := by
    obtain ⟨hc, hlen, -⟩ := hs
    split_ifs at hc <;> omega
  have hbl : bits < m.length := by omega
  have hl : load (m ++ post) bits = load m bits := load_append_left m post bits hbl
  by_cases h0 : load m bits % 2 ^ 8 = 0
  · rw [parseMatchOrdersOp_existing m out bits s h0 hs1] at h
    rw [parseMatchOrdersOp_existing (m ++ post) out bits s (by rw [hl]; exact h0)
      (by simp only [List.length_append]; omega), hl, set_append_left m post bits _ hbl]
    split_ifs at h ⊢
    · simp at h
    · exact parseTaker_extend _ post _ s 1 m1 out1 c (by simpa using hs1) h
  · by_cases hv : load m bits % 2 ^ 8 = 27 ∨ load m bits % 2 ^ 8 = 28
    · by_cases hlen : s + 4 ≤ m.length
      · rw [parseMatchOrdersOp_new m out bits s hb hv hlen] at h
        rw [parseMatchOrdersOp_new (m ++ post) out bits s hb (by rw [hl]; exact hv)
          (by simp only [List.length_append]; omega), hl, set_append_left m post bits _ hbl,
          parseOrderOpOperand_new_extend _ post _ bits s hb
            (by simp only [List.length_set]; omega)]
        have hop := parseOrderOpOperand_new (m.set bits (load m bits / 2 ^ 8))
          (out ++ lineOf ["operation MatchOrder:"] ++
            ("  makerOrder (new, v1=" ++ fmtDec (load m bits % 2 ^ 8) ++ "):\n")) bits s hb
          (by simp only [List.length_set]; omega)
        cases hq : parseOrderOpOperand (m.set bits (load m bits / 2 ^ 8))
            (out ++ lineOf ["operation MatchOrder:"] ++
              ("  makerOrder (new, v1=" ++ fmtDec (load m bits % 2 ^ 8) ++ "):\n")) bits
            (Slice.sub s) with
        | none =>
          rw [hq] at h
          simp at h
        | some r =>
          obtain ⟨m2, out2, e⟩ := r
          rw [hq] at h
          cases e with
          | some err => simp at h
          | none =>
            have hm2 : m2.length = m.length := by
              rw [hq] at hop
              split_ifs at hop <;>
                simp only [Option.some.injEq, Prod.mk.injEq, reduceCtorEq, and_false] at hop
              obtain ⟨rfl, -⟩ := hop
              simp
            exact parseTaker_extend m2 post out2 (s + 3) 4 m1 out1 c (by omega) h
      · rw [parseMatchOrdersOp_new_short m out bits s hv (by omega)] at h
        simp at h
    · rw [parseMatchOrdersOp_invalid m out bits _ h0 (by omega) (by omega)] at h
      simp at h

theorem popAt_append_left (pop : Nat → Nat × Nat) (m post : Mem) (p : Nat) (h : p < m.length) :
    popAt pop (m ++ post) p = ((popAt pop m p).1, (popAt pop m p).2 ++ post) := by
  simp only [popAt, load_append_left m post p h, set_append_left m post p _ h]

theorem dispatch_extend (m post : Mem) (out : String) (i opcode : Nat) (m1 : Mem)
    (out1 : String) (c : Nat) (hi : i < m.length)
    (h : dispatch m out i opcode = some (m1, out1, c, none)) :
    dispatch (m ++ post) out i opcode = some (m1 ++ post, out1, c, none) := by
  have hi2 : i < (m ++ post).length := by
    simp only [List.length_append]
    omega
  by_cases h3 : opcode = 0xDE03
  · subst h3
    rw [dispatch_DE03 m out i hi] at h
    rw [dispatch_DE03 (m ++ post) out i hi2]
    exact parseMatchOrdersOp_extend m post out i (i + 1) m1 out1 c (Nat.lt_succ_self i) h
  · simp only [dispatch, h3, if_false, oneWord, parseConfirmDepositOp, parseInitiateWithdrawOp,
      parseHardCancelOrderOp, parseSetFeeRatesOp, parseSetFeeRebatePercentOp] at h ⊢
    split_ifs at h ⊢ <;>
      simp only [Option.some.injEq, Prod.mk.injEq, reduceCtorEq, and_false, and_true] at h ⊢
    · obtain ⟨rfl, rfl, rfl⟩ := h
      rw [load_append_left m post i hi]
      exact ⟨rfl, rfl, rfl⟩
    · obtain ⟨rfl, rfl, rfl⟩ := h
      rw [popAt_append_left _ m post i hi,
        popAt_append_left _ _ post i (by rw [popAt_length]; exact hi),
        popAt_append_left _ _ post i (by rw [popAt_length, popAt_length]; exact hi)]
      exact ⟨rfl, rfl, rfl⟩
    · obtain ⟨rfl, rfl, rfl⟩ := h
      exact ⟨rfl, rfl, rfl⟩
    · obtain ⟨rfl, rfl, rfl⟩ := h
      exact ⟨rfl, rfl, rfl⟩
    · obtain ⟨rfl, rfl, rfl⟩ := h
      exact ⟨rfl, rfl, rfl⟩

/-- A working copy decoded without error from the index i on, with further
words after it: the loop decodes the same operations, writes the blank line,
and goes on with the further words as if they were a body of their own. -/
theorem opsLoop_extend (fuel : Nat) : ∀ (m : Mem) (i : Nat) (out t : String) (post : Mem)
    (fuel2 : Nat), opsLoop fuel m i out = Outcome.ret t none → i < m.length → post ≠ [] →
    (m ++ post).length - i < fuel2 →
    opsLoop fuel2 (m ++ post) i out = opsLoop (post.length + 1) post 0 (Fprintln t [""]) := by
  induction fuel with
  | zero => intro m i out t post fuel2 h; simp [opsLoop] at h
  | succ fuel ih =>
    intro m i out t post fuel2 h hi hp hf
    have hpl : 0 < post.length := List.length_pos.mpr hp
    cases fuel2 with
    | zero => omega
    | succ fuel2 =>
      have hi2 : i < (m ++ post).length := by
        simp only [List.length_append]
        omega
      rw [opsLoop] at h ⊢
      simp only [hi, hi2, if_true, popAt_append_left PopUint16 m post i hi] at h ⊢
      by_cases hm : (popAt PopUint16 m i).1 >>> 8 ≠ 0xDE
      · simp [hm] at h
      · simp only [hm, if_false] at h ⊢
        cases hd : dispatch (popAt PopUint16 m i).2 out i (popAt PopUint16 m i).1 with
        | none =>
          rw [hd] at h
          simp at h
        | some r =>
          obtain ⟨m1, out1, c, e⟩ := r
          rw [hd] at h
          cases e with
          | some err => simp at h
          | none =>
            have hil : i < (popAt PopUint16 m i).2.length := by
              rw [popAt_length]
              exact hi
            have hb := dispatch_ok _ _ _ _ hil _ _ _ hd
            rw [popAt_length] at hb
            rw [dispatch_extend _ post _ _ _ _ _ _ hil hd]
            simp only [List.length_append] at h hf ⊢
            have hlt : i + c < m1.length + post.length := by omega
            simp only [hlt, if_true]
            by_cases hc : i + c < m1.length
            · simp only [hc, if_true] at h
              exact ih m1 (i + c) _ t post fuel2 h hc hp
                (by simp only [List.length_append]; omega)
            · simp only [hc, if_false] at h
              have hic : i + c = m1.length + 0 := by omega
              cases fuel with
              | zero => simp [opsLoop] at h
              | succ fuel =>
                rw [opsLoop] at h
                simp only [hc, if_false, Outcome.ret.injEq, and_true] at h
                subst h
                rw [hic, opsLoop_shift]
                exact opsLoop_fuel _ _ _ _ _ (by omega) (by omega)

/-! ## Decoding a body made of two bodies -/

/-- With a valid header and a non-empty body, the trace is the header lines
followed by what the loop writes. -/
theorem ParseOpsFromU256_valid (h : Nat) (body : List Nat) (hh : h < 2 ^ 128) (hb : body ≠ []) :
    ParseOpsFromU256 (some h) body =
      Outcome.after (headerText h body.length) (opsLoop (body.length + 1) body 0 "") := by
  have h0 : ¬ h / 2 ^ 128 ≠ 0 := by
    rw [header_small]
    omega
  rw [ParseOpsFromU256_header h body hb, if_neg h0, opsLoop_out]
  rfl

/-- The loop over `b1 ++ b2`, when the loop over `b1` ends without error. -/
theorem opsLoop_append (b1 b2 : List Nat) (t1 : String) (hb2 : b2 ≠ [])
    (h1 : opsLoop (b1.length + 1) b1 0 "" = Outcome.ret t1 none) (hb1 : b1 ≠ []) :
    opsLoop ((b1 ++ b2).length + 1) (b1 ++ b2) 0 "" =
      Outcome.after (t1 ++ "\n") (opsLoop (b2.length + 1) b2 0 "") := by
  rw [opsLoop_extend (b1.length + 1) b1 0 "" t1 b2 _ h1 (List.length_pos.mpr hb1) hb2 (by omega),
    opsLoop_out]
  rfl

/-! ## One turn of the loop -/

/-- The loop at an index inside the working copy: the opcode is the low 16
bits of the cell, its high byte is tested, and the operation is dispatched on
the cell with the opcode shifted out. -/
theorem opsLoop_step (fuel : Nat) (m : Mem) (i : Nat) (out : String) (hi : i < m.length) :
    opsLoop (fuel + 1) m i out =
      if load m i % 2 ^ 16 / 2 ^ 8 ≠ 0xDE then Outcome.ret out (some Err.wrongMagicNumber)
      else
        match dispatch (m.set i (load m i / 2 ^ 16)) out i (load m i % 2 ^ 16) with
        | none => Outcome.panic
        | some (_, out1, _, some err) => Outcome.ret out1 (some err)
        | some (m1, out1, c, none) =>
          opsLoop fuel m1 (i + c) (if i + c < m1.length then Fprintln out1 [""] else out1) := by
  rw [opsLoop]
  simp only [hi, if_true, popAt16, Nat.shiftRight_eq_div_pow]

/-- The header lines as text. -/
theorem headerText_eq (h n : Nat) (hh : h < 2 ^ 128) :
    headerText h n =
      "newLogicTimeSec: " ++ fmtDec (h / 2 ^ 64) ++ "\n" ++
        "beginIndex: " ++ fmtDec (h % 2 ^ 64) ++ "\n" ++
        "len(body): " ++ fmtDec n ++ "\n" := by
  have hm : h / 2 ^ 64 % 2 ^ 64 = h / 2 ^ 64 := by
    apply Nat.mod_eq_of_lt
    apply Nat.div_lt_of_lt_mul
    calc h < 2 ^ 128 := hh
      _ = 2 ^ 64 * 2 ^ 64 := by norm_num
  simp only [headerText, hm, lineOf_two, String.append_assoc]
  rfl

/-- With a valid header and a non-empty body, the result is the loop started on
the header lines. -/
theorem ParseOpsFromU256_loop (h : Nat) (body : List Nat) (hh : h < 2 ^ 128) (hb : body ≠ []) :
    ParseOpsFromU256 (some h) body =
      opsLoop (body.length + 1) body 0 (headerText h body.length) := by
  have h0 : ¬ h / 2 ^ 128 ≠ 0 := by
    rw [header_small]
    omega
  rw [ParseOpsFromU256_header h body hb, if_neg h0]
  rfl

/-! ## Taker discriminator other than 0, 27 and 28 -/

/-- Maker existing and well-formed, taker `v2` other than 0, 27 and 28. -/
theorem parseMatchOrdersOp_existing_taker_invalid (m : Mem) (out : String) (bits s : Nat)
    (hb : bits < s) (hv : load m bits % 2 ^ 8 = 0) (hk : load m bits < 2 ^ 232)
    (hs : s < m.length) (h0 : load m s % 2 ^ 8 ≠ 0) (h27 : load m s % 2 ^ 8 ≠ 27)
    (h28 : load m s % 2 ^ 8 ≠ 28) :
    parseMatchOrdersOp m out bits (Slice.sub s) =
      some ((m.set bits 0).set s (load m s / 2 ^ 8),
        out ++ lineOf ["operation MatchOrder:"] ++ lineOf ["  makerOrder (existing):"] ++
          keyText (load m bits / 2 ^ 8) ++
          ("  takerOrder (new, v2=" ++ fmtDec (load m s % 2 ^ 8) ++ "):\n"), 0,
        some (Err.invalidV2 (load m s % 2 ^ 8))) := by
  have e : load (m.set bits 0) s = load m s := load_set_of_ne m bits s 0 (by omega)
  rw [parseMatchOrdersOp_existing m out bits s hv hs, Nat.div_eq_of_lt hk]
  simp only [ne_eq, not_true_eq_false, if_false]
  rw [parseTaker_invalid _ _ _ s 1 (by simpa using hs) (by rw [e]; exact h0)
    (by rw [e]; exact h27) (by rw [e]; exact h28), e]

/-- Maker new and well-formed, taker `v2` other than 0, 27 and 28. -/
theorem parseMatchOrdersOp_new_taker_invalid (m : Mem) (out : String) (bits s : Nat)
    (hb : bits < s) (hv : load m bits % 2 ^ 8 = 27 ∨ load m bits % 2 ^ 8 = 28)
    (hk : load m bits < 2 ^ 232) (hs : s + 4 ≤ m.length) (hw : load m s < 2 ^ 240)
    (h1 : load m (s + 1) ≠ 0) (h2 : load m (s + 2) ≠ 0)
    (h0 : load m (s + 3) % 2 ^ 8 ≠ 0) (h27 : load m (s + 3) % 2 ^ 8 ≠ 27)
    (h28 : load m (s + 3) % 2 ^ 8 ≠ 28) :
    parseMatchOrdersOp m out bits (Slice.sub s) =
      some (((m.set bits 0).set s 0).set (s + 3) (load m (s + 3) / 2 ^ 8),
        out ++ lineOf ["operation MatchOrder:"] ++
          ("  makerOrder (new, v1=" ++ fmtDec (load m bits % 2 ^ 8) ++ "):\n") ++
          keyText (load m bits / 2 ^ 8) ++ fieldsText (load m s) ++ sText (load m (s + 1)) ++
          tText (load m (s + 2)) ++
          ("  takerOrder (new, v2=" ++ fmtDec (load m (s + 3) % 2 ^ 8) ++ "):\n"), 0,
        some (Err.invalidV2 (load m (s + 3) % 2 ^ 8))) := by
  have hk2 : load m bits / 2 ^ 8 < 2 ^ 224 := by
    apply Nat.div_lt_of_lt_mul
    calc load m bits < 2 ^ 232 := hk
      _ = 2 ^ 8 * 2 ^ 224 := by norm_num
  have f : ∀ q, bits ≠ q → load (m.set bits (load m bits / 2 ^ 8)) q = load m q :=
    fun q hq => load_set_of_ne m bits q _ hq
  have e3 : load ((m.set bits 0).set s 0) (s + 3) = load m (s + 3) := by
    rw [load_set_of_ne _ s (s + 3) 0 (by omega), load_set_of_ne m bits (s + 3) 0 (by omega)]
  rw [parseMatchOrdersOp_new m out bits s hb hv hs,
    parseOrderOpOperand_new_ok _ _ bits s hb (by simpa using by omega)
      (by rw [load_set_div]; exact hk2) (by rw [f s (by omega)]; exact hw)
      (by rw [f (s + 1) (by omega)]; exact h1) (by rw [f (s + 2) (by omega)]; exact h2)]
  simp only [load_set_div, f s (by omega), f (s + 1) (by omega), f (s + 2) (by omega),
    List.set_set]
  rw [parseTaker_invalid _ _ _ (s + 3) 4 (by simpa using by omega) (by rw [e3]; exact h0)
    (by rw [e3]; exact h27) (by rw [e3]; exact h28), e3]

/-! ## The caller's heap is left as it was -/

/-- The result of the loop with the cells in view is the result of `opsLoop`. -/
theorem opsLoopMem_fst (fuel : Nat) : ∀ (m : Mem) (i : Nat) (out : String),
    (opsLoopMem fuel m i out).1 = opsLoop fuel m i out := by
  induction fuel with
  | zero => intro m i out; rfl
  | succ fuel ih =>
    intro m i out
    rw [opsLoopMem, opsLoop]
    by_cases hi : i < m.length
    · simp only [hi, if_true]
      split_ifs
      · rfl
      · cases dispatch (popAt PopUint16 m i).2 out i (popAt PopUint16 m i).1 with
        | none => rfl
        | some r =>
          obtain ⟨m1, out1, c, e⟩ := r
          cases e with
          | some err => rfl
          | none => exact ih m1 (i + c) _
    · simp only [hi, if_false]

/-- The loop writes no cell in front of the working copy. -/
theorem opsLoopMem_frame (fuel : Nat) : ∀ (pre m : Mem) (i : Nat) (out : String),
    ∃ m1, (opsLoopMem fuel (pre ++ m) (pre.length + i) out).2 = pre ++ m1 := by
  induction fuel with
  | zero => intro pre m i out; exact ⟨m, rfl⟩
  | succ fuel ih =>
    intro pre m i out
    rw [opsLoopMem]
    by_cases hi : i < m.length
    · have hi2 : pre.length + i < (pre ++ m).length := by
        simp only [List.length_append]
        omega
      simp only [hi2, if_true, popAt_append_right, dispatch_shift]
      split_ifs
      · exact ⟨_, rfl⟩
      · cases dispatch (popAt PopUint16 m i).2 out i (popAt PopUint16 m i).1 with
        | none => exact ⟨_, rfl⟩
        | some r =>
          obtain ⟨m1, out1, c, e⟩ := r
          cases e with
          | some err => exact ⟨m1, rfl⟩
          | none =>
            simp only [underM, Option.map_some']
            rw [Nat.add_assoc]
            exact ih pre m1 (i + c) _
    · have hi2 : ¬ pre.length + i < (pre ++ m).length := by
        simp only [List.length_append]
        omega
      simp only [hi2, if_false]
      exact ⟨m, rfl⟩

/-- The copy loop only appends cells. -/
theorem copyBody_frame (body : List (Option Nat)) : ∀ heap : Mem,
    ∃ m1, (copyBody heap body).1 = heap ++ m1 := by
  induction body with
  | nil => intro heap; exact ⟨[], by simp [copyBody]⟩
  | cons u us ih =>
    intro heap
    cases u with
    | none => exact ⟨[], by simp [copyBody, newIntSetAt]⟩
    | some p =>
      obtain ⟨m1, h1⟩ := ih (heap ++ [load heap p])
      refine ⟨[load heap p] ++ m1, ?_⟩
      simp only [copyBody, newIntSetAt]
      rw [h1, List.append_assoc]

/-- A cell of the caller, read from a longer heap. -/
theorem load_append_left_of_lt (heap ext : Mem) (p : Nat) (hp : p < heap.length) :
    load (heap ++ ext) p = load heap p := by
  unfold load
  rw [List.getD_append _ _ _ _ hp]

/-- The copy loop on body words that are cells of the caller: the copies are
appended in order. -/
theorem copyBody_map (heap : Mem) (body : List Nat) (hb : ∀ p ∈ body, p < heap.length) :
    ∀ ext : Mem, copyBody (heap ++ ext) (body.map some) =
      (heap ++ ext ++ body.map (load heap), true) := by
  induction body with
  | nil => intro ext; simp [copyBody]
  | cons p ps ih =>
    intro ext
    have hp : p < heap.length := hb p (List.mem_cons_self _ _)
    have h1 := ih (fun q hq => hb q (List.mem_cons_of_mem _ hq)) (ext ++ [load heap p])
    simp only [List.map_cons, copyBody, newIntSetAt, load_append_left_of_lt heap ext p hp]
    rw [List.append_assoc heap ext, h1]
    simp

/-- A pop on the cell that follows the cells of the caller. -/
theorem popAt_heap (pop : Nat → Nat × Nat) (heap m1 : Mem) (x : Nat) :
    popAt pop (heap ++ x :: m1) heap.length = ((pop x).1, heap ++ (pop x).2 :: m1) := by
  have h := popAt_append_right pop heap (x :: m1) 0
  simpa [popAt, load] using h

/-- The cell that follows the cells of the caller. -/
theorem load_heap (heap m1 : Mem) (x : Nat) : load (heap ++ x :: m1) heap.length = x := by
  have h := load_append_right heap (x :: m1) 0
  simpa [load] using h

/-- The loop on the working copy m1, allocated behind the cells of the caller
and the copy of the header, writes no cell of the caller. -/
theorem heap_loop_frame (heap m1 : Mem) (x fuel : Nat) (out : String) :
    ∃ m2, (opsLoopMem fuel (heap ++ x :: m1) (heap.length + 1) out).2 = heap ++ m2 := by
  have h := opsLoopMem_frame fuel (heap ++ [x]) m1 0 out
  simp only [List.append_assoc, List.singleton_append, List.length_append,
    List.length_singleton, Nat.add_zero] at h
  obtain ⟨m2, h2⟩ := h
  exact ⟨x :: m2, h2⟩

/-- The loop on the working copy m1, allocated behind the cells of the caller
and the copy of the header, returns what it returns on m1 alone. -/
theorem heap_loop_fst (heap m1 : Mem) (x fuel : Nat) (out : String) :
    (opsLoopMem fuel (heap ++ x :: m1) (heap.length + 1) out).1 = opsLoop fuel m1 0 out := by
  have h := opsLoop_shift fuel (heap ++ [x]) m1 0 out
  simp only [List.append_assoc, List.singleton_append, List.length_append,
    List.length_singleton, Nat.add_zero] at h
  rw [opsLoopMem_fst, h]

/-- Whatever the header and the body words are, the call leaves the cells of
the caller as they were. -/
theorem ParseOpsFromU256Heap_frame (heap : Mem) (header : Option Nat)
    (originalBody : List (Option Nat)) :
    ∃ m1, (ParseOpsFromU256Heap heap header originalBody).2 = heap ++ m1 := by
  cases header with
  | none => exact ⟨[], by simp [ParseOpsFromU256Heap, newIntSetAt]⟩
  | some hp =>
    obtain ⟨m1, h1⟩ := copyBody_frame originalBody (heap ++ [load heap hp])
    simp only [ParseOpsFromU256Heap, newIntSetAt]
    cases hc : copyBody (heap ++ [load heap hp]) originalBody with
    | mk heap2 ok =>
      rw [hc] at h1
      simp only at h1
      subst h1
      cases ok with
      | false => exact ⟨[load heap hp] ++ m1, by simp⟩
      | true =>
        simp only [List.append_assoc, List.singleton_append, List.length_append,
          List.length_singleton, popAt_heap, load_heap]
        split_ifs with h0 hbit
        · exact ⟨_, rfl⟩
        · exact ⟨_, rfl⟩
        · exact heap_loop_frame heap m1 _ _ _

/-- On body words that are cells of the caller, the call returns
what `ParseOpsFromU256` returns on their values. -/
theorem ParseOpsFromU256Heap_fst (heap : Mem) (header : Nat) (body : List Nat)
    (hb : ∀ p ∈ body, p < heap.length) :
    (ParseOpsFromU256Heap heap (some header) (body.map some)).1 =
      ParseOpsFromU256 (some (load heap header)) (body.map (load heap)) := by
  have hc := copyBody_map heap body hb [load heap header]
  simp only [ParseOpsFromU256Heap, newIntSetAt, hc, ParseOpsFromU256, newIntSet, List.map_id',
    List.length_map, List.append_assoc, List.singleton_append, List.length_append,
    List.length_singleton, popAt_heap, load_heap]
  split_ifs
  · rfl
  · rfl
  · exact heap_loop_fst heap _ _ _ _

/-! ## Words built from their fields -/

/-- The word of ConfirmDeposit with index d. -/
theorem confirm_word (d : Nat) : d <<< 16 ||| 0xDE01 = 2 ^ 16 * d + 0xDE01 := by
  rw [Nat.shiftLeft_eq, Nat.mul_comm, ← Nat.mul_add_lt_is_or (by norm_num) d]

/-- A field f of j bits placed at bit k under a value that is a multiple of
`2 ^ (k + j)`. -/
theorem or_field (hi f k j c : Nat) (hc : k + j = c) (hf : f < 2 ^ j) :
    2 ^ c * hi ||| f <<< k = 2 ^ k * (2 ^ j * hi + f) := by
  have h1 : f <<< k < 2 ^ c := by
    rw [Nat.shiftLeft_eq, ← hc, pow_add, Nat.mul_comm]
    exact Nat.mul_lt_mul_of_pos_left hf (by positivity)
  rw [← Nat.mul_add_lt_is_or h1, Nat.shiftLeft_eq, ← hc, pow_add]
  ring

/-- The word of InitiateWithdraw with the three fields, as a sum. -/
theorem withdraw_word (a t e : Nat) (ha : a < 2 ^ 160) (ht : t < 2 ^ 16) :
    e <<< 192 ||| t <<< 176 ||| a <<< 16 ||| 0xDE02 =
      2 ^ 16 * (2 ^ 160 * (2 ^ 16 * e + t) + a) + 0xDE02 := by
  rw [Nat.shiftLeft_eq e 192, Nat.mul_comm e, or_field e t 176 16 192 rfl ht,
    or_field (2 ^ 16 * e + t) a 16 160 176 rfl ha, ← Nat.mul_add_lt_is_or (by norm_num)]

/-- The order-fields word with the six fields, as a sum. -/
theorem fields_word (p a i pr am ex : Nat) (hp : p < 2 ^ 32) (ha : a < 2 ^ 8) (hi : i < 2 ^ 8)
    (hpr : pr < 2 ^ 64) (ham : am < 2 ^ 64) :
    ex <<< 176 ||| am <<< 112 ||| pr <<< 48 ||| i <<< 40 ||| a <<< 32 ||| p =
      2 ^ 32 * (2 ^ 8 * (2 ^ 8 * (2 ^ 64 * (2 ^ 64 * ex + am) + pr) + i) + a) + p := by
  rw [Nat.shiftLeft_eq ex 176, Nat.mul_comm ex, or_field ex am 112 64 176 rfl ham,
    or_field _ pr 48 64 112 rfl hpr, or_field _ i 40 8 48 rfl hi, or_field _ a 32 8 40 rfl ha,
    ← Nat.mul_add_lt_is_or hp]

/-! ## The first operation of a body -/

/-- A text that follows the same text twice is the same. -/
theorem append_left_cancel (a b c : String) (h : a ++ b = a ++ c) : b = c := by
  have hd := congrArg String.data h
  simp only [String.data_append] at hd
  exact String.ext (List.append_cancel_left hd)

/-- The loop at a word whose opcode has a high byte other than `0xDE`. -/
theorem opsLoop_first_magic (fuel : Nat) (m : Mem) (i : Nat) (out : String) (hi : i < m.length)
    (hm : (popAt PopUint16 m i).1 >>> 8 ≠ 0xDE) :
    opsLoop (fuel + 1) m i out = Outcome.ret out (some Err.wrongMagicNumber) := by
  rw [opsLoop]
  simp only [hi, if_true, hm, ne_eq, not_false_eq_true]

/-- The loop at an operation that fails: what the operation wrote is returned
with its error. -/
theorem opsLoop_first_err (fuel : Nat) (m : Mem) (i : Nat) (out : String) (m1 : Mem)
    (p : String) (c : Nat) (err : Err) (hi : i < m.length)
    (hm : (popAt PopUint16 m i).1 >>> 8 = 0xDE)
    (hd : dispatch (popAt PopUint16 m i).2 out i (popAt PopUint16 m i).1 =
      some (m1, p, c, some err)) :
    opsLoop (fuel + 1) m i out = Outcome.ret p (some err) := by
  rw [opsLoop]
  simp only [hi, if_true, hm, ne_eq, not_true_eq_false, if_false, hd]

/-- The loop at an operation that succeeds: it goes on after the words
consumed, with a blank line when a word is left. -/
theorem opsLoop_first_ok (fuel : Nat) (m : Mem) (i : Nat) (out : String) (m1 : Mem)
    (p : String) (c : Nat) (hi : i < m.length) (hm : (popAt PopUint16 m i).1 >>> 8 = 0xDE)
    (hd : dispatch (popAt PopUint16 m i).2 out i (popAt PopUint16 m i).1 =
      some (m1, p, c, none)) :
    opsLoop (fuel + 1) m i out =
      opsLoop fuel m1 (i + c) (if i + c < m1.length then Fprintln p [""] else p) := by
  rw [opsLoop]
  simp only [hi, if_true, hm, ne_eq, not_true_eq_false, if_false, hd]

/-- The loop past the last word returns the buffer. -/
theorem opsLoop_end (fuel : Nat) (m : Mem) (i : Nat) (out : String) (hi : m.length ≤ i) :
    opsLoop (fuel + 1) m i out = Outcome.ret out none := by
  have h : ¬ i < m.length := by omega
  rw [opsLoop]
  simp only [h, if_false]

/-! ## The claims -/

set_option maxRecDepth 10000

/-- C1 (defect of the code): with a nil header `ParseOpsFromU256` does not skip
header decoding; it panics in `new(big.Int).Set(header)`, the first statement
of the function, for every body, in particular for the one-word body that
encodes ConfirmDeposit with index 7. -/
theorem C1_nil_header_panics :
    (∀ body : List Nat, ParseOpsFromU256 none body = Outcome.panic) ∧
    ParseOpsFromU256 none [7 <<< 16 ||| 0xDE01] = Outcome.panic :=
  ⟨fun _ => rfl, rfl⟩

/-- The statements after the copy of the header do produce the trace the
documentation promises for a nil header: the `len(body)` line followed by the
loop over the body. -/
theorem nil_header_intended_trace :
    opsLoop 2 [7 <<< 16 ||| 0xDE01] 0 (Fprintln "" ["len(body):", fmtDec 1]) =
      Outcome.ret "len(body): 1\noperation ConfirmDeposit:\n  depositIndex:  7\n" none := by
  decide

/-- C10: for an empty body and every supplied header value, valid or not,
`ParseOpsFromU256` returns the empty trace and the error `empty body`
(EmptyBody); the header is not looked at. -/
theorem C10_empty_body (h : Nat) :
    ParseOpsFromU256 (some h) [] = Outcome.ret "" (some Err.emptyBody) ∧
    Err.emptyBody.kind = ErrorKind.EmptyBody :=
  ⟨rfl, rfl⟩

/-- C7: a new-order operand (trailing words `rest[0..2]` present, order key and
order-fields word well-formed).  If the first signature word is zero, decoding
fails with `signature uint256 r is zero` (ZeroSignatureComponent) and the text
written is the key lines and the six field lines only, whatever the second
signature word holds.  If the first is non-zero and the second is zero, it
fails with `signature uint256 s is zero` (ZeroSignatureComponent) after the
`s` line.  Whenever a new-order operand is decoded without error, both
signature words are non-zero. -/
theorem C7_zero_signature (m : Mem) (out : String) (bits r : Nat) (hb : bits < r)
    (hr : r + 3 ≤ m.length) :
    (load m bits < 2 ^ 224 → load m r < 2 ^ 240 → load m (r + 1) = 0 →
      ∀ x : Nat, parseOrderOpOperand (m.set (r + 2) x) out bits (Slice.sub r) =
        some (((m.set (r + 2) x).set bits 0).set r 0,
          out ++ keyText (load m bits) ++ fieldsText (load m r), some Err.signatureRZero)) ∧
    (load m bits < 2 ^ 224 → load m r < 2 ^ 240 → load m (r + 1) ≠ 0 → load m (r + 2) = 0 →
      parseOrderOpOperand m out bits (Slice.sub r) =
        some ((m.set bits 0).set r 0,
          out ++ keyText (load m bits) ++ fieldsText (load m r) ++ sText (load m (r + 1)),
          some Err.signatureSZero)) ∧
    (∀ m1 out1, parseOrderOpOperand m out bits (Slice.sub r) = some (m1, out1, none) →
      load m (r + 1) ≠ 0 ∧ load m (r + 2) ≠ 0) ∧
    Err.signatureRZero.kind = ErrorKind.ZeroSignatureComponent ∧
    Err.signatureSZero.kind = ErrorKind.ZeroSignatureComponent := by
  refine ⟨?_, ?_, ?_, rfl, rfl⟩
  · intro hk hw hs x
    rw [parseOrderOpOperand_new _ _ _ _ hb (by simpa using hr)]
    rw [load_set_of_ne m (r + 2) bits x (by omega), load_set_of_ne m (r + 2) r x (by omega),
      load_set_of_ne m (r + 2) (r + 1) x (by omega), Nat.div_eq_of_lt hk, Nat.div_eq_of_lt hw]
    simp [hs]
  · intro hk hw hs ht
    rw [parseOrderOpOperand_new _ _ _ _ hb hr, Nat.div_eq_of_lt hk, Nat.div_eq_of_lt hw]
    simp [hs, ht]
  · intro m1 out1 h
    rw [parseOrderOpOperand_new _ _ _ _ hb hr] at h
    split_ifs at h with h1 h2 h3 h4 <;> simp_all

/-- Witness of C7: the operand of key cell 0 and trailing cells 1, 2, 3, with
the first signature word zero, and with the second one zero. -/
theorem C7_zero_signature_witness :
    parseOrderOpOperand ([5, 6, 0, 8].set (1 + 2) 9) "" 0 (Slice.sub 1) =
      some ([0, 0, 0, 9], "" ++ keyText 5 ++ fieldsText 6, some Err.signatureRZero) ∧
    parseOrderOpOperand [5, 6, 7, 0] "" 0 (Slice.sub 1) =
      some ([0, 0, 7, 0], "" ++ keyText 5 ++ fieldsText 6 ++ sText 7, some Err.signatureSZero) :=
  ⟨(C7_zero_signature [5, 6, 0, 8] "" 0 1 (by decide) (by decide)).1
      (by decide) (by decide) (by decide) 9,
    (C7_zero_signature [5, 6, 7, 0] "" 0 1 (by decide) (by decide)).2.1
      (by decide) (by decide) (by decide) (by decide)⟩

/-- C4: for every supplied header and every body `ParseOpsFromU256` returns a
trace with an error or none: it does not panic, so no slice expression of the
dispatcher or of `parseMatchOrdersOp` (`u256s[i+1:]`, `rest[0]`, `rest[3:]`,
`rest[1:]`) is out of range.  The call the dispatcher makes to
`parseMatchOrdersOp` never panics either, and asserting the precondition of
`parseOrderOpOperand` (`rest` nil or of at least 3 elements) at each of its
calls changes nothing: every call satisfies it. -/
theorem C4_never_panics :
    (∀ (h : Nat) (body : List Nat),
      ∃ trace err, ParseOpsFromU256 (some h) body = Outcome.ret trace err) ∧
    (∀ (m : Mem) (out : String) (i : Nat),
      ∃ m1 out1 c e, parseMatchOrdersOp m out i (Slice.sub (i + 1)) = some (m1, out1, c, e)) ∧
    (∀ (m : Mem) (out : String) (bits : Nat) (rest : Slice),
      parseMatchOrdersOpWith parseOrderOpOperandChecked m out bits rest =
        parseMatchOrdersOp m out bits rest) :=
  ⟨ParseOpsFromU256_returns,
    fun m out i => parseMatchOrdersOp_some m out i (i + 1) (Nat.lt_succ_self i),
    parseMatchOrdersOpWith_checked⟩

/-- C8: for every supplied header word h and every non-empty body,
`ParseOpsFromU256` fails with `invalid header` (InvalidHeader) if and only if
h has a bit set at position 128 or above; the trace returned is then empty
and the result does not depend on the body. -/
theorem C8_invalid_header (h : Nat) (body : List Nat) (hb : body ≠ []) :
    ((∃ trace e, ParseOpsFromU256 (some h) body = Outcome.ret trace (some e) ∧
        e.kind = ErrorKind.InvalidHeader) ↔ 2 ^ 128 ≤ h) ∧
    (2 ^ 128 ≤ h → ParseOpsFromU256 (some h) body = Outcome.ret "" (some Err.invalidHeader)) := by
  rw [ParseOpsFromU256_header h body hb]
  by_cases hh : 2 ^ 128 ≤ h
  · rw [if_pos ((header_small h).mpr hh)]
    exact ⟨⟨fun _ => hh, fun _ => ⟨_, _, rfl, rfl⟩⟩, fun _ => rfl⟩
  · rw [if_neg (mt (header_small h).mp hh)]
    refine ⟨⟨?_, fun h2 => absurd h2 hh⟩, fun h2 => absurd h2 hh⟩
    rintro ⟨trace, e, he, hk⟩
    exact absurd hk (opsLoop_err _ _ _ _ _ _ he).2

/-- Witness of C8: the header `2 ^ 128` with a one-word body. -/
theorem C8_invalid_header_witness :
    ParseOpsFromU256 (some (2 ^ 128)) [0xDE01] = Outcome.ret "" (some Err.invalidHeader) :=
  (C8_invalid_header (2 ^ 128) [0xDE01] (by decide)).2 (by decide)

/-- C9: for every supplied header h below `2 ^ 128` and every non-empty body
of N words, the trace returned, with an error or without, starts with the
lines `newLogicTimeSec: <h / 2^64>`, `beginIndex: <h mod 2^64>` and
`len(body): <N>`, in this order, the numbers in decimal. -/
theorem C9_header_lines (h : Nat) (body : List Nat) (hh : h < 2 ^ 128) (hb : body ≠ []) :
    ∃ rest err, ParseOpsFromU256 (some h) body =
      Outcome.ret ("newLogicTimeSec: " ++ fmtDec (h / 2 ^ 64) ++ "\n" ++
        "beginIndex: " ++ fmtDec (h % 2 ^ 64) ++ "\n" ++
        "len(body): " ++ fmtDec body.length ++ "\n" ++ rest) err := by
  have h0 : ¬ h / 2 ^ 128 ≠ 0 := by
    rw [header_small]
    omega
  have hm : h / 2 ^ 64 % 2 ^ 64 = h / 2 ^ 64 := by
    apply Nat.mod_eq_of_lt
    apply Nat.div_lt_of_lt_mul
    calc h < 2 ^ 128 := hh
      _ = 2 ^ 64 * 2 ^ 64 := by norm_num
  rw [ParseOpsFromU256_header h body hb, if_neg h0, opsLoop_out, hm]
  obtain ⟨t, e, hl⟩ := opsLoop_total (body.length + 1) body 0 "" (by omega)
  refine ⟨t, e, ?_⟩
  rw [hl]
  simp only [Outcome.after, lineOf_two, String.append_assoc]
  rfl

/-- Witness of C9: the header with `newLogicTimeSec = 9`, `beginIndex = 5` and
a one-word body. -/
theorem C9_header_lines_witness :
    ∃ rest err, ParseOpsFromU256 (some (9 * 2 ^ 64 + 5)) [7 <<< 16 ||| 0xDE01] =
      Outcome.ret ("newLogicTimeSec: " ++ fmtDec ((9 * 2 ^ 64 + 5) / 2 ^ 64) ++ "\n" ++
        "beginIndex: " ++ fmtDec ((9 * 2 ^ 64 + 5) % 2 ^ 64) ++ "\n" ++
        "len(body): " ++ fmtDec [7 <<< 16 ||| 0xDE01].length ++ "\n" ++ rest) err :=
  C9_header_lines (9 * 2 ^ 64 + 5) [7 <<< 16 ||| 0xDE01] (by decide) (by decide)

/-- C6, as the code has it: for every body word w below `2 ^ 256` whose low
16 bits are `0xDE02`, the dispatcher pops the opcode `0xDE02` and
`parseInitiateWithdrawOp` prints traderAddr = bits 16..175 of w, tokenCode =
bits 176..191 and amountE8 = bits 192..255, leaving the cell empty; and
`(amountE8 << 176) | (tokenCode << 160) | traderAddr` is the 240-bit remainder
of w after the opcode is removed. -/
theorem C6_withdraw_repack (m : Mem) (out : String) (i w : Nat) (hl : load m i = w) (hw : w < 2 ^ 256) (hop : w % 2 ^ 16 = 0xDE02) :
    (popAt PopUint16 m i).1 = 0xDE02 ∧
    dispatch (popAt PopUint16 m i).2 out i 0xDE02 =
      some (m.set i 0,
        out ++ "operation InitiateWithdraw:\n" ++
          "  traderAddr: " ++ fmtHex (w / 2 ^ 16 % 2 ^ 160) ++ "\n" ++
          "  tokenCode: " ++ fmtDec (w / 2 ^ 176 % 2 ^ 16) ++ "\n" ++
          "  amountE8: " ++ fmtDec (w / 2 ^ 192 % 2 ^ 64) ++ "\n", 1, none) ∧
    ((w / 2 ^ 192 % 2 ^ 64) <<< 176 ||| (w / 2 ^ 176 % 2 ^ 16) <<< 160 |||
      (w / 2 ^ 16 % 2 ^ 160)) = w >>> 16 := by
  have hu : w / 2 ^ 16 < 2 ^ 240 := by
    apply Nat.div_lt_of_lt_mul
    calc w < 2 ^ 256 := hw
      _ = 2 ^ 16 * 2 ^ 240 := by norm_num
  have d1 : w / 2 ^ 16 / 2 ^ 160 = w / 2 ^ 176 := by
    rw [Nat.div_div_eq_div_mul, ← pow_add]
  have d2 : w / 2 ^ 16 / 2 ^ 176 = w / 2 ^ 192 := by
    rw [Nat.div_div_eq_div_mul, ← pow_add]
  refine ⟨?_, ?_, ?_⟩
  · rw [popAt16, hl, hop]
  · have hd : dispatch (popAt PopUint16 m i).2 out i 0xDE02 =
        oneWord (parseInitiateWithdrawOp (popAt PopUint16 m i).2 out i) := by
      simp [dispatch]
    rw [hd, parseInitiateWithdrawOp_eq, popAt16, load_set_div, List.set_set, hl,
      Nat.div_eq_of_lt hu, d1, d2]
    rfl
  · have := withdraw_repack (w / 2 ^ 16) hu
    rw [d1, d2] at this
    rw [this, Nat.shiftRight_eq_div_pow]

/-- Witness of C6: the word with traderAddr 1, tokenCode 2 and amountE8 3. -/
theorem C6_withdraw_repack_witness :
    ((3 <<< 192 ||| 2 <<< 176 ||| 1 <<< 16 ||| 0xDE02) / 2 ^ 192 % 2 ^ 64) <<< 176 |||
      ((3 <<< 192 ||| 2 <<< 176 ||| 1 <<< 16 ||| 0xDE02) / 2 ^ 176 % 2 ^ 16) <<< 160 |||
      ((3 <<< 192 ||| 2 <<< 176 ||| 1 <<< 16 ||| 0xDE02) / 2 ^ 16 % 2 ^ 160) =
      (3 <<< 192 ||| 2 <<< 176 ||| 1 <<< 16 ||| 0xDE02) >>> 16 :=
  (C6_withdraw_repack [3 <<< 192 ||| 2 <<< 176 ||| 1 <<< 16 ||| 0xDE02] "" 0
    (3 <<< 192 ||| 2 <<< 176 ||| 1 <<< 16 ||| 0xDE02) (by decide) (by decide) (by decide)).2.2

/-- C6, as the specification words it, fails: the word `0x1DE02` has opcode
`0xDE02` and remainder 1; the decoder prints traderAddr 1, tokenCode 0 and
amountE8 0, and `(traderAddr << 80) | (tokenCode << 64) | amountE8` is
`2 ^ 80`, not the remainder. -/
theorem C6_spec_repack_fails :
    (popAt PopUint16 [0x1DE02] 0).1 = 0xDE02 ∧
    dispatch (popAt PopUint16 [0x1DE02] 0).2 "" 0 0xDE02 =
      some ([0],
        "operation InitiateWithdraw:\n  traderAddr: 0x1\n  tokenCode: 0\n  amountE8: 0\n",
        1, none) ∧
    ((1 : Nat) <<< 80 ||| 0 <<< 64 ||| 0) ≠ 0x1DE02 >>> 16 := by
  decide

/-- C3: `parseMatchOrdersOp`, called on the cell `bits` (the opcode word, its
opcode popped) and the words from index s on, fails with `not enough inputs
for matching order` (InsufficientInputs), returning and not panicking, when
(a) maker `v1 = 0` and no word follows the opcode word; (b) maker `v1` is 27
or 28 and fewer than 3 words follow the opcode word: the text ends with the
maker line and has no taker section; (c) the maker decodes without error
(existing, or new with its three words well-formed), taker `v2` is 27 or 28
and fewer than 3 words follow the taker word. -/
theorem C3_insufficient_inputs (m : Mem) (out : String) (bits s : Nat) (hb : bits < s) :
    (load m bits % 2 ^ 8 = 0 → m.length ≤ s →
      parseMatchOrdersOp m out bits (Slice.sub s) =
        some (m.set bits (load m bits / 2 ^ 8),
          out ++ "operation MatchOrder:\n" ++ "  makerOrder (existing):\n", 0,
          some Err.notEnoughInputs)) ∧
    (load m bits % 2 ^ 8 = 27 ∨ load m bits % 2 ^ 8 = 28 → m.length - s < 3 →
      parseMatchOrdersOp m out bits (Slice.sub s) =
        some (m.set bits (load m bits / 2 ^ 8),
          out ++ "operation MatchOrder:\n" ++
            "  makerOrder (new, v1=" ++ fmtDec (load m bits % 2 ^ 8) ++ "):\n", 0,
          some Err.notEnoughInputs)) ∧
    (load m bits % 2 ^ 8 = 0 → load m bits < 2 ^ 232 → s < m.length →
      load m s % 2 ^ 8 = 27 ∨ load m s % 2 ^ 8 = 28 → m.length - (s + 1) < 3 →
      parseMatchOrdersOp m out bits (Slice.sub s) =
        some ((m.set bits 0).set s (load m s / 2 ^ 8),
          out ++ "operation MatchOrder:\n" ++ "  makerOrder (existing):\n" ++
            keyText (load m bits / 2 ^ 8) ++
            "  takerOrder (new, v2=" ++ fmtDec (load m s % 2 ^ 8) ++ "):\n", 0,
          some Err.notEnoughInputs)) ∧
    (load m bits % 2 ^ 8 = 27 ∨ load m bits % 2 ^ 8 = 28 → load m bits < 2 ^ 232 →
      s + 4 ≤ m.length → load m s < 2 ^ 240 → load m (s + 1) ≠ 0 → load m (s + 2) ≠ 0 →
      load m (s + 3) % 2 ^ 8 = 27 ∨ load m (s + 3) % 2 ^ 8 = 28 → m.length - (s + 4) < 3 →
      parseMatchOrdersOp m out bits (Slice.sub s) =
        some (((m.set bits 0).set s 0).set (s + 3) (load m (s + 3) / 2 ^ 8),
          out ++ "operation MatchOrder:\n" ++
            "  makerOrder (new, v1=" ++ fmtDec (load m bits % 2 ^ 8) ++ "):\n" ++
            keyText (load m bits / 2 ^ 8) ++ fieldsText (load m s) ++ sText (load m (s + 1)) ++
            tText (load m (s + 2)) ++
            "  takerOrder (new, v2=" ++ fmtDec (load m (s + 3) % 2 ^ 8) ++ "):\n", 0,
          some Err.notEnoughInputs)) ∧
    Err.notEnoughInputs.kind = ErrorKind.InsufficientInputs := by
  refine ⟨?_, ?_, ?_, ?_, rfl⟩
  · intro hv hlen
    rw [parseMatchOrdersOp_existing_short m out bits s hv hlen]
    simp only [lineOf_one, String.append_assoc]
    rfl
  · intro hv hlen
    rw [parseMatchOrdersOp_new_short m out bits s hv (by omega)]
    simp only [lineOf_one, String.append_assoc]
    rfl
  · intro hv hk hs hv2 hlen
    rw [parseMatchOrdersOp_existing_taker_short m out bits s hb hv hk hs hv2 (by omega)]
    simp only [lineOf_one, String.append_assoc]
    rfl
  · intro hv hk hs hw h1 h2 hv2 hlen
    rw [parseMatchOrdersOp_new_taker_short m out bits s hb hv hk hs hw h1 h2 hv2 (by omega)]
    simp only [lineOf_one, String.append_assoc]
    rfl

/-- Witness of C3: one working copy for each of the four cases. -/
theorem C3_insufficient_inputs_witness :
    parseMatchOrdersOp [0] "" 0 (Slice.sub 1) =
      some ([0], "operation MatchOrder:\n  makerOrder (existing):\n", 0,
        some Err.notEnoughInputs) ∧
    parseMatchOrdersOp [27, 5, 6] "" 0 (Slice.sub 1) =
      some ([0, 5, 6], "operation MatchOrder:\n  makerOrder (new, v1=27):\n", 0,
        some Err.notEnoughInputs) ∧
    parseMatchOrdersOp [0, 27, 1, 2] "" 0 (Slice.sub 1) =
      some ([0, 0, 1, 2],
        "operation MatchOrder:\n  makerOrder (existing):\n" ++ keyText 0 ++
          "  takerOrder (new, v2=27):\n", 0, some Err.notEnoughInputs) ∧
    parseMatchOrdersOp [27, 5, 6, 7, 28, 1, 2] "" 0 (Slice.sub 1) =
      some ([0, 0, 6, 7, 0, 1, 2],
        "operation MatchOrder:\n  makerOrder (new, v1=27):\n" ++ keyText 0 ++ fieldsText 5 ++
          sText 6 ++ tText 7 ++ "  takerOrder (new, v2=28):\n", 0, some Err.notEnoughInputs) :=
  ⟨(C3_insufficient_inputs [0] "" 0 1 (by decide)).1 (by decide) (by decide),
    (C3_insufficient_inputs [27, 5, 6] "" 0 1 (by decide)).2.1 (by decide) (by decide),
    (C3_insufficient_inputs [0, 27, 1, 2] "" 0 1 (by decide)).2.2.1 (by decide) (by decide)
      (by decide) (by decide) (by decide),
    (C3_insufficient_inputs [27, 5, 6, 7, 28, 1, 2] "" 0 1 (by decide)).2.2.2.1 (by decide)
      (by decide) (by decide) (by decide) (by decide) (by decide) (by decide) (by decide)⟩

/-- C2: whenever `parseMatchOrdersOp` returns without error, the count it
returns is 1 + (3 if the maker discriminator is 27 or 28, else 0) + 1 + (3 if
the taker discriminator is 27 or 28, else 0), the taker word being the word
after the maker's; the count is between 2 and 8 and at most 1 + `len(rest)`.
So the word index of the dispatcher strictly increases and stays within
`len(u256s)`.  A MatchOrders with maker `v1 = 0` and taker `v2 = 0`, both keys
below `2 ^ 224`, in a body of exactly 2 words is decoded without error and
consumes 2 words. -/
theorem C2_match_orders_count :
    (∀ (m : Mem) (out : String) (bits s : Nat) (m1 : Mem) (out1 : String) (c : Nat),
      bits < s → parseMatchOrdersOp m out bits (Slice.sub s) = some (m1, out1, c, none) →
      c = 1 + (if load m bits % 2 ^ 8 = 27 ∨ load m bits % 2 ^ 8 = 28 then 3 else 0) + 1 +
          (if load m (if load m bits % 2 ^ 8 = 27 ∨ load m bits % 2 ^ 8 = 28 then s + 3 else s)
              % 2 ^ 8 = 27 ∨
            load m (if load m bits % 2 ^ 8 = 27 ∨ load m bits % 2 ^ 8 = 28 then s + 3 else s)
              % 2 ^ 8 = 28 then 3 else 0) ∧
      2 ≤ c ∧ c ≤ 8 ∧ c ≤ 1 + Slice.len m (Slice.sub s)) ∧
    (∀ (m : Mem) (out : String) (i : Nat) (m1 : Mem) (out1 : String) (c : Nat),
      i < m.length → dispatch m out i 0xDE03 = some (m1, out1, c, none) →
      i < i + c ∧ i + c ≤ m.length ∧ m1.length = m.length) ∧
    (∀ (h k1 k2 : Nat), h < 2 ^ 128 → k1 < 2 ^ 224 → k2 < 2 ^ 224 →
      parseMatchOrdersOp [k1 * 2 ^ 8, k2 * 2 ^ 8] "" 0 (Slice.sub 1) =
        some ([0, 0],
          "operation MatchOrder:\n" ++ "  makerOrder (existing):\n" ++ keyText k1 ++
            "  takerOrder (existing):\n" ++ keyText k2, 2, none) ∧
      ParseOpsFromU256 (some h) [k1 * 2 ^ 24 + 0xDE03, k2 * 2 ^ 8] =
        Outcome.ret ("newLogicTimeSec: " ++ fmtDec (h / 2 ^ 64) ++ "\n" ++
          "beginIndex: " ++ fmtDec (h % 2 ^ 64) ++ "\n" ++ "len(body): 2\n" ++
          "operation MatchOrder:\n" ++ "  makerOrder (existing):\n" ++ keyText k1 ++
          "  takerOrder (existing):\n" ++ keyText k2) none) := by
  refine ⟨?_, ?_, ?_⟩
  · intro m out bits s m1 out1 c hb h
    have := parseMatchOrdersOp_ok m out bits s m1 out1 c hb h
    simp only [Slice.len]
    split_ifs at this ⊢ <;> omega
  · intro m out i m1 out1 c hi h
    have := dispatch_ok m out i _ hi m1 out1 c h
    omega
  · intro h k1 k2 hh h1 h2
    constructor
    · rw [parseMatchOrdersOp_two_existing "" k1 k2 h1 h2]
      simp only [lineOf_one, String.append_assoc, String.empty_append]
      rfl
    · have h0 : ¬ h / 2 ^ 128 ≠ 0 := by
        rw [header_small]
        omega
      have hm : h / 2 ^ 64 % 2 ^ 64 = h / 2 ^ 64 := by
        apply Nat.mod_eq_of_lt
        apply Nat.div_lt_of_lt_mul
        calc h < 2 ^ 128 := hh
          _ = 2 ^ 64 * 2 ^ 64 := by norm_num
      rw [ParseOpsFromU256_header h _ (by simp), if_neg h0, hm]
      have e := opsLoop_two_existing
        (lineOf ["newLogicTimeSec:", fmtDec (h / 2 ^ 64)] ++
          (lineOf ["beginIndex:", fmtDec (h % 2 ^ 64)] ++
            lineOf ["len(body):", fmtDec [k1 * 2 ^ 24 + 0xDE03, k2 * 2 ^ 8].length])) k1 k2 h1 h2
      have f2 : fmtDec [k1 * 2 ^ 24 + 0xDE03, k2 * 2 ^ 8].length = "2" := by
        show fmtDec 2 = "2"
        decide
      rw [show [k1 * 2 ^ 24 + 0xDE03, k2 * 2 ^ 8].length + 1 = 3 from rfl, e, f2]
      simp only [lineOf_one, lineOf_two, String.append_assoc]
      rfl

/-- Witness of C2: a new maker with an existing taker, decoded from five cells
with count 5, and the two-word body with maker key 1 and taker key 2 under the
header 5. -/
theorem C2_match_orders_count_witness :
    (parseMatchOrdersOp [27, 5, 6, 7, 0] "" 0 (Slice.sub 1) =
        some ([0, 0, 6, 7, 0],
          "operation MatchOrder:\n  makerOrder (new, v1=27):\n" ++ keyText 0 ++ fieldsText 5 ++
            sText 6 ++ tText 7 ++ "  takerOrder (existing):\n" ++ keyText 0, 5, none) ∧
      2 ≤ 5 ∧ 5 ≤ 8 ∧ 5 ≤ 1 + Slice.len [27, 5, 6, 7, 0] (Slice.sub 1)) ∧
    parseMatchOrdersOp [1 * 2 ^ 8, 2 * 2 ^ 8] "" 0 (Slice.sub 1) =
      some ([0, 0],
        "operation MatchOrder:\n" ++ "  makerOrder (existing):\n" ++ keyText 1 ++
          "  takerOrder (existing):\n" ++ keyText 2, 2, none) :=
  ⟨⟨by decide,
      (C2_match_orders_count.1 [27, 5, 6, 7, 0] "" 0 1 [0, 0, 6, 7, 0]
        ("operation MatchOrder:\n  makerOrder (new, v1=27):\n" ++ keyText 0 ++ fieldsText 5 ++
          sText 6 ++ tText 7 ++ "  takerOrder (existing):\n" ++ keyText 0) 5 (by decide)
        (by decide)).2⟩,
    (C2_match_orders_count.2.2 5 1 2 (by decide) (by decide) (by decide)).1⟩

/-- C5: for every valid supplied header h, every body `b1` decoded without
error and every non-empty body `b2`: the trace of `b1` is the header lines
followed by an operation trace `t1`, the result of `b2` is the header lines
followed by an operation trace `t2` (complete or not) with an error `e2` or
none, and decoding `b1 ++ b2` returns the same `e2` with the header lines
followed by `t1`, one blank line, and `t2`.  The operation trace of `b2` is
what its operations wrote.  If the first word of `b2` has a wrong magic number,
`b1 ++ b2` returns the rendering of `b1` and the blank line.  If the first
operation of `b2` fails having written p (the dispatcher returns p with the
error), `b1 ++ b2` returns that error with the rendering of `b1`, the blank
line and p: the partial rendering of the failing operation is returned.  If it
succeeds having written p and consumed all of `b2`, `b1 ++ b2` returns no error
and the trace ends with p, no blank line after it.  If it succeeds and words
are left, p is followed by one blank line and the trace of the later
operations. -/
theorem C5_concat_trace (h : Nat) (b1 b2 : List Nat) (T1 : String) (hh : h < 2 ^ 128) (hb2 : b2 ≠ []) (h1 : ParseOpsFromU256 (some h) b1 = Outcome.ret T1 none) :
    (∃ t1 t2 e2, T1 = headerText h b1.length ++ t1 ∧
      ParseOpsFromU256 (some h) b2 = Outcome.ret (headerText h b2.length ++ t2) e2 ∧
      ParseOpsFromU256 (some h) (b1 ++ b2) =
        Outcome.ret (headerText h (b1 ++ b2).length ++ t1 ++ "\n" ++ t2) e2) ∧
    (∀ t1 : String, T1 = headerText h b1.length ++ t1 →
      ((popAt PopUint16 b2 0).1 >>> 8 ≠ 0xDE →
        ParseOpsFromU256 (some h) b2 =
          Outcome.ret (headerText h b2.length) (some Err.wrongMagicNumber) ∧
        ParseOpsFromU256 (some h) (b1 ++ b2) =
          Outcome.ret (headerText h (b1 ++ b2).length ++ t1 ++ "\n")
            (some Err.wrongMagicNumber)) ∧
      (∀ (m1 : Mem) (p : String) (c : Nat) (err : Err),
        (popAt PopUint16 b2 0).1 >>> 8 = 0xDE →
        dispatch (popAt PopUint16 b2 0).2 "" 0 (popAt PopUint16 b2 0).1 =
          some (m1, p, c, some err) →
        ParseOpsFromU256 (some h) b2 =
          Outcome.ret (headerText h b2.length ++ p) (some err) ∧
        ParseOpsFromU256 (some h) (b1 ++ b2) =
          Outcome.ret (headerText h (b1 ++ b2).length ++ t1 ++ "\n" ++ p) (some err)) ∧
      (∀ (m1 : Mem) (p : String) (c : Nat),
        (popAt PopUint16 b2 0).1 >>> 8 = 0xDE →
        dispatch (popAt PopUint16 b2 0).2 "" 0 (popAt PopUint16 b2 0).1 =
          some (m1, p, c, none) →
        (c = b2.length →
          ParseOpsFromU256 (some h) b2 = Outcome.ret (headerText h b2.length ++ p) none ∧
          ParseOpsFromU256 (some h) (b1 ++ b2) =
            Outcome.ret (headerText h (b1 ++ b2).length ++ t1 ++ "\n" ++ p) none) ∧
        (c < b2.length → ∃ t3 e3,
          ParseOpsFromU256 (some h) b2 =
            Outcome.ret (headerText h b2.length ++ p ++ "\n" ++ t3) e3 ∧
          ParseOpsFromU256 (some h) (b1 ++ b2) =
            Outcome.ret (headerText h (b1 ++ b2).length ++ t1 ++ "\n" ++ p ++ "\n" ++ t3)
              e3))) := by
  have hb1 : b1 ≠ [] := by
    intro hb
    subst hb
    simp [ParseOpsFromU256, newIntSet] at h1
  have hlen : 0 < b2.length := List.length_pos.mpr hb2
  obtain ⟨k, hk⟩ : ∃ k, b2.length = k + 1 := ⟨b2.length - 1, by omega⟩
  obtain ⟨t1, e1, hl1⟩ := opsLoop_total (b1.length + 1) b1 0 "" (by omega)
  obtain ⟨t2, e2, hl2⟩ := opsLoop_total (b2.length + 1) b2 0 "" (by omega)
  rw [ParseOpsFromU256_valid h b1 hh hb1, hl1] at h1
  simp only [Outcome.after, Outcome.ret.injEq] at h1
  obtain ⟨hT, he⟩ := h1
  subst he
  have G : ∀ (t : String) (e : Option Err),
      opsLoop (b2.length + 1) b2 0 "" = Outcome.ret t e →
      ParseOpsFromU256 (some h) b2 = Outcome.ret (headerText h b2.length ++ t) e ∧
      ParseOpsFromU256 (some h) (b1 ++ b2) =
        Outcome.ret (headerText h (b1 ++ b2).length ++ t1 ++ "\n" ++ t) e := by
    intro t e hl
    constructor
    · rw [ParseOpsFromU256_valid h b2 hh hb2, hl]
      rfl
    · rw [ParseOpsFromU256_valid h (b1 ++ b2) hh (by simp [hb1]),
        opsLoop_append b1 b2 t1 hb2 hl1 hb1, hl]
      simp only [Outcome.after, String.append_assoc]
  refine ⟨⟨t1, t2, e2, hT.symm, (G t2 e2 hl2).1, (G t2 e2 hl2).2⟩, ?_⟩
  intro t1b hTb
  have ht : t1b = t1 := append_left_cancel _ _ _ (hTb.symm.trans hT.symm)
  subst ht
  refine ⟨?_, ?_, ?_⟩
  · intro hm
    have hl := opsLoop_first_magic b2.length b2 0 "" hlen hm
    have g := G "" _ hl
    simpa only [String.append_empty] using g
  · intro m1 p c err hm hd
    exact G p _ (opsLoop_first_err b2.length b2 0 "" m1 p c err hlen hm hd)
  · intro m1 p c hm hd
    have hl := opsLoop_first_ok b2.length b2 0 "" m1 p c hlen hm hd
    have hok := dispatch_ok (popAt PopUint16 b2 0).2 "" 0 (popAt PopUint16 b2 0).1
      (by rw [popAt_length]; exact hlen) m1 p c hd
    rw [popAt_length] at hok
    obtain ⟨hc1, -, hm1⟩ := hok
    rw [Nat.zero_add, hm1] at hl
    constructor
    · intro hc
      have hn : ¬ c < b2.length := by omega
      rw [if_neg hn, hk, opsLoop_end k m1 c p (by omega), ← hk] at hl
      exact G p none hl
    · intro hc
      obtain ⟨t3, e3, hl3⟩ := opsLoop_total b2.length m1 c "" (by omega)
      rw [if_pos hc, opsLoop_out b2.length m1 c, hl3] at hl
      have g := G _ _ hl
      refine ⟨t3, e3, ?_, ?_⟩
      · rw [g.1]
        simp only [Fprintln, lineOf_one, String.append_assoc]
        rfl
      · rw [g.2]
        simp only [Fprintln, lineOf_one, String.append_assoc]
        rfl

/-- Witness of C5: ConfirmDeposit with index 7, followed by a MatchOrders
operation with an existing maker and a new taker that lacks a word: the error
is `not enough inputs for matching order` and the trace ends with the lines
MatchOrders wrote before it failed. -/
theorem C5_concat_trace_witness :
    ParseOpsFromU256 (some 5) ([7 <<< 16 ||| 0xDE01] ++ [0xDE03, 27, 1, 2]) =
      Outcome.ret ("newLogicTimeSec: 0\nbeginIndex: 5\nlen(body): 5\n" ++
        "operation ConfirmDeposit:\n  depositIndex:  7\n" ++ "\n" ++
        "operation MatchOrder:\n  makerOrder (existing):\n    trader: 0x0\n    nonce: 0\n  takerOrder (new, v2=27):\n")
        (some Err.notEnoughInputs) :=
  (((C5_concat_trace 5 [7 <<< 16 ||| 0xDE01] [0xDE03, 27, 1, 2]
    "newLogicTimeSec: 0\nbeginIndex: 5\nlen(body): 1\noperation ConfirmDeposit:\n  depositIndex:  7\n"
    (by decide) (by decide) (by decide)).2
    "operation ConfirmDeposit:\n  depositIndex:  7\n" (by decide)).2.1 [0, 0, 1, 2]
    "operation MatchOrder:\n  makerOrder (existing):\n    trader: 0x0\n    nonce: 0\n  takerOrder (new, v2=27):\n"
    0 Err.notEnoughInputs (by decide) (by decide)).2

/-- C11: for every valid supplied header and every non-empty body whose first
word has bits 8..15 different from `0xDE`, whatever its other bits and the
later words, `ParseOpsFromU256` fails with `wrong magic number`
(WrongMagicNumber) and the trace is the two header lines followed by the
`len(body)` line. -/
theorem C11_wrong_magic (h w : Nat) (rest : List Nat) (hh : h < 2 ^ 128)
    (hm : w / 2 ^ 8 % 2 ^ 8 ≠ 0xDE) :
    ParseOpsFromU256 (some h) (w :: rest) =
      Outcome.ret ("newLogicTimeSec: " ++ fmtDec (h / 2 ^ 64) ++ "\n" ++
        "beginIndex: " ++ fmtDec (h % 2 ^ 64) ++ "\n" ++
        "len(body): " ++ fmtDec (w :: rest).length ++ "\n") (some Err.wrongMagicNumber) ∧
    Err.wrongMagicNumber.kind = ErrorKind.WrongMagicNumber := by
  refine ⟨?_, rfl⟩
  have hl : load (w :: rest) 0 = w := rfl
  have hm2 : w % 2 ^ 16 / 2 ^ 8 ≠ 0xDE := by omega
  rw [ParseOpsFromU256_loop h _ hh (by simp), opsLoop_step _ _ _ _ (by simp), hl, if_pos hm2,
    headerText_eq h _ hh]

/-- Witness of C11: the word `0x1234` followed by a ConfirmDeposit word, under
the header 5. -/
theorem C11_wrong_magic_witness :
    ParseOpsFromU256 (some 5) [0x1234, 0xDE01] =
      Outcome.ret "newLogicTimeSec: 0\nbeginIndex: 5\nlen(body): 2\n"
        (some Err.wrongMagicNumber) :=
  (C11_wrong_magic 5 0x1234 [0xDE01] (by decide) (by decide)).1

/-- C12: at an operation-start word (the loop at an index inside the working
copy) the 16-bit opcode decides among three outcomes.  High byte other than
`0xDE`: `wrong magic number`.  Opcode `0xDE00` or in `0xDE07..0xDEFF`:
`invalid opcode` (InvalidOpcode), nothing being written for the word.  Opcode
in `0xDE01..0xDE06`: the magic test passes and the operation dispatched never
fails with InvalidOpcode or WrongMagicNumber.  The three conditions are
exclusive and cover all `2 ^ 16` opcodes. -/
theorem C12_opcode_partition :
    (∀ (fuel : Nat) (m : Mem) (i : Nat) (out : String), i < m.length →
      (load m i % 2 ^ 16) >>> 8 ≠ 0xDE →
      opsLoop (fuel + 1) m i out = Outcome.ret out (some Err.wrongMagicNumber)) ∧
    (∀ (fuel : Nat) (m : Mem) (i : Nat) (out : String), i < m.length →
      load m i % 2 ^ 16 = 0xDE00 ∨ (0xDE07 ≤ load m i % 2 ^ 16 ∧ load m i % 2 ^ 16 ≤ 0xDEFF) →
      opsLoop (fuel + 1) m i out =
        Outcome.ret out (some (Err.invalidOpcode (load m i % 2 ^ 16))) ∧
      (Err.invalidOpcode (load m i % 2 ^ 16)).kind = ErrorKind.InvalidOpcode) ∧
    (∀ (m : Mem) (out : String) (i opcode : Nat), i < m.length →
      0xDE01 ≤ opcode → opcode ≤ 0xDE06 →
      opcode >>> 8 = 0xDE ∧
      ∀ (m1 : Mem) (out1 : String) (c : Nat) (e : Err),
        dispatch m out i opcode = some (m1, out1, c, some e) →
        e.kind ≠ ErrorKind.InvalidOpcode ∧ e.kind ≠ ErrorKind.WrongMagicNumber) ∧
    (∀ opcode : Nat, opcode < 2 ^ 16 →
      (opcode >>> 8 ≠ 0xDE ∧ ¬ (opcode = 0xDE00 ∨ (0xDE07 ≤ opcode ∧ opcode ≤ 0xDEFF)) ∧
        ¬ (0xDE01 ≤ opcode ∧ opcode ≤ 0xDE06)) ∨
      (¬ opcode >>> 8 ≠ 0xDE ∧ (opcode = 0xDE00 ∨ (0xDE07 ≤ opcode ∧ opcode ≤ 0xDEFF)) ∧
        ¬ (0xDE01 ≤ opcode ∧ opcode ≤ 0xDE06)) ∨
      (¬ opcode >>> 8 ≠ 0xDE ∧ ¬ (opcode = 0xDE00 ∨ (0xDE07 ≤ opcode ∧ opcode ≤ 0xDEFF)) ∧
        (0xDE01 ≤ opcode ∧ opcode ≤ 0xDE06))) := by
  refine ⟨?_, ?_, ?_, ?_⟩
  · intro fuel m i out hi hm
    rw [Nat.shiftRight_eq_div_pow] at hm
    rw [opsLoop_step fuel m i out hi, if_pos hm]
  · intro fuel m i out hi ho
    refine ⟨?_, rfl⟩
    have hm : ¬ load m i % 2 ^ 16 / 2 ^ 8 ≠ 0xDE := by omega
    have hd : dispatch (m.set i (load m i / 2 ^ 16)) out i (load m i % 2 ^ 16) =
        some (m.set i (load m i / 2 ^ 16), out, 1, some (Err.invalidOpcode (load m i % 2 ^ 16))) := by
      have h1 : load m i % 2 ^ 16 ≠ 0xDE01 := by omega
      have h2 : load m i % 2 ^ 16 ≠ 0xDE02 := by omega
      have h3 : load m i % 2 ^ 16 ≠ 0xDE03 := by omega
      have h4 : load m i % 2 ^ 16 ≠ 0xDE04 := by omega
      have h5 : load m i % 2 ^ 16 ≠ 0xDE05 := by omega
      have h6 : load m i % 2 ^ 16 ≠ 0xDE06 := by omega
      simp only [dispatch, h1, h2, h3, h4, h5, h6, if_false]
    rw [opsLoop_step fuel m i out hi, if_neg hm, hd]
  · intro m out i opcode hi hlo hhi
    constructor
    · rw [Nat.shiftRight_eq_div_pow]
      omega
    · intro m1 out1 c e hd
      by_cases h3 : opcode = 0xDE03
      · subst h3
        rw [dispatch_DE03 m out i hi] at hd
        have := parseMatchOrdersOp_err m out i (i + 1) m1 out1 c e (Nat.lt_succ_self i) hd
        rcases this with h1 | h1 | h1 | h1 <;> simp [h1]
      · have hc : opcode = 0xDE01 ∨ opcode = 0xDE02 ∨ opcode = 0xDE04 ∨ opcode = 0xDE05 ∨
            opcode = 0xDE06 := by omega
        rcases hc with rfl | rfl | rfl | rfl | rfl <;>
          simp [dispatch, oneWord, parseConfirmDepositOp, parseInitiateWithdrawOp,
            parseHardCancelOrderOp, parseSetFeeRatesOp, parseSetFeeRebatePercentOp] at hd
  · intro opcode ho
    rw [Nat.shiftRight_eq_div_pow]
    omega

/-- Witness of C12: the opcode `0xDE07` at the start of a one-word working
copy, and the opcode `0xDE04` dispatched. -/
theorem C12_opcode_partition_witness :
    opsLoop (0 + 1) [0xDE07] 0 "" = Outcome.ret "" (some (Err.invalidOpcode 0xDE07)) ∧
    (0xDE04 : Nat) >>> 8 = 0xDE :=
  ⟨(C12_opcode_partition.2.1 0 [0xDE07] 0 "" (by decide) (by decide)).1,
    (C12_opcode_partition.2.2.1 [0xDE04] "" 0 0xDE04 (by decide) (by decide) (by decide)).1⟩

/-- C13: for every index d and every valid supplied header, decoding the
one-word body `[(d << 16) | 0xDE01]` returns no error, and the trace is the
header lines followed by `operation ConfirmDeposit:` and
`  depositIndex:  <d in decimal>`; no value of the bits above the opcode makes
ConfirmDeposit fail. -/
theorem C13_confirm_deposit (h d : Nat) (hh : h < 2 ^ 128) :
    ParseOpsFromU256 (some h) [d <<< 16 ||| 0xDE01] =
      Outcome.ret ("newLogicTimeSec: " ++ fmtDec (h / 2 ^ 64) ++ "\n" ++
        "beginIndex: " ++ fmtDec (h % 2 ^ 64) ++ "\n" ++ "len(body): 1\n" ++
        "operation ConfirmDeposit:\n" ++ "  depositIndex:  " ++ fmtDec d ++ "\n") none := by
  have hl : load [2 ^ 16 * d + 0xDE01] 0 = 2 ^ 16 * d + 0xDE01 := rfl
  have a1 : (2 ^ 16 * d + 0xDE01) % 2 ^ 16 = 0xDE01 := by omega
  have a2 : (2 ^ 16 * d + 0xDE01) / 2 ^ 16 = d := by omega
  have g : ¬ ((0xDE01 : Nat) / 2 ^ 8 ≠ 0xDE) := by decide
  have hd : dispatch (List.set [2 ^ 16 * d + 0xDE01] 0 d) (headerText h 1) 0 0xDE01 =
      some ([d], Fprintln (Fprintln (headerText h 1) ["operation ConfirmDeposit:"])
        ["  depositIndex: ", fmtDec d], 1, none) := rfl
  rw [confirm_word, ParseOpsFromU256_loop h _ hh (by simp), opsLoop_step _ _ _ _ (by simp), hl, a1,
    a2, if_neg g]
  simp only [List.length_singleton, hd]
  rw [opsLoop]
  simp only [List.length_singleton, Nat.zero_add, Nat.lt_irrefl, if_false, headerText_eq h 1 hh,
    Fprintln, lineOf_one, lineOf_two, String.append_assoc]
  rfl

/-- Witness of C13: the index `2 ^ 240 - 1` under the header 5. -/
theorem C13_confirm_deposit_witness :
    ParseOpsFromU256 (some 5) [(2 ^ 240 - 1) <<< 16 ||| 0xDE01] =
      Outcome.ret ("newLogicTimeSec: " ++ fmtDec (5 / 2 ^ 64) ++ "\n" ++
        "beginIndex: " ++ fmtDec (5 % 2 ^ 64) ++ "\n" ++ "len(body): 1\n" ++
        "operation ConfirmDeposit:\n" ++ "  depositIndex:  " ++ fmtDec (2 ^ 240 - 1) ++ "\n")
        none :=
  C13_confirm_deposit 5 (2 ^ 240 - 1) (by decide)

/-- C14: in a MatchOrders operation a maker discriminator `v1` other than 0,
27 and 28 makes `parseMatchOrdersOp` fail with `invalid v1` (InvalidDiscriminator)
after the maker line and before any maker field is written, whatever `rest`
is.  Once the maker is decoded without error (existing, or new with its three
words well-formed), a taker discriminator `v2` other than 0, 27 and 28 makes it
fail with `invalid v2` (InvalidDiscriminator) after the taker line and before
any taker field is written, whatever the number of words after the taker
word. -/
theorem C14_invalid_discriminator (m : Mem) (out : String) (bits : Nat) :
    (∀ rest : Slice, load m bits % 2 ^ 8 ≠ 0 → load m bits % 2 ^ 8 ≠ 27 →
      load m bits % 2 ^ 8 ≠ 28 →
      parseMatchOrdersOp m out bits rest =
        some (m.set bits (load m bits / 2 ^ 8),
          out ++ "operation MatchOrder:\n" ++
            "  makerOrder (new, v1=" ++ fmtDec (load m bits % 2 ^ 8) ++ "):\n", 0,
          some (Err.invalidV1 (load m bits % 2 ^ 8))) ∧
      (Err.invalidV1 (load m bits % 2 ^ 8)).kind = ErrorKind.InvalidDiscriminator) ∧
    (∀ s : Nat, bits < s → load m bits % 2 ^ 8 = 0 → load m bits < 2 ^ 232 → s < m.length →
      load m s % 2 ^ 8 ≠ 0 → load m s % 2 ^ 8 ≠ 27 → load m s % 2 ^ 8 ≠ 28 →
      parseMatchOrdersOp m out bits (Slice.sub s) =
        some ((m.set bits 0).set s (load m s / 2 ^ 8),
          out ++ "operation MatchOrder:\n" ++ "  makerOrder (existing):\n" ++
            keyText (load m bits / 2 ^ 8) ++
            "  takerOrder (new, v2=" ++ fmtDec (load m s % 2 ^ 8) ++ "):\n", 0,
          some (Err.invalidV2 (load m s % 2 ^ 8))) ∧
      (Err.invalidV2 (load m s % 2 ^ 8)).kind = ErrorKind.InvalidDiscriminator) ∧
    (∀ s : Nat, bits < s → load m bits % 2 ^ 8 = 27 ∨ load m bits % 2 ^ 8 = 28 →
      load m bits < 2 ^ 232 → s + 4 ≤ m.length → load m s < 2 ^ 240 → load m (s + 1) ≠ 0 →
      load m (s + 2) ≠ 0 → load m (s + 3) % 2 ^ 8 ≠ 0 → load m (s + 3) % 2 ^ 8 ≠ 27 →
      load m (s + 3) % 2 ^ 8 ≠ 28 →
      parseMatchOrdersOp m out bits (Slice.sub s) =
        some (((m.set bits 0).set s 0).set (s + 3) (load m (s + 3) / 2 ^ 8),
          out ++ "operation MatchOrder:\n" ++
            "  makerOrder (new, v1=" ++ fmtDec (load m bits % 2 ^ 8) ++ "):\n" ++
            keyText (load m bits / 2 ^ 8) ++ fieldsText (load m s) ++ sText (load m (s + 1)) ++
            tText (load m (s + 2)) ++
            "  takerOrder (new, v2=" ++ fmtDec (load m (s + 3) % 2 ^ 8) ++ "):\n", 0,
          some (Err.invalidV2 (load m (s + 3) % 2 ^ 8)))) := by
  refine ⟨?_, ?_, ?_⟩
  · intro rest h0 h27 h28
    refine ⟨?_, rfl⟩
    rw [parseMatchOrdersOp_invalid m out bits rest h0 h27 h28]
    simp only [lineOf_one, String.append_assoc]
    rfl
  · intro s hb hv hk hs h0 h27 h28
    refine ⟨?_, rfl⟩
    rw [parseMatchOrdersOp_existing_taker_invalid m out bits s hb hv hk hs h0 h27 h28]
    simp only [lineOf_one, String.append_assoc]
    rfl
  · intro s hb hv hk hs hw h1 h2 h0 h27 h28
    rw [parseMatchOrdersOp_new_taker_invalid m out bits s hb hv hk hs hw h1 h2 h0 h27 h28]
    simp only [lineOf_one, String.append_assoc]
    rfl

/-- Witness of C14: a maker discriminator 5 with no word after the opcode
word; a taker discriminator 5 after an existing maker, and after a new maker,
with no word after the taker word. -/
theorem C14_invalid_discriminator_witness :
    parseMatchOrdersOp [5] "" 0 Slice.nil =
      some ([0], "operation MatchOrder:\n  makerOrder (new, v1=5):\n", 0,
        some (Err.invalidV1 5)) ∧
    parseMatchOrdersOp [0, 5] "" 0 (Slice.sub 1) =
      some ([0, 0],
        "operation MatchOrder:\n  makerOrder (existing):\n" ++ keyText 0 ++
          "  takerOrder (new, v2=5):\n", 0, some (Err.invalidV2 5)) ∧
    parseMatchOrdersOp [27, 5, 6, 7, 5] "" 0 (Slice.sub 1) =
      some ([0, 0, 6, 7, 0],
        "operation MatchOrder:\n  makerOrder (new, v1=27):\n" ++ keyText 0 ++ fieldsText 5 ++
          sText 6 ++ tText 7 ++ "  takerOrder (new, v2=5):\n", 0, some (Err.invalidV2 5)) :=
  ⟨((C14_invalid_discriminator [5] "" 0).1 Slice.nil (by decide) (by decide) (by decide)).1,
    ((C14_invalid_discriminator [0, 5] "" 0).2.1 1 (by decide) (by decide) (by decide)
      (by decide) (by decide) (by decide) (by decide)).1,
    (C14_invalid_discriminator [27, 5, 6, 7, 5] "" 0).2.2 1 (by decide) (by decide) (by decide)
      (by decide) (by decide) (by decide) (by decide) (by decide) (by decide) (by decide)⟩

/-- C15: `parseOrderOpOperand` fails with ExtraBitsInField exactly when a word
has bits left over.  (a) If the order-key cursor is `2 ^ 224` or more (a maker
word of `2 ^ 248` or more, a taker word of `2 ^ 232` or more), it fails with
`extra bits in orderKey` after the trader and nonce lines, whatever `rest` is.
(b) For a new order with a well-formed key, an order-fields word of `2 ^ 240`
or more makes it fail with `extra data in order bits` after the six field
lines, whatever the two signature words hold.  (c) With a key cursor below
`2 ^ 224` and, for a new order, an order-fields word below `2 ^ 240`, no error
it returns is ExtraBitsInField. -/
theorem C15_extra_bits (m : Mem) (out : String) (bits : Nat) :
    (∀ rest : Slice, 2 ^ 224 ≤ load m bits →
      parseOrderOpOperand m out bits rest =
        some (m.set bits (load m bits / 2 ^ 224), out ++ keyText (load m bits),
          some (Err.extraBitsInOrderKey (load m bits / 2 ^ 224))) ∧
      (Err.extraBitsInOrderKey (load m bits / 2 ^ 224)).kind = ErrorKind.ExtraBitsInField) ∧
    (∀ r x y : Nat, bits < r → r + 3 ≤ m.length → load m bits < 2 ^ 224 →
      2 ^ 240 ≤ load m r →
      parseOrderOpOperand ((m.set (r + 1) x).set (r + 2) y) out bits (Slice.sub r) =
        some ((((m.set (r + 1) x).set (r + 2) y).set bits 0).set r (load m r / 2 ^ 240),
          out ++ keyText (load m bits) ++ fieldsText (load m r),
          some (Err.extraDataInOrderBits (load m r / 2 ^ 240))) ∧
      (Err.extraDataInOrderBits (load m r / 2 ^ 240)).kind = ErrorKind.ExtraBitsInField) ∧
    (∀ (rest : Slice) (m1 : Mem) (out1 : String) (e : Err), load m bits < 2 ^ 224 →
      (rest = Slice.nil ∨
        ∃ r, rest = Slice.sub r ∧ bits < r ∧ r + 3 ≤ m.length ∧ load m r < 2 ^ 240) →
      parseOrderOpOperand m out bits rest = some (m1, out1, some e) →
      e.kind ≠ ErrorKind.ExtraBitsInField) ∧
    (∀ W : Nat, 2 ^ 224 ≤ (PopUint8 (PopUint16 W).2).2 ↔ 2 ^ 248 ≤ W) ∧
    (∀ T : Nat, 2 ^ 224 ≤ (PopUint8 T).2 ↔ 2 ^ 232 ≤ T) := by
  refine ⟨?_, ?_, ?_, ?_, ?_⟩
  · intro rest hk
    refine ⟨?_, rfl⟩
    have hne : load m bits / 2 ^ 224 ≠ 0 := by
      have := Nat.div_pos hk (by positivity : 0 < 2 ^ 224)
      omega
    rw [parseOrderOpOperand_key, if_pos hne]
  · intro r x y hb hr hk hw
    refine ⟨?_, rfl⟩
    have hne : load m r / 2 ^ 240 ≠ 0 := by
      have := Nat.div_pos hw (by positivity : 0 < 2 ^ 240)
      omega
    have f : ∀ q, q ≠ r + 1 → q ≠ r + 2 →
        load ((m.set (r + 1) x).set (r + 2) y) q = load m q := by
      intro q h1 h2
      rw [load_set_of_ne _ (r + 2) q y (by omega), load_set_of_ne _ (r + 1) q x (by omega)]
    rw [parseOrderOpOperand_new _ _ _ _ hb (by simpa using hr), f bits (by omega) (by omega),
      f r (by omega) (by omega), Nat.div_eq_of_lt hk, if_pos hne]
    simp
  · intro rest m1 out1 e hk hrest h
    rcases hrest with rfl | ⟨r, rfl, hb, hr, hw⟩
    · rw [parseOrderOpOperand_nil, Nat.div_eq_of_lt hk] at h
      simp at h
    · rw [parseOrderOpOperand_new _ _ _ _ hb hr, Nat.div_eq_of_lt hk, Nat.div_eq_of_lt hw] at h
      simp only [ne_eq, not_true_eq_false, if_false] at h
      split_ifs at h <;>
        simp only [Option.some.injEq, Prod.mk.injEq, reduceCtorEq, and_false] at h
      all_goals
        obtain ⟨-, -, rfl⟩ := h
        simp [Err.kind]
  · intro W
    rw [PopUint16_eq, PopUint8_eq]
    constructor <;> intro h <;> omega
  · intro T
    rw [PopUint8_eq]
    constructor <;> intro h <;> omega

/-- Witness of C15: a key cursor of `2 ^ 224` with `rest` nil, and an
order-fields word of `2 ^ 240` with both signature cells overwritten. -/
theorem C15_extra_bits_witness :
    parseOrderOpOperand [2 ^ 224] "" 0 Slice.nil =
      some ([1], "" ++ keyText (2 ^ 224), some (Err.extraBitsInOrderKey 1)) ∧
    parseOrderOpOperand (([5, 2 ^ 240, 0, 0].set (1 + 1) 8).set (1 + 2) 9) "" 0 (Slice.sub 1) =
      some ([0, 1, 8, 9], "" ++ keyText 5 ++ fieldsText (2 ^ 240),
        some (Err.extraDataInOrderBits 1)) :=
  ⟨((C15_extra_bits [2 ^ 224] "" 0).1 Slice.nil (by decide)).1,
    ((C15_extra_bits [5, 2 ^ 240, 0, 0] "" 0).2.1 1 8 9 (by decide) (by decide) (by decide)
      (by decide)).1⟩

/-- C16: for every non-negative u, each `Pop` function returns the low n bits
of u (n = 8, 16, 32, 64, 160) and leaves the cursor at u divided by `2 ^ n`;
the value returned is below `2 ^ n`, value and cursor give u back, and the
conversions to `uint8`, `uint16`, `uint32` drop nothing. -/
theorem C16_pop_functions (u : Nat) :
    (PopUint8 u = (u % 2 ^ 8, u / 2 ^ 8) ∧ PopUint16 u = (u % 2 ^ 16, u / 2 ^ 16) ∧
      PopUint32 u = (u % 2 ^ 32, u / 2 ^ 32) ∧ PopUint64 u = (u % 2 ^ 64, u / 2 ^ 64) ∧
      PopUint160 u = (u % 2 ^ 160, u / 2 ^ 160)) ∧
    ((PopUint8 u).1 < 2 ^ 8 ∧ (PopUint16 u).1 < 2 ^ 16 ∧ (PopUint32 u).1 < 2 ^ 32 ∧
      (PopUint64 u).1 < 2 ^ 64 ∧ (PopUint160 u).1 < 2 ^ 160) ∧
    ((PopUint8 u).1 + 2 ^ 8 * (PopUint8 u).2 = u ∧
      (PopUint16 u).1 + 2 ^ 16 * (PopUint16 u).2 = u ∧
      (PopUint32 u).1 + 2 ^ 32 * (PopUint32 u).2 = u ∧
      (PopUint64 u).1 + 2 ^ 64 * (PopUint64 u).2 = u ∧
      (PopUint160 u).1 + 2 ^ 160 * (PopUint160 u).2 = u) ∧
    (Uint64 (And u (U64 0xFF)) % 2 ^ 8 = Uint64 (And u (U64 0xFF)) ∧
      Uint64 (And u (U64 0xFFFF)) % 2 ^ 16 = Uint64 (And u (U64 0xFFFF)) ∧
      Uint64 (And u (U64 0xFFFFFFFF)) % 2 ^ 32 = Uint64 (And u (U64 0xFFFFFFFF))) := by
  have m8 := and_mask u 8
  have m16 := and_mask u 16
  have m32 := and_mask u 32
  refine ⟨⟨PopUint8_eq u, PopUint16_eq u, PopUint32_eq u, PopUint64_eq u, PopUint160_eq u⟩, ?_, ?_,
    ?_⟩
  · rw [PopUint8_eq, PopUint16_eq, PopUint32_eq, PopUint64_eq, PopUint160_eq]
    exact ⟨Nat.mod_lt _ (by positivity), Nat.mod_lt _ (by positivity),
      Nat.mod_lt _ (by positivity), Nat.mod_lt _ (by positivity), Nat.mod_lt _ (by positivity)⟩
  · rw [PopUint8_eq, PopUint16_eq, PopUint32_eq, PopUint64_eq, PopUint160_eq]
    exact ⟨Nat.mod_add_div u _, Nat.mod_add_div u _, Nat.mod_add_div u _, Nat.mod_add_div u _,
      Nat.mod_add_div u _⟩
  · simp only [Uint64, And, U64]
    norm_num at m8 m16 m32 ⊢
    rw [m8, m16, m32]
    omega

/-- C17: for each of the opcodes `0xDE04`, `0xDE05` and `0xDE06` the operation
is decoded without error whatever the working copy holds: it leaves the working
copy as it is, appends the line of the operation name and the placeholder line
`  <to be implemented>`, and consumes one word.  At an index inside the working
copy the loop then goes on at the next index. -/
theorem C17_unimplemented_ops :
    (∀ (m : Mem) (out : String) (i : Nat),
      dispatch m out i 0xDE04 =
          some (m, out ++ "operation HardCancel:\n" ++ "  <to be implemented>\n", 1, none) ∧
        dispatch m out i 0xDE05 =
          some (m, out ++ "operation SetFeeRates:\n" ++ "  <to be implemented>\n", 1, none) ∧
        dispatch m out i 0xDE06 =
          some (m, out ++ "operation SetFeeRebatePercent:\n" ++ "  <to be implemented>\n", 1,
            none)) ∧
    (∀ (fuel : Nat) (m : Mem) (i : Nat) (out : String), i < m.length →
      load m i % 2 ^ 16 = 0xDE04 ∨ load m i % 2 ^ 16 = 0xDE05 ∨ load m i % 2 ^ 16 = 0xDE06 →
      ∃ name : String,
        opsLoop (fuel + 1) m i out =
          opsLoop fuel (m.set i (load m i / 2 ^ 16)) (i + 1)
            (if i + 1 < m.length then
              out ++ name ++ "\n" ++ "  <to be implemented>\n" ++ "\n"
            else out ++ name ++ "\n" ++ "  <to be implemented>\n")) := by
  have hd : ∀ (m : Mem) (out : String) (i : Nat),
      dispatch m out i 0xDE04 =
          some (m, out ++ "operation HardCancel:\n" ++ "  <to be implemented>\n", 1, none) ∧
        dispatch m out i 0xDE05 =
          some (m, out ++ "operation SetFeeRates:\n" ++ "  <to be implemented>\n", 1, none) ∧
        dispatch m out i 0xDE06 =
          some (m, out ++ "operation SetFeeRebatePercent:\n" ++ "  <to be implemented>\n", 1,
            none) := by
    intro m out i
    refine ⟨?_, ?_, ?_⟩ <;>
      simp only [dispatch, oneWord, parseHardCancelOrderOp, parseSetFeeRatesOp,
        parseSetFeeRebatePercentOp, Fprintln, lineOf_one, String.append_assoc] <;>
      rfl
  refine ⟨hd, ?_⟩
  intro fuel m i out hi ho
  have g : ∀ op : Nat, op = 0xDE04 ∨ op = 0xDE05 ∨ op = 0xDE06 → ¬ (op / 2 ^ 8 ≠ 0xDE) := by
    intro op hop
    omega
  rw [opsLoop_step fuel m i out hi, if_neg (g _ ho)]
  rcases ho with h4 | h5 | h6
  · refine ⟨"operation HardCancel:", ?_⟩
    rw [h4, (hd _ out i).1]
    simp only [List.length_set, Fprintln, lineOf_one, String.append_assoc, String.empty_append]
    rfl
  · refine ⟨"operation SetFeeRates:", ?_⟩
    rw [h5, (hd _ out i).2.1]
    simp only [List.length_set, Fprintln, lineOf_one, String.append_assoc, String.empty_append]
    rfl
  · refine ⟨"operation SetFeeRebatePercent:", ?_⟩
    rw [h6, (hd _ out i).2.2]
    simp only [List.length_set, Fprintln, lineOf_one, String.append_assoc, String.empty_append]
    rfl

/-- Witness of C17: a HardCancel word with all its other bits set, followed by
one more word. -/
theorem C17_unimplemented_ops_witness :
    ∃ name : String,
      opsLoop (1 + 1) [2 ^ 256 - 1 - 0xFFFF + 0xDE04, 0xDE01] 0 "" =
        opsLoop 1
          ([2 ^ 256 - 1 - 0xFFFF + 0xDE04, 0xDE01].set 0
            (load [2 ^ 256 - 1 - 0xFFFF + 0xDE04, 0xDE01] 0 / 2 ^ 16)) (0 + 1)
          (if 0 + 1 < [2 ^ 256 - 1 - 0xFFFF + 0xDE04, 0xDE01].length then
            "" ++ name ++ "\n" ++ "  <to be implemented>\n" ++ "\n"
          else "" ++ name ++ "\n" ++ "  <to be implemented>\n") :=
  C17_unimplemented_ops.2 1 [2 ^ 256 - 1 - 0xFFFF + 0xDE04, 0xDE01] 0 "" (by decide) (by decide)

/-- C18: `ParseOpsFromU256` never modifies its arguments.  On a heap of
`big.Int` cells, with the header and every body word the address of a cell of
the caller (addresses may repeat), the call returns what `ParseOpsFromU256`
returns on the values of these cells, it returns a trace and an error or none,
and after the call every cell of the caller holds the value it held before: the
header cell, every body cell, and all the others.  All the pops are done on the
cells appended by `new(big.Int).Set`. -/
theorem C18_arguments_unchanged (heap : Mem) (header : Nat) (body : List Nat) (hh : header < heap.length) (hb : ∀ p ∈ body, p < heap.length) :
    (ParseOpsFromU256Heap heap (some header) (body.map some)).1 =
      ParseOpsFromU256 (some (load heap header)) (body.map (load heap)) ∧
    (∃ trace err,
      (ParseOpsFromU256Heap heap (some header) (body.map some)).1 = Outcome.ret trace err) ∧
    (ParseOpsFromU256Heap heap (some header) (body.map some)).2.take heap.length = heap ∧
    load (ParseOpsFromU256Heap heap (some header) (body.map some)).2 header =
      load heap header ∧
    (∀ p ∈ body,
      load (ParseOpsFromU256Heap heap (some header) (body.map some)).2 p = load heap p) := by
  have h1 := ParseOpsFromU256Heap_fst heap header body hb
  obtain ⟨m1, h2⟩ := ParseOpsFromU256Heap_frame heap (some header) (body.map some)
  refine ⟨h1, ?_, ?_, ?_, ?_⟩
  · rw [h1]
    exact ParseOpsFromU256_returns _ _
  · rw [h2, List.take_left]
  · rw [h2, load_append_left_of_lt heap m1 header hh]
  · intro p hp
    rw [h2, load_append_left_of_lt heap m1 p (hb p hp)]

/-- Witness of C18: a heap of two cells, the header 5 and the word of
ConfirmDeposit with index 7, which the body names twice. -/
theorem C18_arguments_unchanged_witness :
    (ParseOpsFromU256Heap [5, 7 <<< 16 ||| 0xDE01] (some 0) ([1, 1].map some)).2.take
      [5, 7 <<< 16 ||| 0xDE01].length = [5, 7 <<< 16 ||| 0xDE01] :=
  (C18_arguments_unchanged [5, 7 <<< 16 ||| 0xDE01] 0 [1, 1] (by decide) (by decide)).2.2.1

/-- On a heap of two cells, the header 5 and the word of ConfirmDeposit with
index 7 named twice by the body, the pops are done on the three cells the call
appends: the copy of the header is left 0 and the two copies of the body word
are left 7. -/
theorem heap_after_call :
    ParseOpsFromU256Heap [5, 7 <<< 16 ||| 0xDE01] (some 0) ([1, 1].map some) =
      (Outcome.ret ("newLogicTimeSec: 0\nbeginIndex: 5\nlen(body): 2\n" ++
          "operation ConfirmDeposit:\n  depositIndex:  7\n\n" ++
          "operation ConfirmDeposit:\n  depositIndex:  7\n") none,
        [5, 7 <<< 16 ||| 0xDE01, 0, 7, 7]) := by
  decide

/-- C19: for every body word w below `2 ^ 256` whose low 16 bits are `0xDE02`,
`parseInitiateWithdrawOp` (reached through the dispatcher, the opcode popped)
prints traderAddr, tokenCode and amountE8 with
`w = (amountE8 << 192) | (tokenCode << 176) | (traderAddr << 16) | 0xDE02`,
traderAddr below `2 ^ 160`, tokenCode below `2 ^ 16`, amountE8 below `2 ^ 64`;
the cell is zero after the three pops; and a word with the same opcode and the
same three printed values is w. -/
theorem C19_withdraw_layout (m : Mem) (out : String) (i w : Nat) (hl : load m i = w) (hw : w < 2 ^ 256) (hop : w % 2 ^ 16 = 0xDE02) :
    dispatch (popAt PopUint16 m i).2 out i (popAt PopUint16 m i).1 =
      some (m.set i 0,
        out ++ "operation InitiateWithdraw:\n" ++
          "  traderAddr: " ++ fmtHex (w / 2 ^ 16 % 2 ^ 160) ++ "\n" ++
          "  tokenCode: " ++ fmtDec (w / 2 ^ 176 % 2 ^ 16) ++ "\n" ++
          "  amountE8: " ++ fmtDec (w / 2 ^ 192 % 2 ^ 64) ++ "\n", 1, none) ∧
    w = (w / 2 ^ 192 % 2 ^ 64) <<< 192 ||| (w / 2 ^ 176 % 2 ^ 16) <<< 176 |||
      (w / 2 ^ 16 % 2 ^ 160) <<< 16 ||| 0xDE02 ∧
    w / 2 ^ 16 % 2 ^ 160 < 2 ^ 160 ∧ w / 2 ^ 176 % 2 ^ 16 < 2 ^ 16 ∧
    w / 2 ^ 192 % 2 ^ 64 < 2 ^ 64 ∧
    (∀ w2 : Nat, w2 < 2 ^ 256 → w2 % 2 ^ 16 = 0xDE02 →
      w2 / 2 ^ 16 % 2 ^ 160 = w / 2 ^ 16 % 2 ^ 160 →
      w2 / 2 ^ 176 % 2 ^ 16 = w / 2 ^ 176 % 2 ^ 16 →
      w2 / 2 ^ 192 % 2 ^ 64 = w / 2 ^ 192 % 2 ^ 64 → w2 = w) ∧
    (∀ a t e : Nat, a < 2 ^ 160 → t < 2 ^ 16 → e < 2 ^ 64 →
      w = e <<< 192 ||| t <<< 176 ||| a <<< 16 ||| 0xDE02 →
      a = w / 2 ^ 16 % 2 ^ 160 ∧ t = w / 2 ^ 176 % 2 ^ 16 ∧ e = w / 2 ^ 192 % 2 ^ 64) := by
  have hu : w / 2 ^ 16 < 2 ^ 240 := by
    apply Nat.div_lt_of_lt_mul
    calc w < 2 ^ 256 := hw
      _ = 2 ^ 16 * 2 ^ 240 := by norm_num
  have d1 : w / 2 ^ 16 / 2 ^ 160 = w / 2 ^ 176 := by
    rw [Nat.div_div_eq_div_mul, ← pow_add]
  have d2 : w / 2 ^ 16 / 2 ^ 176 = w / 2 ^ 192 := by
    rw [Nat.div_div_eq_div_mul, ← pow_add]
  have ba : w / 2 ^ 16 % 2 ^ 160 < 2 ^ 160 := Nat.mod_lt _ (by positivity)
  have bt : w / 2 ^ 176 % 2 ^ 16 < 2 ^ 16 := Nat.mod_lt _ (by positivity)
  have be : w / 2 ^ 192 % 2 ^ 64 < 2 ^ 64 := Nat.mod_lt _ (by positivity)
  refine ⟨?_, ?_, ba, bt, be, ?_, ?_⟩
  · have hd : dispatch (popAt PopUint16 m i).2 out i 0xDE02 =
        oneWord (parseInitiateWithdrawOp (popAt PopUint16 m i).2 out i) := by
      simp [dispatch]
    have h1 : (popAt PopUint16 m i).1 = 0xDE02 := by rw [popAt16, hl, hop]
    rw [h1, hd, parseInitiateWithdrawOp_eq, popAt16, load_set_div, List.set_set, hl,
      Nat.div_eq_of_lt hu, d1, d2]
    rfl
  · rw [withdraw_word _ _ _ ba bt]
    omega
  · intro w2 h2 hop2 ea et ee
    omega
  · intro a t e ha ht he hwe
    rw [withdraw_word a t e ha ht] at hwe
    omega

/-- Witness of C19: the word with traderAddr 1, tokenCode 2 and amountE8 3. -/
theorem C19_withdraw_layout_witness :
    (3 <<< 192 ||| 2 <<< 176 ||| 1 <<< 16 ||| 0xDE02) =
      ((3 <<< 192 ||| 2 <<< 176 ||| 1 <<< 16 ||| 0xDE02) / 2 ^ 192 % 2 ^ 64) <<< 192 |||
        ((3 <<< 192 ||| 2 <<< 176 ||| 1 <<< 16 ||| 0xDE02) / 2 ^ 176 % 2 ^ 16) <<< 176 |||
        ((3 <<< 192 ||| 2 <<< 176 ||| 1 <<< 16 ||| 0xDE02) / 2 ^ 16 % 2 ^ 160) <<< 16 |||
        0xDE02 :=
  (C19_withdraw_layout [3 <<< 192 ||| 2 <<< 176 ||| 1 <<< 16 ||| 0xDE02] "" 0
    (3 <<< 192 ||| 2 <<< 176 ||| 1 <<< 16 ||| 0xDE02) (by decide) (by decide)
    (by decide)).2.1

/-- C20: for every order-fields word w below `2 ^ 240` of a new order with a
well-formed key, `parseOrderOpOperand` writes, after the key lines, the six
lines of pairId, action, ioc, priceE8, amountE8 and expireTimeSec, and leaves
the cell of w zero; the six values satisfy
`w = (expireTimeSec << 176) | (amountE8 << 112) | (priceE8 << 48) | (ioc << 40)
| (action << 32) | pairId`, with pairId below `2 ^ 32`, action and ioc below
`2 ^ 8`, priceE8, amountE8 and expireTimeSec below `2 ^ 64`; a word below
`2 ^ 240` with the same six values is w; and the six values are the only
well-formed fields that pack to w. -/
theorem C20_order_fields_layout (m : Mem) (out : String) (bits r w : Nat) (hb : bits < r) (hr : r + 3 ≤ m.length) (hk : load m bits < 2 ^ 224) (hl : load m r = w) (hw : w < 2 ^ 240) :
    (∃ tail e, parseOrderOpOperand m out bits (Slice.sub r) =
      some ((m.set bits 0).set r 0,
        out ++ keyText (load m bits) ++
          ("    pairId  : " ++ fmtDec (w % 2 ^ 32) ++ "\n" ++
            "    action  : " ++ fmtDec (w / 2 ^ 32 % 2 ^ 8) ++ "\n" ++
            "    ioc     : " ++ fmtDec (w / 2 ^ 40 % 2 ^ 8) ++ "\n" ++
            "    priceE8 : " ++ fmtDec (w / 2 ^ 48 % 2 ^ 64) ++ "\n" ++
            "    amountE8: " ++ fmtDec (w / 2 ^ 112 % 2 ^ 64) ++ "\n" ++
            "    expire  : " ++ fmtDec (w / 2 ^ 176 % 2 ^ 64) ++ "\n") ++ tail, e)) ∧
    w = (w / 2 ^ 176 % 2 ^ 64) <<< 176 ||| (w / 2 ^ 112 % 2 ^ 64) <<< 112 |||
      (w / 2 ^ 48 % 2 ^ 64) <<< 48 ||| (w / 2 ^ 40 % 2 ^ 8) <<< 40 |||
      (w / 2 ^ 32 % 2 ^ 8) <<< 32 ||| w % 2 ^ 32 ∧
    (w % 2 ^ 32 < 2 ^ 32 ∧ w / 2 ^ 32 % 2 ^ 8 < 2 ^ 8 ∧ w / 2 ^ 40 % 2 ^ 8 < 2 ^ 8 ∧
      w / 2 ^ 48 % 2 ^ 64 < 2 ^ 64 ∧ w / 2 ^ 112 % 2 ^ 64 < 2 ^ 64 ∧
      w / 2 ^ 176 % 2 ^ 64 < 2 ^ 64) ∧
    (∀ w2 : Nat, w2 < 2 ^ 240 → w2 % 2 ^ 32 = w % 2 ^ 32 →
      w2 / 2 ^ 32 % 2 ^ 8 = w / 2 ^ 32 % 2 ^ 8 → w2 / 2 ^ 40 % 2 ^ 8 = w / 2 ^ 40 % 2 ^ 8 →
      w2 / 2 ^ 48 % 2 ^ 64 = w / 2 ^ 48 % 2 ^ 64 →
      w2 / 2 ^ 112 % 2 ^ 64 = w / 2 ^ 112 % 2 ^ 64 →
      w2 / 2 ^ 176 % 2 ^ 64 = w / 2 ^ 176 % 2 ^ 64 → w2 = w) ∧
    (∀ p a i pr am ex : Nat, p < 2 ^ 32 → a < 2 ^ 8 → i < 2 ^ 8 → pr < 2 ^ 64 → am < 2 ^ 64 →
      ex < 2 ^ 64 →
      w = ex <<< 176 ||| am <<< 112 ||| pr <<< 48 ||| i <<< 40 ||| a <<< 32 ||| p →
      p = w % 2 ^ 32 ∧ a = w / 2 ^ 32 % 2 ^ 8 ∧ i = w / 2 ^ 40 % 2 ^ 8 ∧
        pr = w / 2 ^ 48 % 2 ^ 64 ∧ am = w / 2 ^ 112 % 2 ^ 64 ∧ ex = w / 2 ^ 176 % 2 ^ 64) := by
  have bp : w % 2 ^ 32 < 2 ^ 32 := Nat.mod_lt _ (by positivity)
  have ba : w / 2 ^ 32 % 2 ^ 8 < 2 ^ 8 := Nat.mod_lt _ (by positivity)
  have bi : w / 2 ^ 40 % 2 ^ 8 < 2 ^ 8 := Nat.mod_lt _ (by positivity)
  have bpr : w / 2 ^ 48 % 2 ^ 64 < 2 ^ 64 := Nat.mod_lt _ (by positivity)
  have bam : w / 2 ^ 112 % 2 ^ 64 < 2 ^ 64 := Nat.mod_lt _ (by positivity)
  have bex : w / 2 ^ 176 % 2 ^ 64 < 2 ^ 64 := Nat.mod_lt _ (by positivity)
  have ft : fieldsText w =
      "    pairId  : " ++ fmtDec (w % 2 ^ 32) ++ "\n" ++
        "    action  : " ++ fmtDec (w / 2 ^ 32 % 2 ^ 8) ++ "\n" ++
        "    ioc     : " ++ fmtDec (w / 2 ^ 40 % 2 ^ 8) ++ "\n" ++
        "    priceE8 : " ++ fmtDec (w / 2 ^ 48 % 2 ^ 64) ++ "\n" ++
        "    amountE8: " ++ fmtDec (w / 2 ^ 112 % 2 ^ 64) ++ "\n" ++
        "    expire  : " ++ fmtDec (w / 2 ^ 176 % 2 ^ 64) ++ "\n" := by
    simp only [fieldsText, lineOf_two, String.append_assoc]
    rfl
  refine ⟨?_, ?_, ⟨bp, ba, bi, bpr, bam, bex⟩, ?_, ?_⟩
  · rw [parseOrderOpOperand_new m out bits r hb hr, Nat.div_eq_of_lt hk, hl,
      Nat.div_eq_of_lt hw, ← ft]
    simp only [ne_eq, not_true_eq_false, if_false]
    split_ifs
    · exact ⟨"", _, by rw [String.append_empty]⟩
    · exact ⟨sText (load m (r + 1)), _, rfl⟩
    · exact ⟨sText (load m (r + 1)) ++ tText (load m (r + 2)), _, by
        rw [← String.append_assoc]⟩
  · rw [fields_word _ _ _ _ _ _ bp ba bi bpr bam]
    omega
  · intro w2 h2 e1 e2 e3 e4 e5 e6
    omega
  · intro p a i pr am ex hp ha hi hpr ham hex hwe
    rw [fields_word p a i pr am ex hp ha hi hpr ham] at hwe
    omega

/-- Witness of C20: the word with expireTimeSec 6, amountE8 5, priceE8 4, ioc 1,
action 2 and pairId 3. -/
theorem C20_order_fields_layout_witness :
    (6 <<< 176 ||| 5 <<< 112 ||| 4 <<< 48 ||| 1 <<< 40 ||| 2 <<< 32 ||| 3) =
      ((6 <<< 176 ||| 5 <<< 112 ||| 4 <<< 48 ||| 1 <<< 40 ||| 2 <<< 32 ||| 3) / 2 ^ 176 %
          2 ^ 64) <<< 176 |||
        ((6 <<< 176 ||| 5 <<< 112 ||| 4 <<< 48 ||| 1 <<< 40 ||| 2 <<< 32 ||| 3) / 2 ^ 112 %
          2 ^ 64) <<< 112 |||
        ((6 <<< 176 ||| 5 <<< 112 ||| 4 <<< 48 ||| 1 <<< 40 ||| 2 <<< 32 ||| 3) / 2 ^ 48 %
          2 ^ 64) <<< 48 |||
        ((6 <<< 176 ||| 5 <<< 112 ||| 4 <<< 48 ||| 1 <<< 40 ||| 2 <<< 32 ||| 3) / 2 ^ 40 %
          2 ^ 8) <<< 40 |||
        ((6 <<< 176 ||| 5 <<< 112 ||| 4 <<< 48 ||| 1 <<< 40 ||| 2 <<< 32 ||| 3) / 2 ^ 32 %
          2 ^ 8) <<< 32 |||
        (6 <<< 176 ||| 5 <<< 112 ||| 4 <<< 48 ||| 1 <<< 40 ||| 2 <<< 32 ||| 3) % 2 ^ 32 :=
  (C20_order_fields_layout
    [7, 6 <<< 176 ||| 5 <<< 112 ||| 4 <<< 48 ||| 1 <<< 40 ||| 2 <<< 32 ||| 3, 8, 9] "" 0 1
    (6 <<< 176 ||| 5 <<< 112 ||| 4 <<< 48 ||| 1 <<< 40 ||| 2 <<< 32 ||| 3) (by decide)
    (by decide) (by decide) (by decide) (by decide)).2.1

end ParseTx
